import Mathlib

/-!
# Undo/redo reconciliation of the darkroom history stack

A shallow embedding of `src/libs/history.c`: the history snapshots stored on
the undo stack, the three reconciliation steps run when a snapshot is popped
(`_rebuild_multi_priority`, `_create_deleted_modules`,
`_check_deleted_instances`), the pop handler `_pop_undo` and the signal
callbacks of the history panel.

Modelling conventions.

* Module instances live in a heap and are referred to by address (`ModPtr`);
  a history item holds `Option ModPtr` (`none` is the NULL module).  The heap
  only grows: the C code never frees a module.
* A `GList *` of history items is always the head of its list and is a Lean
  list.  A `GList *` of modules is a `GList`: the chain of nodes it belongs to
  together with the index of the node pointed at, because
  `_create_deleted_modules` can hand back a pointer that is no longer the head.
* The GUI calls (expanders, widgets, accelerators), the mutex and the calls
  that write the history to the database and read it back are outside the
  model.

The marker functions of `src/dtgtk/gradientslider.c` (`_slider_move`,
`_get_active_marker_internal`, `_get_active_marker_from_screen`) are embedded
in the namespace `GradientSlider`; its conventions are stated there.
-/

set_option autoImplicit false

namespace History

/-! ## Data model -/

/-- Address of a `dt_iop_module_t` in the module heap. -/
abbrev ModPtr := Nat

/-- The fields of `dt_iop_module_t` that `history.c` reads or writes, together
with the configuration of its operation (what `module->so` and the module's
function table provide: `hidden` is the answer of `dt_iop_is_hidden`,
`load_fails` whether `dt_iop_load_module` fails for this operation). -/
structure dt_iop_module_t where
  op : String
  instance_ : Int
  multi_priority : Int
  multi_name : String
  iop_order : Int
  enabled : Bool
  params : List Nat
  expander : Bool
  hidden : Bool
  default_enabled : Bool
  default_params : List Nat
  load_fails : Bool
deriving DecidableEq, Repr, Inhabited

/-- The module heap: contents by address and the next free address. -/
structure Heap where
  mem : ModPtr → dt_iop_module_t
  next : Nat

/-- One history item (`dt_dev_history_item_t`); `params` is the opaque
parameter blob. -/
structure dt_dev_history_item_t where
  module : Option ModPtr
  op_name : String
  multi_priority : Int
  multi_name : String
  iop_order : Int
  enabled : Bool
  params : List Nat
deriving DecidableEq, Repr, Inhabited

/-- One entry of the pipeline order list (`dt_iop_order_entry_t`). -/
structure dt_iop_order_entry_t where
  operation : String
  instance_ : Int
  iop_order : Int
deriving DecidableEq, Repr, Inhabited

/-- The record stored on the undo stack for one history change. -/
structure dt_undo_history_t where
  before_snapshot : List dt_dev_history_item_t
  after_snapshot : List dt_dev_history_item_t
  before_end : Int
  after_end : Int
  before_iop_order_list : List dt_iop_order_entry_t
  after_iop_order_list : List dt_iop_order_entry_t
deriving DecidableEq, Repr, Inhabited

/-- The data of the history panel (`dt_lib_history_t`), widgets left out. -/
structure dt_lib_history_t where
  record_undo : Bool
  previous_snapshot : List dt_dev_history_item_t
  previous_history_end : Int
  previous_iop_order_list : List dt_iop_order_entry_t
deriving DecidableEq, Repr, Inhabited

/-- A `GList *` into a list of modules: `chain` is the whole doubly linked
list (what `g_list_first` reaches), `pos` the index of the node pointed at.
NULL is the empty chain. -/
structure GList where
  chain : List ModPtr
  pos : Nat
deriving DecidableEq, Repr, Inhabited

/-- The two fields of a pixelpipe that `_pop_undo` writes. -/
structure dt_dev_pixelpipe_t where
  changed : Nat
  cache_obsolete : Int
deriving DecidableEq, Repr, Inhabited

/-- The fields of `dt_develop_t` used by the history panel. -/
structure dt_develop_t where
  history : List dt_dev_history_item_t
  history_end : Int
  iop : GList
  alliop : List ModPtr
  iop_order_list : List dt_iop_order_entry_t
  gui_module : Option ModPtr
  pipe : dt_dev_pixelpipe_t
  preview_pipe : dt_dev_pixelpipe_t
  preview2_pipe : dt_dev_pixelpipe_t
deriving DecidableEq, Repr, Inhabited

/-- The global `darktable` as far as the history panel sees it: the develop
object, the records stored on the undo stack, the module heap and the panel
data (`self->data`). -/
structure darktable_t where
  develop : dt_develop_t
  undo : List dt_undo_history_t
  heap : Heap
  lib : dt_lib_history_t

inductive dt_undo_type_t where
  | DT_UNDO_GEOTAG
  | DT_UNDO_HISTORY
  | DT_UNDO_MASK
  | DT_UNDO_RATINGS
deriving DecidableEq, Repr

inductive dt_undo_action_t where
  | DT_ACTION_UNDO
  | DT_ACTION_REDO
deriving DecidableEq, Repr

open dt_undo_type_t dt_undo_action_t

/-- Bit of `dt_dev_pixelpipe_change_t` telling a pipe that a module was removed. -/
def DT_DEV_PIPE_REMOVE : Nat := 2

/-! ## Collaborators declared outside `history.c` -/

/-- Modelled from the spec: `dt_history_duplicate` deep-copies the entries of a
history list, in order; a copy keeps every field of its original, the module
reference included. -/
def dt_history_duplicate (hist : List dt_dev_history_item_t) : List dt_dev_history_item_t :=
  hist.map fun old => { old with }

/-- Modelled from the spec: `dt_ioppr_iop_order_copy_deep` deep-copies a
pipeline order list. -/
def dt_ioppr_iop_order_copy_deep (l : List dt_iop_order_entry_t) : List dt_iop_order_entry_t :=
  l.map fun e => { e with }

/-- Modelled from the spec: `dt_dev_invalidate_history_module` nulls the module
reference of every entry that references `module`; no entry is removed. -/
def dt_dev_invalidate_history_module (list : List dt_dev_history_item_t) (module : ModPtr) :
    List dt_dev_history_item_t :=
  list.map fun hitem => if hitem.module = some module then { hitem with module := none } else hitem

/-- Modelled from the spec: `dt_undo_iterate_internal` (and `dt_undo_iterate`,
its locking variant) visits every record stored on the undo/redo stack and lets
the callback update it in place. -/
def dt_undo_iterate_internal (undo : List dt_undo_history_t)
    (apply : dt_undo_history_t → dt_undo_history_t) : List dt_undo_history_t :=
  undo.map apply

/-- Modelled from the spec: `dt_undo_record` pushes a record on the undo stack. -/
def dt_undo_record (undo : List dt_undo_history_t) (data : dt_undo_history_t) :
    List dt_undo_history_t :=
  data :: undo

/-- Modelled from the spec: `dt_iop_get_module_from_list` (`find(opName)`)
returns the first instance of the list, from its first node, whose operation is
`op`. -/
def dt_iop_get_module_from_list (heap : Heap) (iop_list : GList) (op : String) : Option ModPtr :=
  iop_list.chain.find? fun mod => (heap.mem mod).op = op

/-- Modelled from the spec: `dt_iop_load_module` builds a new instance by
cloning the configuration of the base instance, not its parameter values;
`none` when loading fails. -/
def dt_iop_load_module (base : dt_iop_module_t) : Option dt_iop_module_t :=
  if base.load_fails then none
  else some
    { op := base.op, instance_ := 0, multi_priority := 0, multi_name := "", iop_order := 0,
      enabled := base.default_enabled, params := base.default_params, expander := false,
      hidden := base.hidden, default_enabled := base.default_enabled,
      default_params := base.default_params, load_fails := base.load_fails }

/-- Modelled from the spec: `dt_iop_update_multi_priority` overwrites the
  instance priority of a live module. -/
def dt_iop_update_multi_priority (heap : Heap) (module : ModPtr) (new_priority : Int) : Heap :=
  { heap with mem := Function.update heap.mem module
                { heap.mem module with multi_priority := new_priority } }

/-- Modelled from the spec: `dt_sort_iop_by_order` compares two modules by
their pipeline order key; this is `cmp a b <= 0`. -/
def dt_sort_iop_by_order (heap : Heap) (a b : ModPtr) : Prop :=
  (heap.mem a).iop_order ≤ (heap.mem b).iop_order

instance (heap : Heap) : DecidableRel (dt_sort_iop_by_order heap) :=
  fun a b => inferInstanceAs (Decidable ((heap.mem a).iop_order ≤ (heap.mem b).iop_order))

/-! ## GLib list primitives on module lists -/

/-- The head of the list a pointer belongs to. -/
def g_list_first (list : GList) : GList := ⟨list.chain, 0⟩

/-- A fresh list holding the nodes from the one pointed at onwards. -/
def g_list_copy (list : GList) : GList := ⟨list.chain.drop list.pos, 0⟩

/-- Stable sort of the nodes from the one pointed at onwards; the result is
the head of the sorted list, and nodes before the pointer are cut off. -/
def g_list_sort (heap : Heap) (list : GList) : GList :=
  ⟨(list.chain.drop list.pos).insertionSort (dt_sort_iop_by_order heap), 0⟩

/-- Insertion of `data` before the first node, from the one pointed at, that
does not compare below it (at the end when there is none).  The pointer
returned has the index of the pointer given. -/
def g_list_insert_sorted (heap : Heap) (list : GList) (data : ModPtr) : GList :=
  if list.chain = [] then ⟨[data], 0⟩
  else ⟨list.chain.take list.pos
          ++ (list.chain.drop list.pos).orderedInsert (dt_sort_iop_by_order heap) data, list.pos⟩

/-- Index, in the chain, at which `g_list_insert_sorted` links the new node. -/
def g_list_insert_sorted_index (heap : Heap) (list : GList) (data : ModPtr) : Nat :=
  list.pos + ((list.chain.drop list.pos).takeWhile
    fun b => decide ¬ dt_sort_iop_by_order heap data b).length

/-- Unlinks the node at index `link` of the chain.  The list pointer keeps
pointing at its node, and moves to the next node (NULL when there is none) if
its own node is the one unlinked. -/
def g_list_remove_link (list : GList) (link : Nat) : GList :=
  if link < list.pos then ⟨list.chain.eraseIdx link, list.pos - 1⟩
  else if link = list.pos then
    if list.pos + 1 < list.chain.length then ⟨list.chain.eraseIdx link, list.pos⟩ else ⟨[], 0⟩
  else ⟨list.chain.eraseIdx link, list.pos⟩

/-! ## The functions of `history.c` -/

/-- `_reset_module_instance`: every entry of `hist` with a NULL module, the
operation of `module` and the given instance priority now references `module`. -/
def _reset_module_instance (heap : Heap) (hist : List dt_dev_history_item_t) (module : ModPtr)
    (multi_priority : Int) : List dt_dev_history_item_t :=
  hist.map fun hit =>
    if hit.module = none ∧ hit.op_name = (heap.mem module).op ∧ hit.multi_priority = multi_priority
    then { hit with module := some module }
    else hit

/-- User data of `_undo_items_cb`. -/
structure _cb_data where
  module : ModPtr
  multi_priority : Int

/-- `_undo_items_cb`: the visitor that resets the module of one stored record. -/
def _undo_items_cb (heap : Heap) (udata : _cb_data) (hdata : dt_undo_history_t) :
    dt_undo_history_t :=
  { hdata with
    after_snapshot := _reset_module_instance heap hdata.after_snapshot udata.module
                        udata.multi_priority }

/-- `_history_invalidate_cb`: the visitor that nulls `module` in one stored record. -/
def _history_invalidate_cb (module : ModPtr) (hist : dt_undo_history_t) : dt_undo_history_t :=
  { hist with after_snapshot := dt_dev_invalidate_history_module hist.after_snapshot module }

/-- `_add_module_expander`: a visible module without an expander gets one. -/
def _add_module_expander (heap : Heap) (module : ModPtr) : Heap :=
  if ¬ (heap.mem module).hidden ∧ ¬ (heap.mem module).expander then
    { heap with mem := Function.update heap.mem module { heap.mem module with expander := true } }
  else heap

/-- `_search_history_by_module`: the first history entry that references `module`. -/
def _search_history_by_module :
    List dt_dev_history_item_t → ModPtr → Option dt_dev_history_item_t
  | [], _ => none
  | hist_item :: history, module =>
    if hist_item.module = some module then some hist_item
    else _search_history_by_module history module

/-- One forward pass of the `while(modules)` loop of `_check_deleted_instances`
from the node at index `i`: the index of the node the pass decides to delete,
`none` when the pass reaches the end of the list without deleting. -/
def _check_deleted_instances_scan (heap : Heap) (history_list : List dt_dev_history_item_t) :
    List ModPtr → Nat → Option Nat
  | [], _ => none
  | mod :: rest, i =>
    if (heap.mem mod).multi_priority = 0 then
      match rest with
      | [] => none
      | mod_next :: _ =>
        if (heap.mem mod_next).op = (heap.mem mod).op ∧ (heap.mem mod_next).multi_priority = 0 then
          let mod_in_history := (_search_history_by_module history_list mod).isSome
          let mod_next_in_history := (_search_history_by_module history_list mod_next).isSome
          if mod_in_history ∧ ¬ mod_next_in_history then some (i + 1)
          else if ¬ mod_in_history ∧ mod_next_in_history then some i
          else _check_deleted_instances_scan heap history_list rest (i + 1)
        else _check_deleted_instances_scan heap history_list rest (i + 1)
    else if (_search_history_by_module history_list mod).isNone then some i
    else _check_deleted_instances_scan heap history_list rest (i + 1)

/-- What `_check_deleted_instances` leaves behind: its return value, the list
written to `*_iop_list`, the retained pool `dev->alliop`, the focused module
and the undo stack. -/
structure CheckResult where
  deleted_module_found : Int
  iop_list : GList
  alliop : List ModPtr
  gui_module : Option ModPtr
  undo : List dt_undo_history_t

/-- The `while(modules)` loop of `_check_deleted_instances`.  Each round is a
pass from the first node of the list; a pass that deletes a node unlinks it,
nulls it in every stored record, appends it to the retained pool and starts
over.  `fuel` bounds the number of deletions. -/
def _check_deleted_instances_loop (heap : Heap) (history_list : List dt_dev_history_item_t) :
    Nat → CheckResult → CheckResult
  | 0, st => st
  | fuel + 1, st =>
    match _check_deleted_instances_scan heap history_list (g_list_first st.iop_list).chain 0 with
    | none => st
    | some link =>
      match st.iop_list.chain.get? link with
      | none => st
      | some mod =>
        _check_deleted_instances_loop heap history_list fuel
          { deleted_module_found := 1
            iop_list := g_list_remove_link st.iop_list link
            alliop := st.alliop ++ [mod]
            gui_module := if st.gui_module = some mod then none else st.gui_module
            undo := dt_undo_iterate_internal st.undo (_history_invalidate_cb mod) }

/-- `_check_deleted_instances`: removes from the registry the instances that
the target history does not need. -/
def _check_deleted_instances (heap : Heap) (undo : List dt_undo_history_t) (dev : dt_develop_t)
    (iop_list : GList) (history_list : List dt_dev_history_item_t) : CheckResult :=
  let st := _check_deleted_instances_loop heap history_list iop_list.chain.length
    { deleted_module_found := 0, iop_list := iop_list, alliop := dev.alliop,
      gui_module := dev.gui_module, undo := undo }
  if st.deleted_module_found ≠ 0 then { st with iop_list := g_list_sort heap st.iop_list } else st

/-- The loop of `_rebuild_multi_priority` over the history entries. -/
def _rebuild_multi_priority_loop : List dt_dev_history_item_t → Heap × Int → Heap × Int
  | [], st => st
  | hitem :: history, (heap, changed) =>
    match hitem.module with
    | some module =>
      if (heap.mem module).multi_priority ≠ hitem.multi_priority then
        _rebuild_multi_priority_loop history
          (dt_iop_update_multi_priority heap module hitem.multi_priority, 1)
      else _rebuild_multi_priority_loop history (heap, changed)
    | none => _rebuild_multi_priority_loop history (heap, changed)

/-- `_rebuild_multi_priority`: the live instance priority of every module
referenced by the history is set to the priority recorded in the history. -/
def _rebuild_multi_priority (heap : Heap) (history_list : List dt_dev_history_item_t) :
    Heap × Int :=
  _rebuild_multi_priority_loop history_list (heap, 0)

/-- The variables of the loop of `_create_deleted_modules`: the local
`iop_list`, the pointer the caller still holds in `*_iop_list` (the same chain,
seen from the node that was its head on entry), the history list, the heap,
the undo stack and the flag `done`. -/
structure CreateState where
  iop_list : GList
  caller : GList
  history_list : List dt_dev_history_item_t
  heap : Heap
  undo : List dt_undo_history_t
  done : Bool

/-- What `_create_deleted_modules` leaves behind: its return value, the value
of `*_iop_list`, the history list, the heap and the undo stack. -/
structure CreateResult where
  changed : Int
  iop_list : GList
  history_list : List dt_dev_history_item_t
  heap : Heap
  undo : List dt_undo_history_t

/-- The body of the loop of `_create_deleted_modules` for an entry `hitem`, at
index `l` of the history list, whose module is NULL.  An early `return changed`
is an error carrying what the caller then sees: `*_iop_list` is not written, so
the caller keeps its own pointer into the chain. -/
def _create_deleted_modules_resurrect (l : Nat) (hitem : dt_dev_history_item_t)
    (st : CreateState) : Except CreateResult CreateState :=
  match dt_iop_get_module_from_list st.heap st.iop_list hitem.op_name with
  | none =>
    .error { changed := 1, iop_list := st.caller, history_list := st.history_list,
             heap := st.heap, undo := st.undo }
  | some base_module =>
    let module := st.heap.next
    match dt_iop_load_module (st.heap.mem base_module) with
    | none =>
      .error { changed := 1, iop_list := st.caller, history_list := st.history_list,
               heap := { st.heap with next := st.heap.next + 1 }, undo := st.undo }
    | some loaded =>
      let heap1 : Heap :=
        { mem := Function.update st.heap.mem module
            { loaded with
              instance_ := (st.heap.mem base_module).instance_
              multi_name := hitem.multi_name
              multi_priority := hitem.multi_priority
              iop_order := hitem.iop_order }
          next := st.heap.next + 1 }
      let link := g_list_insert_sorted_index heap1 st.iop_list module
      let iop_list := g_list_insert_sorted heap1 st.iop_list module
      let caller : GList :=
        ⟨iop_list.chain, if link ≤ st.caller.pos then st.caller.pos + 1 else st.caller.pos⟩
      let heap2 := _add_module_expander heap1 module
      let history_list :=
        if st.done then st.history_list
        else _reset_module_instance heap2 st.history_list module hitem.multi_priority
      let undo :=
        if st.done then st.undo
        else dt_undo_iterate_internal st.undo (_undo_items_cb heap2 ⟨module, hitem.multi_priority⟩)
      .ok { iop_list := iop_list, caller := caller
            history_list := history_list.set l { hitem with module := some module }
            heap := heap2, undo := undo, done := true }

/-- The normal exit of `_create_deleted_modules`: the local list is written
back to `*_iop_list`. -/
def _create_deleted_modules_exit (changed : Int) (st : CreateState) : CreateResult :=
  { changed := changed, iop_list := st.iop_list, history_list := st.history_list,
    heap := st.heap, undo := st.undo }

/-- The `while(l)` loop of `_create_deleted_modules`; `l` is the index of the
current node of the history list and `fuel` the number of nodes left. -/
def _create_deleted_modules_loop : Nat → Nat → Int → CreateState → CreateResult
  | 0, _, changed, st => _create_deleted_modules_exit changed st
  | fuel + 1, l, changed, st =>
    match st.history_list.get? l with
    | none => _create_deleted_modules_exit changed st
    | some hitem =>
      if hitem.module = none then
        match _create_deleted_modules_resurrect l hitem st with
        | .error r => r
        | .ok st1 => _create_deleted_modules_loop fuel (l + 1) 1 st1
      else _create_deleted_modules_loop fuel (l + 1) changed st

/-- `_create_deleted_modules`: creates a module instance for every history
entry whose module is NULL. -/
def _create_deleted_modules (heap : Heap) (undo : List dt_undo_history_t) (iop_list : GList)
    (history_list : List dt_dev_history_item_t) : CreateResult :=
  _create_deleted_modules_loop history_list.length 0 0
    { iop_list := iop_list, caller := iop_list, history_list := history_list, heap := heap,
      undo := undo, done := false }

/-- The three reconciliation steps of `_pop_undo` on its working copies. -/
structure Reconciled where
  pipe_remove : Bool
  check : CheckResult
  history_temp : List dt_dev_history_item_t
  heap : Heap

/-- The part of `_pop_undo` that works on the copies `history_temp` and
`iop_temp`: the three steps in order, `pipe_remove` collecting their results. -/
def _pop_undo_reconcile (dt : darktable_t) (history_temp : List dt_dev_history_item_t) :
    Reconciled :=
  let dev := dt.develop
  let iop_temp := g_list_copy dev.iop
  let rebuilt := _rebuild_multi_priority dt.heap history_temp
  let iop_temp := if rebuilt.2 ≠ 0 then g_list_sort rebuilt.1 iop_temp else iop_temp
  let created := _create_deleted_modules rebuilt.1 dt.undo iop_temp history_temp
  let checked :=
    _check_deleted_instances created.heap created.undo dev created.iop_list created.history_list
  { pipe_remove :=
      decide (rebuilt.2 ≠ 0) || decide (created.changed ≠ 0)
        || decide (checked.deleted_module_found ≠ 0)
    check := checked
    history_temp := created.history_list
    heap := created.heap }

/-- The update of one pixelpipe when the topology has changed. -/
def pipe_refresh (pipe_remove : Bool) (pipe : dt_dev_pixelpipe_t) : dt_dev_pixelpipe_t :=
  if pipe_remove then
    { changed := pipe.changed ||| DT_DEV_PIPE_REMOVE, cache_obsolete := 1 }
  else pipe

/-- `_pop_undo`: the handler the undo stack calls with a stored record and the
action to perform.  The state returned is the one committed under the history
mutex; writing it to the database and reloading it are not modelled. -/
def _pop_undo (dt : darktable_t) (type : dt_undo_type_t) (hist : dt_undo_history_t)
    (action : dt_undo_action_t) : darktable_t :=
  if type = DT_UNDO_HISTORY then
    let dev := dt.develop
    let history_temp :=
      if action = DT_ACTION_UNDO then dt_history_duplicate hist.before_snapshot
      else dt_history_duplicate hist.after_snapshot
    let hist_end := if action = DT_ACTION_UNDO then hist.before_end else hist.after_end
    let iop_order_list :=
      if action = DT_ACTION_UNDO then dt_ioppr_iop_order_copy_deep hist.before_iop_order_list
      else dt_ioppr_iop_order_copy_deep hist.after_iop_order_list
    let r := _pop_undo_reconcile dt history_temp
    { develop :=
        { history := r.history_temp
          history_end := hist_end
          iop := r.check.iop_list
          alliop := r.check.alliop
          iop_order_list := iop_order_list
          gui_module := r.check.gui_module
          pipe := pipe_refresh r.pipe_remove dev.pipe
          preview_pipe := pipe_refresh r.pipe_remove dev.preview_pipe
          preview2_pipe := pipe_refresh r.pipe_remove dev.preview2_pipe }
      undo := r.check.undo
      heap := r.heap
      lib := { dt.lib with record_undo := false } }
  else dt

/-- `_lib_history_module_remove_callback`: handler of the module-removed signal. -/
def _lib_history_module_remove_callback (dt : darktable_t) (module : ModPtr) : darktable_t :=
  { dt with undo := dt_undo_iterate_internal dt.undo (_history_invalidate_cb module) }

/-- `_lib_history_will_change_callback`: handler of the history-will-change
signal, which carries a copy of the history, its cursor and the order list. -/
def _lib_history_will_change_callback (dt : darktable_t) (history : List dt_dev_history_item_t)
    (history_end : Int) (iop_order_list : List dt_iop_order_entry_t) : darktable_t :=
  if dt.lib.record_undo then
    { dt with
      lib := { dt.lib with
               previous_snapshot := history
               previous_history_end := history_end
               previous_iop_order_list := iop_order_list } }
  else dt

/-- `_lib_history_change_callback`: handler of the history-changed signal, as
far as the undo stack is concerned (the rebuilding of the button list is GUI). -/
def _lib_history_change_callback (dt : darktable_t) : darktable_t :=
  if dt.lib.record_undo = true then
    let hist : dt_undo_history_t :=
      { before_snapshot := dt_history_duplicate dt.lib.previous_snapshot
        before_end := dt.lib.previous_history_end
        before_iop_order_list := dt_ioppr_iop_order_copy_deep dt.lib.previous_iop_order_list
        after_snapshot := dt_history_duplicate dt.develop.history
        after_end := dt.develop.history_end
        after_iop_order_list := dt_ioppr_iop_order_copy_deep dt.develop.iop_order_list }
    { dt with undo := dt_undo_record dt.undo hist }
  else { dt with lib := { dt.lib with record_undo := true } }

/-- `gui_init`: the initial data of the history panel. -/
def gui_init (dt : darktable_t) : darktable_t :=
  { dt with
    lib := { record_undo := true, previous_snapshot := [], previous_history_end := 0,
             previous_iop_order_list := [] } }

/-! ## Predicates and scenarios used in the statements -/

/-- Some entry of the history list references the module. -/
def referenced (history_list : List dt_dev_history_item_t) (module : ModPtr) : Prop :=
  ∃ e ∈ history_list, e.module = some module

/-- The state in which `_check_deleted_instances` enters its loop. -/
def check_init (undo : List dt_undo_history_t) (dev : dt_develop_t) (iop_list : GList) :
    CheckResult :=
  { deleted_module_found := 0, iop_list := iop_list, alliop := dev.alliop,
    gui_module := dev.gui_module, undo := undo }

/-- A history entry with its module reference blanked: all the fields that
the reconciliation must not touch. -/
def fields (hitem : dt_dev_history_item_t) : dt_dev_history_item_t :=
  { hitem with module := none }

/-- The display name the instance resolving a NULL entry `e` carries: the name
of the first NULL entry when `e` receives its instance by the propagation of
the first resurrection, its own name otherwise. -/
def expected_name (done : Bool) (first : Option dt_dev_history_item_t)
    (e : dt_dev_history_item_t) : String :=
  if done then e.multi_name
  else match first with
    | some f =>
      if e.op_name = f.op_name ∧ e.multi_priority = f.multi_priority then f.multi_name
      else e.multi_name
    | none => e.multi_name

/-- The conditions under which no resurrection of the pass can fail. -/
def resurrectable (st : CreateState) : Prop :=
  st.caller.chain = st.iop_list.chain ∧
  (∀ m ∈ st.iop_list.chain, m < st.heap.next) ∧
  (∀ m ∈ st.iop_list.chain, (st.heap.mem m).load_fails = false) ∧
  (∀ e ∈ st.history_list, e.module = none →
    ∃ m ∈ st.iop_list.chain, (st.heap.mem m).op = e.op_name)

/-- What the loop does for a NULL entry: the claims of the resolution. -/
def resolved (st : CreateState) (r : CreateResult) (l k : Nat) (e : dt_dev_history_item_t) :
    Prop :=
  ∃ m : Nat, r.history_list.get? k = some { e with module := some m } ∧
    m ∈ r.iop_list.chain ∧ st.heap.next ≤ m ∧ m < r.heap.next ∧
    (r.heap.mem m).op = e.op_name ∧ (r.heap.mem m).multi_priority = e.multi_priority ∧
    (r.heap.mem m).multi_name =
      expected_name st.done ((st.history_list.drop l).find? fun x => x.module.isNone) e

/-- Two versions of a stored record that differ at most in the module
references of the entries of the after snapshot. -/
def same_record (a b : dt_undo_history_t) : Prop :=
  b.before_snapshot = a.before_snapshot ∧
  b.after_snapshot.map fields = a.after_snapshot.map fields ∧
  b.before_end = a.before_end ∧ b.after_end = a.after_end ∧
  b.before_iop_order_list = a.before_iop_order_list ∧
  b.after_iop_order_list = a.after_iop_order_list

/-- The record the pop handler takes its target from. -/
def target_snapshot (hist : dt_undo_history_t) (action : dt_undo_action_t) :
    List dt_dev_history_item_t :=
  if action = DT_ACTION_UNDO then hist.before_snapshot else hist.after_snapshot

/-- The cursor stored with the target snapshot. -/
def target_end (hist : dt_undo_history_t) (action : dt_undo_action_t) : Int :=
  if action = DT_ACTION_UNDO then hist.before_end else hist.after_end

/-- The pipeline order list stored with the target snapshot. -/
def target_iop_order_list (hist : dt_undo_history_t) (action : dt_undo_action_t) :
    List dt_iop_order_entry_t :=
  if action = DT_ACTION_UNDO then hist.before_iop_order_list else hist.after_iop_order_list

/-- The cursor invariant of a history list: `0 ≤ cursor ≤ length`. -/
def cursor_ok (history : List dt_dev_history_item_t) (history_end : Int) : Prop :=
  0 ≤ history_end ∧ history_end ≤ history.length

/-- Both snapshots of a stored record satisfy the cursor invariant. -/
def record_ok (r : dt_undo_history_t) : Prop :=
  cursor_ok r.before_snapshot r.before_end ∧ cursor_ok r.after_snapshot r.after_end

/-- Modelled from the spec: what reaches the history panel.  The three signals
of the pipeline, an edit of the live pipeline by its owner (between a
will-change and a changed signal the pipeline mutates history and registry),
and the undo stack popping the record at index `i` for an undo or a redo.
`detached` tells whether the stack takes the record out of its lists while the
handler runs (it is then not visited by `dt_undo_iterate_internal`) and puts it
back afterwards; the spec leaves this open, so both are covered. -/
inductive Event where
  | will_change (history : List dt_dev_history_item_t) (history_end : Int)
      (iop_order_list : List dt_iop_order_entry_t)
  | pipeline (develop : dt_develop_t) (heap : Heap)
  | changed
  | module_remove (module : ModPtr)
  | pop (i : Nat) (action : dt_undo_action_t) (detached : Bool)

/-- The reaction of the history panel to one event. -/
def step (dt : darktable_t) : Event → darktable_t
  | .will_change history history_end iop_order_list =>
    _lib_history_will_change_callback dt history history_end iop_order_list
  | .pipeline develop heap => { dt with develop := develop, heap := heap }
  | .changed => _lib_history_change_callback dt
  | .module_remove module => _lib_history_module_remove_callback dt module
  | .pop i action detached =>
    match dt.undo.get? i with
    | none => dt
    | some hist =>
      if detached then
        let s := _pop_undo { dt with undo := dt.undo.eraseIdx i } DT_UNDO_HISTORY hist action
        { s with undo := s.undo.take i ++ hist :: s.undo.drop i }
      else _pop_undo dt DT_UNDO_HISTORY hist action

/-- The state after a sequence of events. -/
def run (dt : darktable_t) (evs : List Event) : darktable_t :=
  evs.foldl step dt

/-- The side condition of the cursor invariant: every will-change signal
carries a cursor within its history, and the live pipeline satisfies the same
bound whenever a changed signal is handled. -/
def admissible (dt : darktable_t) : List Event → Prop
  | [] => True
  | ev :: evs =>
    (match ev with
      | .will_change history history_end _ => cursor_ok history history_end
      | .changed => cursor_ok dt.develop.history dt.develop.history_end
      | _ => True) ∧ admissible (step dt ev) evs

/-- The key by which the spec compares history entries: operation name,
  instance priority, enabled flag and parameter blob. -/
def history_key (e : dt_dev_history_item_t) : String × Int × Bool × List Nat :=
  (e.op_name, e.multi_priority, e.enabled, e.params)

/-- The live history as the list of its keys. -/
def history_keys (dt : darktable_t) : List (String × Int × Bool × List Nat) :=
  dt.develop.history.map history_key

/-- The module registry as the list of the keys of its instances. -/
def registry_keys (dt : darktable_t) : List (String × Int × Bool × List Nat) :=
  dt.develop.iop.chain.map fun m =>
    ((dt.heap.mem m).op, (dt.heap.mem m).multi_priority, (dt.heap.mem m).enabled,
      (dt.heap.mem m).params)

/-- A heap holding the given modules at the addresses `0, 1, ...`. -/
def Heap.ofList (l : List dt_iop_module_t) : Heap :=
  ⟨fun p => l.getD p default, l.length⟩

/-- A visible, loadable module instance for the examples. -/
def example_module (op : String) (multi_priority iop_order : Int) : dt_iop_module_t :=
  { op := op, instance_ := 0, multi_priority := multi_priority, multi_name := "",
    iop_order := iop_order, enabled := true, params := [1], expander := true, hidden := false,
    default_enabled := false, default_params := [], load_fails := false }

/-- A history entry for the examples. -/
def example_item (module : Option ModPtr) (op_name : String) (multi_priority : Int)
    (multi_name : String) (iop_order : Int) : dt_dev_history_item_t :=
  { module := module, op_name := op_name, multi_priority := multi_priority,
    multi_name := multi_name, iop_order := iop_order, enabled := true, params := [7] }

/-- A develop object for the examples. -/
def example_develop (history : List dt_dev_history_item_t) (history_end : Int)
    (iop : List ModPtr) : dt_develop_t :=
  { history := history, history_end := history_end, iop := ⟨iop, 0⟩, alliop := [],
    iop_order_list := [], gui_module := none, pipe := ⟨0, 0⟩, preview_pipe := ⟨0, 0⟩,
    preview2_pipe := ⟨0, 0⟩ }

/-- Example: operation X with its base instance (address 0) and a second
  instance of priority 1 (address 1). -/
def example_heap_two : Heap :=
  Heap.ofList [example_module "X" 0 10, example_module "X" 1 9]

/-- Example: the history edits the base instance, then the second instance;
the cursor is on the first entry. -/
def example_state_two : darktable_t :=
  gui_init
    { develop := example_develop
        [example_item (some 0) "X" 0 "" 10, example_item (some 1) "X" 1 "" 9] 1 [1, 0]
      undo := [], heap := example_heap_two, lib := default }

/-- Example: with the cursor on the first entry the base instance is edited
again, which replaces the entry of the second instance. -/
def example_edit_two : List Event :=
  [ .will_change [example_item (some 0) "X" 0 "" 10, example_item (some 1) "X" 1 "" 9] 1 [],
    .pipeline (example_develop
        [example_item (some 0) "X" 0 "" 10, example_item (some 0) "X" 0 "" 10] 2 [1, 0])
      example_heap_two,
    .changed ]

/-- The invariant of the controller behind the cursor invariant. -/
def controller_ok (dt : darktable_t) : Prop :=
  (∀ r ∈ dt.undo, record_ok r) ∧
    cursor_ok dt.lib.previous_snapshot dt.lib.previous_history_end

instance (history_list : List dt_dev_history_item_t) (module : ModPtr) :
    Decidable (referenced history_list module) := by
  unfold referenced
  infer_instance

instance (history : List dt_dev_history_item_t) (history_end : Int) :
    Decidable (cursor_ok history history_end) := by
  unfold cursor_ok
  infer_instance

instance admissible_decidable :
    (evs : List Event) → (dt : darktable_t) → Decidable (admissible dt evs)
  | [], _ => isTrue trivial
  | .will_change history history_end iop_order_list :: evs, dt =>
    let _ := admissible_decidable evs (step dt (.will_change history history_end iop_order_list))
    inferInstanceAs (Decidable (cursor_ok history history_end ∧
      admissible (step dt (.will_change history history_end iop_order_list)) evs))
  | .pipeline develop heap :: evs, dt =>
    let _ := admissible_decidable evs (step dt (.pipeline develop heap))
    inferInstanceAs (Decidable (True ∧ admissible (step dt (.pipeline develop heap)) evs))
  | .changed :: evs, dt =>
    let _ := admissible_decidable evs (step dt .changed)
    inferInstanceAs (Decidable (cursor_ok dt.develop.history dt.develop.history_end ∧
      admissible (step dt .changed) evs))
  | .module_remove module :: evs, dt =>
    let _ := admissible_decidable evs (step dt (.module_remove module))
    inferInstanceAs (Decidable (True ∧ admissible (step dt (.module_remove module)) evs))
  | .pop i action detached :: evs, dt =>
    let _ := admissible_decidable evs (step dt (.pop i action detached))
    inferInstanceAs (Decidable (True ∧ admissible (step dt (.pop i action detached)) evs))

/-- Example: the registry holds the base instance of operation C. -/
def example_heap_base : Heap := Heap.ofList [example_module "C" 0 10]

/-- Example: a record whose two snapshots both hold the NULL entry (C, 5). -/
def example_record_null : dt_undo_history_t :=
  { before_snapshot := [example_item none "C" 5 "" 9]
    after_snapshot := [example_item none "C" 5 "" 9]
    before_end := 1, after_end := 1, before_iop_order_list := [], after_iop_order_list := [] }

/-- Example: the registry holds the base instances of operations X and Y. -/
def example_heap_xy : Heap := Heap.ofList [example_module "X" 0 10, example_module "Y" 0 20]

/-- The entries of a snapshot after the removal of the modules `removed`:
an entry that references one of them has its module reference nulled, every
other entry is kept as it is. -/
def invalidate_all (removed : List ModPtr) (list : List dt_dev_history_item_t) :
    List dt_dev_history_item_t :=
  list.map fun e => if (∃ m ∈ removed, e.module = some m) then { e with module := none } else e

/-- The undo stack after the removal of the modules `removed`: the after
snapshot of every record is invalidated, nothing else changes. -/
def invalidate_stack (removed : List ModPtr) (undo : List dt_undo_history_t) :
    List dt_undo_history_t :=
  undo.map fun r => { r with after_snapshot := invalidate_all removed r.after_snapshot }

/-- Example: the second instance of X is deleted by the user.  The pipeline
takes it out of the registry and its entry out of the history, the changed
signal is raised, then the module-removed signal. -/
def example_delete_two : List Event :=
  [ .will_change [example_item (some 0) "X" 0 "" 10, example_item (some 1) "X" 1 "" 9] 2 [],
    .pipeline { example_develop [example_item (some 0) "X" 0 "" 10] 1 [0] with alliop := [1] }
      example_heap_two,
    .changed,
    .module_remove 1 ]

/-- The working copy of the registry on which `_pop_undo` runs its second and
third step. -/
def iop_temp_sorted (dt : darktable_t) (history_temp : List dt_dev_history_item_t) : GList :=
  if (_rebuild_multi_priority dt.heap history_temp).2 ≠ 0 then
    g_list_sort (_rebuild_multi_priority dt.heap history_temp).1 (g_list_copy dt.develop.iop)
  else g_list_copy dt.develop.iop

/-- Example: a record stored after a second edit of the instance at address 1;
both snapshots reference that instance. -/
def example_record_live : dt_undo_history_t :=
  { before_snapshot := [example_item (some 1) "X" 1 "" 9]
    after_snapshot := [example_item (some 1) "X" 1 "" 9, example_item (some 1) "X" 1 "" 9]
    before_end := 1, after_end := 2, before_iop_order_list := [], after_iop_order_list := [] }

/-- Example: the state of the first example with that record on the undo stack. -/
def example_state_live : darktable_t :=
  { example_state_two with undo := [example_record_live] }

/-- Whether an event is the history-will-change signal. -/
def is_will_change : Event → Bool
  | .will_change _ _ _ => true
  | _ => false

/-- Example: a history with the single entry of the base instance of X. -/
def example_history_one : List dt_dev_history_item_t := [example_item (some 0) "X" 0 "" 10]

/-- Example: two entries that reference the instance at address 0 and record
different instance priorities. -/
def example_history_conflict : List dt_dev_history_item_t :=
  [example_item (some 0) "X" 1 "" 10, example_item (some 0) "X" 2 "" 10]

/-- The result of the first reconciliation step of `_pop_undo`. -/
def reconcile_rebuilt (dt : darktable_t) (history_temp : List dt_dev_history_item_t) :
    Heap × Int :=
  _rebuild_multi_priority dt.heap history_temp

/-- The result of the second reconciliation step of `_pop_undo`, run on what
the first step left. -/
def reconcile_created (dt : darktable_t) (history_temp : List dt_dev_history_item_t) :
    CreateResult :=
  _create_deleted_modules (reconcile_rebuilt dt history_temp).1 dt.undo
    (iop_temp_sorted dt history_temp) history_temp

/-- The result of the third reconciliation step of `_pop_undo`, run on what
the second step left. -/
def reconcile_checked (dt : darktable_t) (history_temp : List dt_dev_history_item_t) :
    CheckResult :=
  _check_deleted_instances (reconcile_created dt history_temp).heap
    (reconcile_created dt history_temp).undo dt.develop
    (reconcile_created dt history_temp).iop_list (reconcile_created dt history_temp).history_list

instance (heap : Heap) : IsTotal ModPtr (dt_sort_iop_by_order heap) :=
  ⟨fun a b => le_total (heap.mem a).iop_order (heap.mem b).iop_order⟩

instance (heap : Heap) : IsTrans ModPtr (dt_sort_iop_by_order heap) :=
  ⟨fun _ _ _ hab hbc => le_trans hab hbc⟩

/-- The variables of the `while(modules)` loop of `_check_deleted_instances`:
what the function has built so far and the node `modules` points at, by its
  index in the chain (`none` is NULL). -/
structure CheckLoop where
  vars : CheckResult
  modules : Option Nat

/-- The pointer to the node at index `i` of a chain: NULL past its end.  With
`i = 0` this is `g_list_first`, with `i + 1` it is `g_list_next` of node `i`. -/
def g_list_nth (chain : List ModPtr) (i : Nat) : Option Nat :=
  if i < chain.length then some i else none

/-- The decision of one round of the `while(modules)` loop, for the node at
  index `modules` holding `mod`: the node to delete (`delete_module = 1`, with
`modules` moved to the next node when that is the one to go), `none` when
`delete_module` stays 0. -/
def _check_deleted_instances_delete (heap : Heap) (history_list : List dt_dev_history_item_t)
    (chain : List ModPtr) (modules : Nat) (mod : ModPtr) : Option Nat :=
  if (heap.mem mod).multi_priority = 0 then
    match chain.get? (modules + 1) with
    | none => none
    | some mod_next =>
      if (heap.mem mod_next).op = (heap.mem mod).op ∧ (heap.mem mod_next).multi_priority = 0 then
        let mod_in_history := (_search_history_by_module history_list mod).isSome
        let mod_next_in_history := (_search_history_by_module history_list mod_next).isSome
        if mod_in_history ∧ ¬ mod_next_in_history then some (modules + 1)
        else if ¬ mod_in_history ∧ mod_next_in_history then some modules
        else none
      else none
  else if (_search_history_by_module history_list mod).isNone then some modules
  else none

/-- The `if(delete_module)` block of the loop: the node at index `link` is
unlinked, nulled in every stored record and appended to the retained pool, and
`modules` is reset to the first node of what is left. -/
def _check_deleted_instances_remove (st : CheckResult) (link : Nat) : CheckLoop :=
  match st.iop_list.chain.get? link with
  | none => ⟨st, none⟩
  | some mod =>
    ⟨{ deleted_module_found := 1
       iop_list := g_list_remove_link st.iop_list link
       alliop := st.alliop ++ [mod]
       gui_module := if st.gui_module = some mod then none else st.gui_module
       undo := dt_undo_iterate_internal st.undo (_history_invalidate_cb mod) },
     g_list_nth (g_list_remove_link st.iop_list link).chain 0⟩

/-- One round of the `while(modules)` loop of `_check_deleted_instances`, with
`modules` at the node of index `modules`. -/
def _check_deleted_instances_body (heap : Heap) (history_list : List dt_dev_history_item_t)
    (st : CheckResult) (modules : Nat) : CheckLoop :=
  match st.iop_list.chain.get? modules with
  | none => ⟨st, none⟩
  | some mod =>
    match _check_deleted_instances_delete heap history_list st.iop_list.chain modules mod with
    | some link => _check_deleted_instances_remove st link
    | none => ⟨st, g_list_nth st.iop_list.chain (modules + 1)⟩

/-- The `while(modules)` loop of `_check_deleted_instances`, round by round;
`fuel` bounds the number of rounds, and the result is `none` when the loop has
not come to its end within them. -/
def _check_deleted_instances_while (heap : Heap) (history_list : List dt_dev_history_item_t) :
    Nat → CheckLoop → Option CheckResult
  | 0, s =>
    match s.modules with
    | none => some s.vars
    | some _ => none
  | fuel + 1, s =>
    match s.modules with
    | none => some s.vars
    | some modules =>
      _check_deleted_instances_while heap history_list fuel
        (_check_deleted_instances_body heap history_list s.vars modules)

/-- A bound on the number of rounds of the loop for a registry of `n`
  instances: `n + (n - 1) + ... + 1`. -/
def check_rounds : Nat → Nat
  | 0 => 0
  | n + 1 => check_rounds n + (n + 1)

/-- Example: a record whose before snapshot holds two NULL entries: one for an
  instance of X with priority 1 and order 5, which sorts before every instance of
the registry, and one for an operation Z that has no instance in the registry. -/
def example_record_partial : dt_undo_history_t :=
  { before_snapshot := [example_item none "X" 1 "" 5, example_item none "Z" 1 "" 30]
    after_snapshot := []
    before_end := 2, after_end := 0, before_iop_order_list := [], after_iop_order_list := [] }

/-- Example: the live state with the base instances of X (order 10) and Y
(order 20) as its registry, an empty history and an empty undo stack. -/
def example_state_partial : darktable_t :=
  { develop := example_develop [] 0 [0, 1], undo := [], heap := example_heap_xy,
    lib := default }

end History

namespace GradientSlider

/-! ## The gradient slider (`src/dtgtk/gradientslider.c`)

`gint` is `Int` and `gdouble` is `ℚ`: the comparisons, assignments and the
`fmin`/`fmax` with a constant of `_slider_move` and `_clamp_marker` are exact on
every value that is not a NaN.  The arithmetic of `_get_position_from_screen`
is the exact one (rounding errors, NaN and infinities are outside the model).
Arrays are functions of the index.  An `assert` that fails ends the run: the
functions that contain one return an `Option`. -/

/-- The constants of `dtgtk/gradientslider.h` that the functions below compare
with.  The header is not among the sources, so they are a parameter. -/
structure gradientslider_h where
  MOVE_LEFT : Int
  MOVE_RIGHT : Int
  GRADIENT_SLIDER_MARKER_UPPER_OPEN : Int
  GRADIENT_SLIDER_MARKER_UPPER_FILLED : Int
  GRADIENT_SLIDER_MARKER_UPPER_OPEN_BIG : Int
  GRADIENT_SLIDER_MARKER_UPPER_FILLED_BIG : Int
  GRADIENT_SLIDER_MARKER_LOWER_OPEN : Int
  GRADIENT_SLIDER_MARKER_LOWER_FILLED : Int
  GRADIENT_SLIDER_MARKER_LOWER_OPEN_BIG : Int
  GRADIENT_SLIDER_MARKER_LOWER_FILLED_BIG : Int

/-- The size of a widget (`GtkAllocation`), as far as the slider reads it. -/
structure GtkAllocation where
  width : Int
  height : Int
deriving DecidableEq, Repr, Inhabited

/-- The fields of `GtkDarktableGradientSlider` used by the marker functions,
with the allocation of its `GtkWidget` part. -/
structure GtkDarktableGradientSlider where
  allocation : GtkAllocation
  positions : Int
  position : Int → ℚ
  marker : Int → Int
  increment : ℚ
  margin_left : Int
  margin_right : Int

/-- The macro `CLAMP` of GLib. -/
def CLAMP (x low high : ℚ) : ℚ :=
  if x > high then high else if x < low then low else x

/-- The function `roundf` of the C library on exact values: the nearest
  integer, halfway cases away from zero. -/
def roundf (x : ℚ) : ℚ :=
  if 0 ≤ x then ((Int.floor (x + 1 / 2) : Int) : ℚ) else ((Int.ceil (x - 1 / 2) : Int) : ℚ)

/-- The conversion of a `gdouble` to `gint`: truncation towards zero. -/
def gint_of_gdouble (x : ℚ) : Int :=
  if 0 ≤ x then Int.floor x else Int.ceil x

/-- `_test_if_marker_is_upper_or_down`: whether a marker of type `marker` can be
picked on the upper (`up`) or on the lower side of the slider. -/
def _test_if_marker_is_upper_or_down (h : gradientslider_h) (marker : Int) (up : Bool) : Bool :=
  if up = true ∧ (marker = h.GRADIENT_SLIDER_MARKER_LOWER_OPEN ∨
      marker = h.GRADIENT_SLIDER_MARKER_LOWER_FILLED ∨
      marker = h.GRADIENT_SLIDER_MARKER_LOWER_OPEN_BIG ∨
      marker = h.GRADIENT_SLIDER_MARKER_LOWER_FILLED_BIG) then false
  else if up = false ∧ (marker = h.GRADIENT_SLIDER_MARKER_UPPER_OPEN ∨
      marker = h.GRADIENT_SLIDER_MARKER_UPPER_FILLED ∨
      marker = h.GRADIENT_SLIDER_MARKER_UPPER_OPEN_BIG ∨
      marker = h.GRADIENT_SLIDER_MARKER_UPPER_FILLED_BIG) then false
  else true

/-- `_screen_to_scale`: a screen abscissa as a value of the scale. -/
def _screen_to_scale (widget : GtkDarktableGradientSlider) (screen : Int) : ℚ :=
  ((screen : ℚ) - widget.margin_left) /
    ((widget.allocation.width : ℚ) - widget.margin_left - widget.margin_right)

/-- `_get_position_from_screen`: the scale value under the pointer, rounded to
a multiple of the increment and clamped to `[0, 1]`. -/
def _get_position_from_screen (widget : GtkDarktableGradientSlider) (x : ℚ) : ℚ :=
  CLAMP (roundf (_screen_to_scale widget (gint_of_gdouble x) / widget.increment)
    * widget.increment) 0 1

/-- The `for` loop of `_get_active_marker_internal` from index `k` on, with
`fuel` rounds left and `lselected` as it stands; the `break` ends the loop with
the current index. -/
def _get_active_marker_internal_loop (h : gradientslider_h)
    (gslider : GtkDarktableGradientSlider) (newposition : ℚ) (up : Bool) :
    Nat → Int → Int → Int
  | 0, _, lselected => lselected
  | fuel + 1, k, lselected =>
    if k < gslider.positions then
      if _test_if_marker_is_upper_or_down h (gslider.marker k) up = true then
        if abs (newposition - gslider.position k)
            < abs (newposition - gslider.position (if lselected < 0 then k else lselected))
        then k
        else _get_active_marker_internal_loop h gslider newposition up fuel (k + 1)
          (if lselected < 0 then k else lselected)
      else _get_active_marker_internal_loop h gslider newposition up fuel (k + 1) lselected
    else lselected

/-- `_get_active_marker_internal`: the marker picked on one side of the slider
for a pointer at abscissa `x`, `-1` when there is none; `none` when
`assert(gslider->positions > 0)` fails. -/
def _get_active_marker_internal (h : gradientslider_h) (widget : GtkDarktableGradientSlider)
    (x : ℚ) (up : Bool) : Option Int :=
  if widget.positions > 0 then
    some (_get_active_marker_internal_loop h widget (_get_position_from_screen widget x) up
      widget.positions.toNat 0 (-1))
  else none

/-- `_get_active_marker_from_screen`: the marker picked for a pointer at
`(x, y)`, on the side of the pointer first, on the other side when that side has
no marker; `none` when an assertion fails. -/
def _get_active_marker_from_screen (h : gradientslider_h) (widget : GtkDarktableGradientSlider)
    (x y : ℚ) : Option Int :=
  let up : Bool := decide (y ≤ (widget.allocation.height : ℚ) / 2)
  match _get_active_marker_internal h widget x up with
  | none => none
  | some lselected =>
    match (if lselected < 0 then _get_active_marker_internal h widget x (!up)
           else some lselected) with
    | none => none
    | some lselected => if lselected ≥ 0 then some lselected else none

/-- `_slider_move`: moves marker `k` to `value`, pushing the markers in its
way.  The result is the slider and the value returned; `fuel` bounds the depth
of the recursion, `none` when it is exceeded. -/
def _slider_move (h : gradientslider_h) :
    Nat → GtkDarktableGradientSlider → Int → ℚ → Int → Option (GtkDarktableGradientSlider × ℚ)
  | 0, _, _, _, _ => none
  | fuel + 1, gslider, k, value, direction =>
    let leftnext : ℚ := if k = 0 then 0 else gslider.position (k - 1)
    let rightnext : ℚ := if k = gslider.positions - 1 then 1 else gslider.position (k + 1)
    let moved : Option (GtkDarktableGradientSlider × ℚ) :=
      if direction = h.MOVE_LEFT then
        if value < leftnext then
          if k = 0 then some (gslider, max value 0)
          else _slider_move h fuel gslider (k - 1) value direction
        else some (gslider, value)
      else if direction = h.MOVE_RIGHT then
        if value > rightnext then
          if k = gslider.positions - 1 then some (gslider, min value 1)
          else _slider_move h fuel gslider (k + 1) value direction
        else some (gslider, value)
      else some (gslider, value)
    match moved with
    | none => none
    | some (gslider, newvalue) =>
      some ({ gslider with position := Function.update gslider.position k newvalue }, newvalue)

/-- The direction the event handlers pass to `_slider_move` for the marker
`selected` and the position `newposition` of the pointer. -/
def move_direction (h : gradientslider_h) (gslider : GtkDarktableGradientSlider)
    (selected : Int) (newposition : ℚ) : Int :=
  if gslider.position selected ≤ newposition then h.MOVE_RIGHT else h.MOVE_LEFT

/-- The marker positions are non-decreasing. -/
def ordered (gslider : GtkDarktableGradientSlider) : Prop :=
  ∀ i j : Int, 0 ≤ i → i ≤ j → j < gslider.positions →
    gslider.position i ≤ gslider.position j

/-- The marker positions lie in `[0, 1]`. -/
def within_unit (gslider : GtkDarktableGradientSlider) : Prop :=
  ∀ j : Int, 0 ≤ j → j < gslider.positions →
    0 ≤ gslider.position j ∧ gslider.position j ≤ 1

/-- Marker `j` is one that a move of marker `k` to `value` passes: it lies
between the two, on the side the marker moves to. -/
def passed (gslider : GtkDarktableGradientSlider) (k : Int) (value : ℚ) (j : Int) : Prop :=
  0 ≤ j ∧ j < gslider.positions ∧
    ((k < j ∧ gslider.position j < value) ∨ (j < k ∧ value < gslider.position j))

instance (gslider : GtkDarktableGradientSlider) (k : Int) (value : ℚ) (j : Int) :
    Decidable (passed gslider k value j) := by
  unfold passed
  infer_instance

/-- No marker constant of the lower side is one of the upper side. -/
def gradientslider_h.distinct (h : gradientslider_h) : Prop :=
  ∀ lower ∈ [h.GRADIENT_SLIDER_MARKER_LOWER_OPEN, h.GRADIENT_SLIDER_MARKER_LOWER_FILLED,
      h.GRADIENT_SLIDER_MARKER_LOWER_OPEN_BIG, h.GRADIENT_SLIDER_MARKER_LOWER_FILLED_BIG],
    ∀ upper ∈ [h.GRADIENT_SLIDER_MARKER_UPPER_OPEN, h.GRADIENT_SLIDER_MARKER_UPPER_FILLED,
      h.GRADIENT_SLIDER_MARKER_UPPER_OPEN_BIG, h.GRADIENT_SLIDER_MARKER_UPPER_FILLED_BIG],
    lower ≠ upper

/-- Example: the values that the bit tests of `_gradient_slider_draw` read off
a marker (`0x01` filled, `0x02` lower arrow, `0x04` upper arrow, `0x08` big). -/
def example_h : gradientslider_h :=
  { MOVE_LEFT := 0, MOVE_RIGHT := 1,
    GRADIENT_SLIDER_MARKER_UPPER_OPEN := 4, GRADIENT_SLIDER_MARKER_UPPER_FILLED := 5,
    GRADIENT_SLIDER_MARKER_UPPER_OPEN_BIG := 12, GRADIENT_SLIDER_MARKER_UPPER_FILLED_BIG := 13,
    GRADIENT_SLIDER_MARKER_LOWER_OPEN := 2, GRADIENT_SLIDER_MARKER_LOWER_FILLED := 3,
    GRADIENT_SLIDER_MARKER_LOWER_OPEN_BIG := 10, GRADIENT_SLIDER_MARKER_LOWER_FILLED_BIG := 11 }

/-- Example: a slider 140 wide and 20 high with margins of 6, the increment
`1/4` and three markers of the lower side at `0`, `1/4` and `1/2`. -/
def example_slider : GtkDarktableGradientSlider :=
  { allocation := ⟨140, 20⟩, positions := 3,
    position := fun k => if k = 1 then 1 / 4 else if k = 2 then 1 / 2 else 0,
    marker := fun _ => 3, increment := 1 / 4, margin_left := 6, margin_right := 6 }

/-- Marker `k` exists and can be picked on the given side. -/
def accepted (h : gradientslider_h) (gslider : GtkDarktableGradientSlider) (up : Bool)
    (k : Int) : Prop :=
  0 ≤ k ∧ k < gslider.positions ∧
    _test_if_marker_is_upper_or_down h (gslider.marker k) up = true

end GradientSlider

namespace History
open dt_undo_type_t dt_undo_action_t

/-! ## Lemmas -/

theorem search_isSome_iff (hist : List dt_dev_history_item_t) (m : ModPtr) :
    (_search_history_by_module hist m).isSome = true ↔ referenced hist m := by
  unfold referenced
  induction hist with
  | nil => simp [_search_history_by_module]
  | cons h t ih =>
    unfold _search_history_by_module
    by_cases hh : h.module = some m
    · simp [hh]
    · simp [hh, ih]

theorem search_isNone_iff (hist : List dt_dev_history_item_t) (m : ModPtr) :
    (_search_history_by_module hist m).isNone = true ↔ ¬ referenced hist m := by
  rw [← search_isSome_iff]
  cases _search_history_by_module hist m <;> simp

theorem scan_some (heap : Heap) (hist : List dt_dev_history_item_t) :
    ∀ (l : List ModPtr) (i j : Nat), _check_deleted_instances_scan heap hist l i = some j →
      ∃ k d, j = i + k ∧ l.get? k = some d ∧ ¬ referenced hist d ∧
        ((heap.mem d).multi_priority ≠ 0 ∨
          ∃ a ∈ l, (heap.mem a).op = (heap.mem d).op ∧ (heap.mem a).multi_priority = 0 ∧
            (heap.mem d).multi_priority = 0 ∧ referenced hist a) := by
  intro l
  induction l with
  | nil => intro i j h; simp [_check_deleted_instances_scan] at h
  | cons mod rest ih =>
    intro i j h
    have lift : (∃ k d, j = (i + 1) + k ∧ rest.get? k = some d ∧ ¬ referenced hist d ∧
        ((heap.mem d).multi_priority ≠ 0 ∨
          ∃ a ∈ rest, (heap.mem a).op = (heap.mem d).op ∧ (heap.mem a).multi_priority = 0 ∧
            (heap.mem d).multi_priority = 0 ∧ referenced hist a)) →
        ∃ k d, j = i + k ∧ (mod :: rest).get? k = some d ∧ ¬ referenced hist d ∧
        ((heap.mem d).multi_priority ≠ 0 ∨
          ∃ a ∈ mod :: rest, (heap.mem a).op = (heap.mem d).op ∧ (heap.mem a).multi_priority = 0 ∧
            (heap.mem d).multi_priority = 0 ∧ referenced hist a) := by
      rintro ⟨k, d, hj, hk, hd, hor⟩
      refine ⟨k + 1, d, by omega, by simpa using hk, hd, ?_⟩
      rcases hor with h1 | ⟨a, ha, h2⟩
      · exact Or.inl h1
      · exact Or.inr ⟨a, List.mem_cons_of_mem _ ha, h2⟩
    unfold _check_deleted_instances_scan at h
    split at h
    · rename_i hp
      cases rest with
      | nil => simp at h
      | cons mod_next rest2 =>
        simp only at h
        split at h
        · rename_i hsame
          split at h
          · rename_i hc
            -- delete next
            simp only [Option.some.injEq] at h
            refine ⟨1, mod_next, h.symm, by simp, ?_, Or.inr ⟨mod, by simp, ?_, hp, hsame.2, ?_⟩⟩
            · rw [← search_isSome_iff]; exact hc.2
            · exact hsame.1.symm
            · rw [← search_isSome_iff]; exact hc.1
          · split at h
            · rename_i hc
              simp only [Option.some.injEq] at h
              refine ⟨0, mod, by omega, by simp, ?_, Or.inr ⟨mod_next, by simp, hsame.1, hsame.2, hp, ?_⟩⟩
              · rw [← search_isSome_iff]; exact hc.1
              · rw [← search_isSome_iff]; exact hc.2
            · exact lift (ih _ _ h)
        · exact lift (ih _ _ h)
    · rename_i hp
      split at h
      · rename_i hc
        simp only [Option.some.injEq] at h
        exact ⟨0, mod, by omega, by simp, (search_isNone_iff _ _).1 hc, Or.inl hp⟩
      · exact lift (ih _ _ h)

theorem g_list_remove_link_head (l : List ModPtr) (j : Nat) (hj : j < l.length) :
    g_list_remove_link ⟨l, 0⟩ j = ⟨l.eraseIdx j, 0⟩ := by
  unfold g_list_remove_link
  cases j with
  | zero =>
    cases l with
    | nil => simp at hj
    | cons a t =>
      cases t with
      | nil => simp
      | cons b t2 => simp
  | succ n => simp

/-- Induction over the deletions of `_check_deleted_instances_loop` on a list
held by its head. -/
theorem check_loop_induct (heap : Heap) (hist : List dt_dev_history_item_t)
    (P : List ModPtr → Prop)
    (hstep : ∀ l j d, P l → _check_deleted_instances_scan heap hist l 0 = some j →
      l.get? j = some d → P (l.eraseIdx j)) :
    ∀ (fuel : Nat) (st : CheckResult), st.iop_list.pos = 0 → P st.iop_list.chain →
      P (_check_deleted_instances_loop heap hist fuel st).iop_list.chain ∧
      (_check_deleted_instances_loop heap hist fuel st).iop_list.pos = 0 := by
  intro fuel
  induction fuel with
  | zero => intro st h0 hP; exact ⟨hP, h0⟩
  | succ n ih =>
    intro st h0 hP
    unfold _check_deleted_instances_loop
    simp only [g_list_first]
    cases hs : _check_deleted_instances_scan heap hist st.iop_list.chain 0 with
    | none => exact ⟨hP, h0⟩
    | some link =>
      simp only
      cases hg : st.iop_list.chain.get? link with
      | none => exact ⟨hP, h0⟩
      | some mod =>
        simp only
        have hlt : link < st.iop_list.chain.length := by
          rcases Nat.lt_or_ge link st.iop_list.chain.length with h | h
          · exact h
          · rw [List.get?_eq_none.2 h] at hg; cases hg
        have heq : g_list_remove_link st.iop_list link = ⟨st.iop_list.chain.eraseIdx link, 0⟩ := by
          have : st.iop_list = ⟨st.iop_list.chain, 0⟩ := by
            cases hst : st.iop_list with
            | mk c p => rw [hst] at h0; simp at h0; simp [h0]
          rw [this]
          exact g_list_remove_link_head _ _ hlt
        apply ih
        · simp [heq]
        · simp only [heq]
          exact hstep _ _ _ hP hs hg

theorem GList.eq_head (g : GList) (h : g.pos = 0) : g = ⟨g.chain, 0⟩ := by
  cases g with
  | mk c p => simp at h; simp [h]

theorem scan_some_lt (heap : Heap) (hist : List dt_dev_history_item_t) (l : List ModPtr)
    (j : Nat) (h : _check_deleted_instances_scan heap hist l 0 = some j) : j < l.length := by
  obtain ⟨k, d, hj, hk, -⟩ := scan_some heap hist l 0 j h
  have : k < l.length := by
    rcases Nat.lt_or_ge k l.length with h1 | h1
    · exact h1
    · rw [List.get?_eq_none.2 h1] at hk; cases hk
  omega

theorem check_loop_stop (heap : Heap) (hist : List dt_dev_history_item_t) (n : Nat)
    (st : CheckResult)
    (hs : _check_deleted_instances_scan heap hist st.iop_list.chain 0 = none) :
    _check_deleted_instances_loop heap hist n st = st := by
  cases n with
  | zero => rfl
  | succ n =>
    unfold _check_deleted_instances_loop
    simp only [g_list_first, hs]

theorem check_loop_succ (heap : Heap) (hist : List dt_dev_history_item_t) (n : Nat)
    (st : CheckResult) (h0 : st.iop_list.pos = 0) (link : Nat)
    (hs : _check_deleted_instances_scan heap hist st.iop_list.chain 0 = some link) :
    ∃ mod, st.iop_list.chain.get? link = some mod ∧
      _check_deleted_instances_loop heap hist (n + 1) st =
        _check_deleted_instances_loop heap hist n
          { deleted_module_found := 1
            iop_list := ⟨st.iop_list.chain.eraseIdx link, 0⟩
            alliop := st.alliop ++ [mod]
            gui_module := if st.gui_module = some mod then none else st.gui_module
            undo := dt_undo_iterate_internal st.undo (_history_invalidate_cb mod) } := by
  have hlt := scan_some_lt heap hist _ _ hs
  have hg : st.iop_list.chain.get? link = some (st.iop_list.chain.get ⟨link, hlt⟩) :=
    List.get?_eq_get hlt
  refine ⟨_, hg, ?_⟩
  have heq : g_list_remove_link st.iop_list link = ⟨st.iop_list.chain.eraseIdx link, 0⟩ := by
    rw [GList.eq_head st.iop_list h0]
    exact g_list_remove_link_head _ _ hlt
  conv_lhs => unfold _check_deleted_instances_loop
  simp only [g_list_first, hs, hg, heq]

theorem check_loop_found (heap : Heap) (hist : List dt_dev_history_item_t) :
    ∀ (fuel : Nat) (st : CheckResult), st.iop_list.pos = 0 →
      _check_deleted_instances_loop heap hist fuel st = st ∨
      ((_check_deleted_instances_loop heap hist fuel st).deleted_module_found = 1 ∧
        (_check_deleted_instances_loop heap hist fuel st).iop_list.chain.length
          < st.iop_list.chain.length) := by
  intro fuel
  induction fuel with
  | zero => intro st _; exact Or.inl rfl
  | succ n ih =>
    intro st h0
    cases hs : _check_deleted_instances_scan heap hist st.iop_list.chain 0 with
    | none => exact Or.inl (check_loop_stop heap hist _ st hs)
    | some link =>
      obtain ⟨mod, hg, heq⟩ := check_loop_succ heap hist n st h0 link hs
      have hlt := scan_some_lt heap hist _ _ hs
      right
      rw [heq]
      rcases ih { deleted_module_found := 1
                  iop_list := ⟨st.iop_list.chain.eraseIdx link, 0⟩
                  alliop := st.alliop ++ [mod]
                  gui_module := if st.gui_module = some mod then none else st.gui_module
                  undo := dt_undo_iterate_internal st.undo (_history_invalidate_cb mod) } rfl
        with h | ⟨h1, h2⟩
      · rw [h]
        refine ⟨rfl, ?_⟩
        simp only [List.length_eraseIdx, hlt, if_true]
        omega
      · refine ⟨h1, lt_trans h2 ?_⟩
        simp only [List.length_eraseIdx, hlt, if_true]
        omega

theorem mem_eraseIdx_of_ne {l : List ModPtr} {j : Nat} {d m : ModPtr}
    (hd : l.get? j = some d) (hm : m ∈ l) (hne : m ≠ d) : m ∈ l.eraseIdx j := by
  rw [List.mem_eraseIdx_iff_getElem?]
  obtain ⟨i, hi⟩ := List.mem_iff_getElem?.1 hm
  refine ⟨i, ?_, hi⟩
  rintro rfl
  rw [List.get?_eq_getElem?] at hd
  rw [hd] at hi
  exact hne (Option.some.inj hi).symm

theorem check_eq (heap : Heap) (undo : List dt_undo_history_t) (dev : dt_develop_t)
    (iop_list : GList) (hist : List dt_dev_history_item_t) :
    _check_deleted_instances heap undo dev iop_list hist =
      (let st := _check_deleted_instances_loop heap hist iop_list.chain.length
          (check_init undo dev iop_list)
       if st.deleted_module_found ≠ 0 then { st with iop_list := g_list_sort heap st.iop_list }
       else st) := rfl

theorem check_found_eq (heap : Heap) (undo : List dt_undo_history_t) (dev : dt_develop_t)
    (iop_list : GList) (hist : List dt_dev_history_item_t) :
    (_check_deleted_instances heap undo dev iop_list hist).deleted_module_found =
      (_check_deleted_instances_loop heap hist iop_list.chain.length
          (check_init undo dev iop_list)).deleted_module_found := by
  rw [check_eq]
  simp only
  split <;> rfl

theorem check_chain_perm (heap : Heap) (undo : List dt_undo_history_t) (dev : dt_develop_t)
    (l : List ModPtr) (hist : List dt_dev_history_item_t) :
    (_check_deleted_instances heap undo dev ⟨l, 0⟩ hist).iop_list.chain.Perm
      (_check_deleted_instances_loop heap hist l.length
          (check_init undo dev ⟨l, 0⟩)).iop_list.chain := by
  rw [check_eq]
  simp only
  split
  · simp only [g_list_sort]
    have h0 := (check_loop_induct heap hist (fun _ => True) (fun _ _ _ _ _ _ => trivial)
      l.length (check_init undo dev ⟨l, 0⟩) rfl trivial).2
    rw [h0, List.drop_zero]
    exact List.perm_insertionSort _ _
  · exact List.Perm.refl _

theorem dt_history_duplicate_eq (hist : List dt_dev_history_item_t) :
    dt_history_duplicate hist = hist := by
  unfold dt_history_duplicate
  exact List.map_id _

theorem dt_ioppr_iop_order_copy_deep_eq (l : List dt_iop_order_entry_t) :
    dt_ioppr_iop_order_copy_deep l = l := by
  unfold dt_ioppr_iop_order_copy_deep
  exact List.map_id _

theorem fields_reset (heap : Heap) (hist : List dt_dev_history_item_t) (m : ModPtr) (p : Int) :
    (_reset_module_instance heap hist m p).map fields = hist.map fields := by
  unfold _reset_module_instance
  rw [List.map_map]
  apply List.map_congr_left
  intro e _
  simp only [Function.comp]
  split <;> rfl

theorem fields_invalidate (hist : List dt_dev_history_item_t) (m : ModPtr) :
    (dt_dev_invalidate_history_module hist m).map fields = hist.map fields := by
  unfold dt_dev_invalidate_history_module
  rw [List.map_map]
  apply List.map_congr_left
  intro e _
  simp only [Function.comp]
  split <;> rfl

theorem fields_set (hist : List dt_dev_history_item_t) (l : Nat) (hitem : dt_dev_history_item_t)
    (x : Option ModPtr) (h : (hist.map fields).get? l = some (fields hitem)) :
    (hist.set l { hitem with module := x }).map fields = hist.map fields := by
  rw [List.map_set]
  have : fields { hitem with module := x } = fields hitem := rfl
  rw [this]
  apply List.ext_getElem?
  intro i
  rw [List.get?_eq_getElem?] at h
  by_cases hi : l = i
  · subst hi
    rw [List.getElem?_set, if_pos rfl]
    have hlt : l < (hist.map fields).length := (List.getElem?_eq_some.1 h).1
    simp only [hlt, if_true]
    exact h.symm
  · rw [List.getElem?_set_ne hi]

theorem add_module_expander_next (heap : Heap) (m : ModPtr) :
    (_add_module_expander heap m).next = heap.next := by
  unfold _add_module_expander
  split <;> rfl

theorem add_module_expander_mem (heap : Heap) (m p : ModPtr) :
    (_add_module_expander heap m).mem p = heap.mem p ∨
      (p = m ∧ (_add_module_expander heap m).mem p = { heap.mem m with expander := true }) := by
  unfold _add_module_expander
  split
  · by_cases h : p = m
    · subst h; right; simp
    · left; simp [Function.update_noteq h]
  · left; rfl

theorem mem_g_list_insert_sorted (heap : Heap) (list : GList) (data m : ModPtr) :
    m ∈ (g_list_insert_sorted heap list data).chain ↔ m = data ∨ m ∈ list.chain := by
  unfold g_list_insert_sorted
  split
  · rename_i h; simp [h]
  · simp only [List.mem_append, List.mem_orderedInsert]
    constructor
    · rintro (h | h | h)
      · exact Or.inr (List.mem_of_mem_take h)
      · exact Or.inl h
      · exact Or.inr (List.mem_of_mem_drop h)
    · rintro (h | h)
      · exact Or.inr (Or.inl h)
      · rw [← List.take_append_drop list.pos list.chain, List.mem_append] at h
        rcases h with h | h
        · exact Or.inl h
        · exact Or.inr (Or.inr h)

/-- What a successful resurrection does to the loop variables. -/
theorem resurrect_ok (l : Nat) (hitem : dt_dev_history_item_t) (st st1 : CreateState)
    (h : _create_deleted_modules_resurrect l hitem st = .ok st1) :
    (∃ base ∈ st.iop_list.chain, (st.heap.mem base).op = hitem.op_name ∧
        (st.heap.mem base).load_fails = false ∧
        (st1.heap.mem st.heap.next).hidden = (st.heap.mem base).hidden) ∧
    st1.heap.next = st.heap.next + 1 ∧
    (∀ p, p ≠ st.heap.next → st1.heap.mem p = st.heap.mem p) ∧
    (st1.heap.mem st.heap.next).op = hitem.op_name ∧
    (st1.heap.mem st.heap.next).multi_priority = hitem.multi_priority ∧
    (st1.heap.mem st.heap.next).multi_name = hitem.multi_name ∧
    (st1.heap.mem st.heap.next).iop_order = hitem.iop_order ∧
    (st1.heap.mem st.heap.next).load_fails = false ∧
    (∀ m, m ∈ st1.iop_list.chain ↔ m = st.heap.next ∨ m ∈ st.iop_list.chain) ∧
    st1.caller.chain = st1.iop_list.chain ∧
    st1.done = true ∧
    st1.history_list =
      (if st.done then st.history_list
       else _reset_module_instance st1.heap st.history_list st.heap.next
              hitem.multi_priority).set l { hitem with module := some st.heap.next } ∧
    st1.undo =
      (if st.done then st.undo
       else dt_undo_iterate_internal st.undo
              (_undo_items_cb st1.heap ⟨st.heap.next, hitem.multi_priority⟩)) := by
  unfold _create_deleted_modules_resurrect at h
  split at h
  · cases h
  · rename_i base hfind
    simp only at h
    split at h
    · cases h
    · rename_i loaded hload
      simp only [Except.ok.injEq] at h
      subst h
      have hbase_mem : base ∈ st.iop_list.chain := List.mem_of_find?_eq_some hfind
      have hbase_op : (st.heap.mem base).op = hitem.op_name := by
        have := List.find?_some hfind
        simpa using this
      unfold dt_iop_load_module at hload
      split at hload
      · cases hload
      · rename_i hlf
        simp only [Option.some.injEq] at hload
        subst hload
        have hlf2 : (st.heap.mem base).load_fails = false := by simpa using hlf
        simp only
        refine ⟨⟨base, hbase_mem, hbase_op, hlf2, ?_⟩, ?_, ?_, ?_, ?_, ?_, ?_, ?_, ?_, ?_, ?_, ?_, ?_⟩
        · rcases add_module_expander_mem _ st.heap.next st.heap.next with h | ⟨-, h⟩ <;>
            rw [h] <;> simp
        · rw [add_module_expander_next]
        · intro p hp
          rcases add_module_expander_mem
            ({ mem := Function.update st.heap.mem st.heap.next _, next := st.heap.next + 1 } : Heap)
            st.heap.next p with h | ⟨h, -⟩
          · rw [h]; simp [Function.update_noteq hp]
          · exact absurd h hp
        · rcases add_module_expander_mem _ st.heap.next st.heap.next with h | ⟨-, h⟩ <;>
            rw [h] <;> simp [hbase_op]
        · rcases add_module_expander_mem _ st.heap.next st.heap.next with h | ⟨-, h⟩ <;>
            rw [h] <;> simp
        · rcases add_module_expander_mem _ st.heap.next st.heap.next with h | ⟨-, h⟩ <;>
            rw [h] <;> simp
        · rcases add_module_expander_mem _ st.heap.next st.heap.next with h | ⟨-, h⟩ <;>
            rw [h] <;> simp
        · rcases add_module_expander_mem _ st.heap.next st.heap.next with h | ⟨-, h⟩ <;>
            rw [h] <;> simp [hlf2]
        · intro m
          exact mem_g_list_insert_sorted _ _ _ _
        all_goals first | rfl | trivial

/-- What an early return hands back. -/
theorem resurrect_error (l : Nat) (hitem : dt_dev_history_item_t) (st : CreateState)
    (r : CreateResult) (h : _create_deleted_modules_resurrect l hitem st = .error r) :
    r.changed = 1 ∧ r.iop_list = st.caller ∧ r.history_list = st.history_list ∧
      r.undo = st.undo ∧ r.heap.mem = st.heap.mem ∧ st.heap.next ≤ r.heap.next := by
  unfold _create_deleted_modules_resurrect at h
  split at h
  · simp only [Except.error.injEq] at h
    subst h
    exact ⟨rfl, rfl, rfl, rfl, rfl, le_refl _⟩
  · simp only at h
    split at h
    · simp only [Except.error.injEq] at h
      subst h
      exact ⟨rfl, rfl, rfl, rfl, rfl, Nat.le_succ _⟩
    · cases h

theorem reset_length (heap : Heap) (hist : List dt_dev_history_item_t) (m : ModPtr) (p : Int) :
    (_reset_module_instance heap hist m p).length = hist.length := by
  unfold _reset_module_instance
  exact List.length_map _ _

theorem resurrect_ok_length (l : Nat) (hitem : dt_dev_history_item_t) (st st1 : CreateState)
    (h : _create_deleted_modules_resurrect l hitem st = .ok st1) :
    st1.history_list.length = st.history_list.length := by
  have h12 := (resurrect_ok l hitem st st1 h).2.2.2.2.2.2.2.2.2.2.2.1
  rw [h12, List.length_set]
  split
  · rfl
  · exact reset_length _ _ _ _

/-- Induction over the rounds of the loop of `_create_deleted_modules`, when the
fuel covers the nodes left. -/
theorem create_loop_induct (P : Nat → Int → CreateState → CreateResult → Prop)
    (h_exit : ∀ l c st, st.history_list.get? l = none →
      P l c st (_create_deleted_modules_exit c st))
    (h_skip : ∀ fuel l c st hitem, st.history_list.get? l = some hitem → hitem.module ≠ none →
      st.history_list.length ≤ l + 1 + fuel →
      P (l + 1) c st (_create_deleted_modules_loop fuel (l + 1) c st) →
      P l c st (_create_deleted_modules_loop fuel (l + 1) c st))
    (h_err : ∀ l c st hitem r, st.history_list.get? l = some hitem → hitem.module = none →
      _create_deleted_modules_resurrect l hitem st = .error r → P l c st r)
    (h_ok : ∀ fuel l c st hitem st1, st.history_list.get? l = some hitem → hitem.module = none →
      _create_deleted_modules_resurrect l hitem st = .ok st1 →
      st1.history_list.length ≤ l + 1 + fuel →
      P (l + 1) 1 st1 (_create_deleted_modules_loop fuel (l + 1) 1 st1) →
      P l c st (_create_deleted_modules_loop fuel (l + 1) 1 st1)) :
    ∀ (fuel l : Nat) (c : Int) (st : CreateState), st.history_list.length ≤ l + fuel →
      P l c st (_create_deleted_modules_loop fuel l c st) := by
  intro fuel
  induction fuel with
  | zero =>
    intro l c st hlen
    unfold _create_deleted_modules_loop
    exact h_exit l c st (List.get?_eq_none.2 (by omega))
  | succ n ih =>
    intro l c st hlen
    unfold _create_deleted_modules_loop
    cases hg : st.history_list.get? l with
    | none => exact h_exit l c st hg
    | some hitem =>
      simp only
      split
      · rename_i hnull
        cases hr : _create_deleted_modules_resurrect l hitem st with
        | error r => exact h_err l c st hitem r hg hnull hr
        | ok st1 =>
          simp only
          have hl1 : st1.history_list.length ≤ l + 1 + n := by
            rw [resurrect_ok_length l hitem st st1 hr]
            omega
          exact h_ok n l c st hitem st1 hg hnull hr hl1 (ih _ _ _ hl1)
      · rename_i hnn
        have hl1 : st.history_list.length ≤ l + 1 + n := by omega
        exact h_skip n l c st hitem hg hnn hl1 (ih _ _ _ hl1)

theorem create_eq (heap : Heap) (undo : List dt_undo_history_t) (iop_list : GList)
    (history_list : List dt_dev_history_item_t) :
    _create_deleted_modules heap undo iop_list history_list =
      _create_deleted_modules_loop history_list.length 0 0
        { iop_list := iop_list, caller := iop_list, history_list := history_list, heap := heap,
          undo := undo, done := false } := rfl

/-- The resurrection leaves every field of every entry but the module reference. -/
theorem create_loop_fields (fuel l : Nat) (c : Int) (st : CreateState)
    (hlen : st.history_list.length ≤ l + fuel) :
    (_create_deleted_modules_loop fuel l c st).history_list.map fields =
      st.history_list.map fields := by
  refine create_loop_induct (fun _ _ st r => r.history_list.map fields = st.history_list.map fields)
    ?_ ?_ ?_ ?_ fuel l c st hlen
  · intro l c st _; rfl
  · intro fuel l c st hitem _ _ _ h; exact h
  · intro l c st hitem r _ _ h
    rw [(resurrect_error l hitem st r h).2.2.1]
  · intro fuel l c st hitem st1 hg _ h _ ih
    rw [ih, (resurrect_ok l hitem st st1 h).2.2.2.2.2.2.2.2.2.2.2.1]
    have hbase : (if st.done then st.history_list
        else _reset_module_instance st1.heap st.history_list st.heap.next
          hitem.multi_priority).map fields = st.history_list.map fields := by
      split
      · rfl
      · exact fields_reset _ _ _ _
    rw [fields_set _ _ _ _ (by
      rw [hbase, List.get?_eq_getElem?, List.getElem?_map, ← List.get?_eq_getElem?, hg]
      rfl)]
    exact hbase

theorem create_fields (heap : Heap) (undo : List dt_undo_history_t) (iop_list : GList)
    (history_list : List dt_dev_history_item_t) :
    (_create_deleted_modules heap undo iop_list history_list).history_list.map fields =
      history_list.map fields := by
  rw [create_eq]
  exact create_loop_fields _ _ _ _ (by simp)

theorem reset_get (heap : Heap) (hist : List dt_dev_history_item_t) (m : ModPtr) (p : Int)
    (k : Nat) (e : dt_dev_history_item_t) (h : hist.get? k = some e) :
    (_reset_module_instance heap hist m p).get? k =
      some (if e.module = none ∧ e.op_name = (heap.mem m).op ∧ e.multi_priority = p
            then { e with module := some m } else e) := by
  unfold _reset_module_instance
  rw [List.get?_eq_getElem?] at h ⊢
  rw [List.getElem?_map, h]
  rfl

theorem set_get_ne (hist : List dt_dev_history_item_t) (l k : Nat) (x : dt_dev_history_item_t)
    (h : l ≠ k) : (hist.set l x).get? k = hist.get? k := by
  rw [List.get?_eq_getElem?, List.get?_eq_getElem?, List.getElem?_set_ne h]

theorem set_get_eq (hist : List dt_dev_history_item_t) (l : Nat) (x y : dt_dev_history_item_t)
    (h : hist.get? l = some y) : (hist.set l x).get? l = some x := by
  rw [List.get?_eq_getElem?] at h ⊢
  have hlt : l < hist.length := (List.getElem?_eq_some.1 h).1
  rw [List.getElem?_set, if_pos rfl]
  simp [hlt]

/-- The basic frame facts of the loop: the return value, entries that already
have a module, the heap below the allocation mark, the modules of the list and
the undo stack once the propagation is done. -/
theorem create_loop_frame (fuel l : Nat) (c : Int) (st : CreateState)
    (hlen : st.history_list.length ≤ l + fuel) :
    ((_create_deleted_modules_loop fuel l c st) = _create_deleted_modules_exit c st ∨
      (_create_deleted_modules_loop fuel l c st).changed = 1) ∧
    (∀ k e, st.history_list.get? k = some e → e.module ≠ none →
      (_create_deleted_modules_loop fuel l c st).history_list.get? k = some e) ∧
    (st.heap.next ≤ (_create_deleted_modules_loop fuel l c st).heap.next ∧
      ∀ p, p < st.heap.next →
        (_create_deleted_modules_loop fuel l c st).heap.mem p = st.heap.mem p) ∧
    (st.caller.chain = st.iop_list.chain → ∀ m ∈ st.iop_list.chain,
      m ∈ (_create_deleted_modules_loop fuel l c st).iop_list.chain) ∧
    (st.done = true → (_create_deleted_modules_loop fuel l c st).undo = st.undo) := by
  refine create_loop_induct (fun _ c st r =>
    (r = _create_deleted_modules_exit c st ∨ r.changed = 1) ∧
    (∀ k e, st.history_list.get? k = some e → e.module ≠ none →
      r.history_list.get? k = some e) ∧
    (st.heap.next ≤ r.heap.next ∧ ∀ p, p < st.heap.next → r.heap.mem p = st.heap.mem p) ∧
    (st.caller.chain = st.iop_list.chain → ∀ m ∈ st.iop_list.chain, m ∈ r.iop_list.chain) ∧
    (st.done = true → r.undo = st.undo)) ?_ ?_ ?_ ?_ fuel l c st hlen
  · intro l c st _
    exact ⟨Or.inl rfl, fun k e h _ => h, ⟨le_refl _, fun p _ => rfl⟩, fun _ m hm => hm,
      fun _ => rfl⟩
  · intro fuel l c st hitem _ _ _ h
    exact h
  · intro l c st hitem r _ _ h
    obtain ⟨h1, h2, h3, h4, h5, h6⟩ := resurrect_error l hitem st r h
    refine ⟨Or.inr h1, ?_, ⟨h6, fun p _ => by rw [h5]⟩, ?_, fun _ => h4⟩
    · intro k e hk _; rw [h3]; exact hk
    · intro hc m hm; rw [h2, hc]; exact hm
  · intro fuel l c st hitem st1 hg hnull h _ ih
    obtain ⟨-, hnext, hmem, -, -, -, -, -, hchain, hcaller, hdone, hhist, hundo⟩ :=
      resurrect_ok l hitem st st1 h
    obtain ⟨ih1, ih2, ⟨ih3, ih4⟩, ih5, ih6⟩ := ih
    refine ⟨?_, ?_, ⟨by omega, ?_⟩, ?_, ?_⟩
    · rcases ih1 with h1 | h1
      · right; rw [h1]; rfl
      · exact Or.inr h1
    · intro k e hk hne
      apply ih2 k e _ hne
      have hkl : l ≠ k := by
        rintro rfl
        rw [hg] at hk
        cases hk
        exact hne hnull
      rw [hhist, set_get_ne _ _ _ _ hkl]
      split
      · exact hk
      · rw [reset_get _ _ _ _ _ _ hk, if_neg (fun hc => hne hc.1)]
    · intro p hp
      rw [ih4 p (by omega), hmem p (by omega)]
    · intro _ m hm
      exact ih5 hcaller m ((hchain m).2 (Or.inr hm))
    · intro hd
      rw [ih6 hdone, hundo, if_pos hd]

theorem get?_mem_hist {hist : List dt_dev_history_item_t} {k : Nat} {e : dt_dev_history_item_t}
    (h : hist.get? k = some e) : e ∈ hist := by
  rw [List.get?_eq_getElem?] at h
  obtain ⟨hlt, he⟩ := List.getElem?_eq_some.1 h
  rw [← he]
  exact List.getElem_mem hlt

theorem drop_get_cons {hist : List dt_dev_history_item_t} {l : Nat} {e : dt_dev_history_item_t}
    (h : hist.get? l = some e) : hist.drop l = e :: hist.drop (l + 1) := by
  rw [List.get?_eq_getElem?] at h
  obtain ⟨hlt, he⟩ := List.getElem?_eq_some.1 h
  rw [List.drop_eq_getElem_cons hlt, he]

/-- A resurrection succeeds when the operation has an instance in the list and
no instance of the list fails to load. -/
theorem resurrect_succeeds (l : Nat) (hitem : dt_dev_history_item_t) (st : CreateState)
    (hbase : ∃ m ∈ st.iop_list.chain, (st.heap.mem m).op = hitem.op_name)
    (hload : ∀ m ∈ st.iop_list.chain, (st.heap.mem m).op = hitem.op_name →
      (st.heap.mem m).load_fails = false) :
    ∃ st1, _create_deleted_modules_resurrect l hitem st = .ok st1 := by
  unfold _create_deleted_modules_resurrect
  cases hfind : dt_iop_get_module_from_list st.heap st.iop_list hitem.op_name with
  | none =>
    exfalso
    unfold dt_iop_get_module_from_list at hfind
    rw [List.find?_eq_none] at hfind
    obtain ⟨m, hm, hop⟩ := hbase
    exact hfind m hm (by simpa using hop)
  | some base =>
    simp only
    have hmem : base ∈ st.iop_list.chain := List.mem_of_find?_eq_some hfind
    have hl := hload base hmem (by simpa using List.find?_some hfind)
    cases hload2 : dt_iop_load_module (st.heap.mem base) with
    | none =>
      exfalso
      unfold dt_iop_load_module at hload2
      rw [hl] at hload2
      simp at hload2
    | some loaded => exact ⟨_, rfl⟩

theorem resurrectable_step (l : Nat) (hitem : dt_dev_history_item_t) (st st1 : CreateState)
    (hg : resurrectable st) (h : _create_deleted_modules_resurrect l hitem st = .ok st1) :
    resurrectable st1 := by
  obtain ⟨-, hnext, hmem, -, -, -, -, hlf, hchain, hcaller, -, hhist, -⟩ :=
    resurrect_ok l hitem st st1 h
  obtain ⟨-, hv, hld, hb⟩ := hg
  have hold : ∀ m ∈ st.iop_list.chain, st1.heap.mem m = st.heap.mem m := by
    intro m hm
    exact hmem m (Nat.ne_of_lt (hv m hm))
  refine ⟨hcaller, ?_, ?_, ?_⟩
  · intro m hm
    rcases (hchain m).1 hm with rfl | hm
    · rw [hnext]; exact Nat.lt_succ_self _
    · rw [hnext]; exact Nat.lt_succ_of_lt (hv m hm)
  · intro m hm
    rcases (hchain m).1 hm with rfl | hm
    · exact hlf
    · rw [hold m hm]; exact hld m hm
  · intro e he hnull
    have he0 : e ∈ st.history_list := by
      rw [hhist] at he
      rcases List.mem_or_eq_of_mem_set he with he | he
      · split at he
        · exact he
        · unfold _reset_module_instance at he
          obtain ⟨e0, he0, heq⟩ := List.mem_map.1 he
          split at heq
          · rw [← heq] at hnull; cases hnull
          · rw [← heq]; exact he0
      · rw [he] at hnull; cases hnull
    obtain ⟨m, hm, hop⟩ := hb e he0 hnull
    exact ⟨m, (hchain m).2 (Or.inr hm), by rw [hold m hm]; exact hop⟩

theorem create_loop_resolves (fuel l : Nat) (c : Int) (st : CreateState)
    (hlen : st.history_list.length ≤ l + fuel) :
    resurrectable st → ∀ k e, l ≤ k → st.history_list.get? k = some e → e.module = none →
      resolved st (_create_deleted_modules_loop fuel l c st) l k e := by
  refine create_loop_induct (fun l _ st r =>
    resurrectable st → ∀ k e, l ≤ k → st.history_list.get? k = some e → e.module = none →
      resolved st r l k e) ?_ ?_ ?_ ?_ fuel l c st hlen
  · intro l c st hnone _ k e hlk hk _
    exfalso
    have h1 : st.history_list.length ≤ l := List.get?_eq_none.1 hnone
    have h2 : st.history_list.get? k = none := List.get?_eq_none.2 (by omega)
    rw [h2] at hk
    cases hk
  · intro fuel l c st hitem hg hnn _ ih hgood k e hlk hk hnull
    have hkl : l ≠ k := by
      rintro rfl
      rw [hg] at hk
      cases hk
      exact hnn hnull
    obtain ⟨m, h1, h2, h3, h4, h5, h6, h7⟩ := ih hgood k e (by omega) hk hnull
    refine ⟨m, h1, h2, h3, h4, h5, h6, ?_⟩
    rw [h7, drop_get_cons hg, List.find?_cons_of_neg]
    cases hm : hitem.module with
    | none => exact absurd hm hnn
    | some x => simp
  · intro l c st hitem r hg hnull herr hgood
    exfalso
    obtain ⟨-, -, hld, hb⟩ := hgood
    obtain ⟨st1, hok⟩ := resurrect_succeeds l hitem st (hb hitem (get?_mem_hist hg) hnull)
      (fun m hm _ => hld m hm)
    rw [hok] at herr
    cases herr
  · intro fuel l c st hitem st1 hg hnull hok hl1 ih hgood k e hlk hk hnull_e
    have hgood1 := resurrectable_step l hitem st st1 hgood hok
    obtain ⟨-, hnext, hmem, hop, hprio, hname, -, -, hchain, hcaller, hdone, hhist, -⟩ :=
      resurrect_ok l hitem st st1 hok
    obtain ⟨-, F2, ⟨F3a, F3b⟩, F4, -⟩ := create_loop_frame fuel (l + 1) 1 st1 hl1
    have hnew_mem : st.heap.next ∈ (_create_deleted_modules_loop fuel (l + 1) 1 st1).iop_list.chain :=
      F4 hcaller _ ((hchain _).2 (Or.inl rfl))
    have hnew_heap : (_create_deleted_modules_loop fuel (l + 1) 1 st1).heap.mem st.heap.next =
        st1.heap.mem st.heap.next := F3b _ (by omega)
    have hfirst : ((st.history_list.drop l).find? fun x => x.module.isNone) = some hitem := by
      rw [drop_get_cons hg, List.find?_cons_of_pos]
      simp [hnull]
    -- the entry at `l` itself after the round
    have hset_l : st1.history_list.get? l = some { hitem with module := some st.heap.next } := by
      rw [hhist]
      split
      · exact set_get_eq _ _ _ _ hg
      · exact set_get_eq _ _ _ _ (reset_get _ _ _ _ _ _ hg)
    by_cases hkl : k = l
    · subst hkl
      rw [hg] at hk
      cases hk
      refine ⟨st.heap.next, F2 _ _ hset_l (by simp), hnew_mem, le_refl _, by omega, ?_, ?_, ?_⟩
      · rw [hnew_heap]; exact hop
      · rw [hnew_heap]; exact hprio
      · rw [hnew_heap, hname, hfirst]
        unfold expected_name
        split
        · rfl
        · simp
    · have hlk2 : l ≠ k := fun h => hkl h.symm
      by_cases hd : st.done = true
      · have hk1 : st1.history_list.get? k = some e := by
          rw [hhist, set_get_ne _ _ _ _ hlk2, if_pos hd]
          exact hk
        obtain ⟨m, h1, h2, h3, h4, h5, h6, h7⟩ := ih hgood1 k e (by omega) hk1 hnull_e
        refine ⟨m, h1, h2, by omega, h4, h5, h6, ?_⟩
        rw [h7]
        unfold expected_name
        rw [hdone, hd]
        rfl
      · by_cases hmatch : e.op_name = hitem.op_name ∧ e.multi_priority = hitem.multi_priority
        · have hk1 : st1.history_list.get? k = some { e with module := some st.heap.next } := by
            rw [hhist, set_get_ne _ _ _ _ hlk2, if_neg hd, reset_get _ _ _ _ _ _ hk, hop,
              if_pos ⟨hnull_e, hmatch.1, hmatch.2⟩]
          refine ⟨st.heap.next, F2 _ _ hk1 (by simp), hnew_mem, le_refl _, by omega, ?_, ?_, ?_⟩
          · rw [hnew_heap, hop]; exact hmatch.1.symm
          · rw [hnew_heap, hprio]; exact hmatch.2.symm
          · rw [hnew_heap, hname, hfirst]
            unfold expected_name
            simp [hd, hmatch]
        · have hk1 : st1.history_list.get? k = some e := by
            rw [hhist, set_get_ne _ _ _ _ hlk2, if_neg hd, reset_get _ _ _ _ _ _ hk, hop,
              if_neg (fun h => hmatch ⟨h.2.1, h.2.2⟩)]
          obtain ⟨m, h1, h2, h3, h4, h5, h6, h7⟩ := ih hgood1 k e (by omega) hk1 hnull_e
          refine ⟨m, h1, h2, by omega, h4, h5, h6, ?_⟩
          rw [h7, hfirst]
          unfold expected_name
          rw [hdone]
          simp [hd, hmatch]

/-- The first resurrection of a pass sets the new instance in every matching
NULL entry of the history list, and the undo stack is visited once, then. -/
theorem create_loop_propagates (fuel l : Nat) (c : Int) (st : CreateState)
    (hlen : st.history_list.length ≤ l + fuel) :
    st.done = false → ∀ i f, l ≤ i → st.history_list.get? i = some f → f.module = none →
      (∀ j x, l ≤ j → j < i → st.history_list.get? j = some x → x.module ≠ none) →
      ∀ st1, _create_deleted_modules_resurrect i f st = .ok st1 →
        (_create_deleted_modules_loop fuel l c st).undo = st1.undo ∧
        ∀ k e, st.history_list.get? k = some e → e.module = none → e.op_name = f.op_name →
          e.multi_priority = f.multi_priority →
          (_create_deleted_modules_loop fuel l c st).history_list.get? k =
            some { e with module := some st.heap.next } := by
  refine create_loop_induct (fun l _ st r =>
    st.done = false → ∀ i f, l ≤ i → st.history_list.get? i = some f → f.module = none →
      (∀ j x, l ≤ j → j < i → st.history_list.get? j = some x → x.module ≠ none) →
      ∀ st1, _create_deleted_modules_resurrect i f st = .ok st1 →
        r.undo = st1.undo ∧
        ∀ k e, st.history_list.get? k = some e → e.module = none → e.op_name = f.op_name →
          e.multi_priority = f.multi_priority →
          r.history_list.get? k = some { e with module := some st.heap.next })
    ?_ ?_ ?_ ?_ fuel l c st hlen
  · intro l c st hnone _ i f hli hi _ _ _ _
    exfalso
    have h1 : st.history_list.length ≤ l := List.get?_eq_none.1 hnone
    have h2 : st.history_list.get? i = none := List.get?_eq_none.2 (by omega)
    rw [h2] at hi
    cases hi
  · intro fuel l c st hitem hg hnn _ ih hd i f hli hi hnull hfirst st1 hok
    have hne : l ≠ i := by
      rintro rfl
      rw [hg] at hi
      cases hi
      exact hnn hnull
    exact ih hd i f (by omega) hi hnull (fun j x hj1 hj2 => hfirst j x (by omega) hj2) st1 hok
  · intro l c st hitem r hg hnull herr hd i f hli hi _ hfirst st1 hok
    exfalso
    by_cases hil : l = i
    · subst hil
      rw [hg] at hi
      cases hi
      rw [hok] at herr
      cases herr
    · exact hfirst l hitem (le_refl _) (by omega) hg hnull
  · intro fuel l c st hitem st1 hg hnull hok hl1 _ hd i f hli hi _ hfirst st2 hok2
    have hil : l = i := by
      by_contra hne
      exact hfirst l hitem (le_refl _) (by omega) hg hnull
    subst hil
    rw [hg] at hi
    cases hi
    rw [hok] at hok2
    cases hok2
    obtain ⟨-, -, -, hop, -, -, -, -, -, -, hdone, hhist, -⟩ := resurrect_ok l hitem st st1 hok
    obtain ⟨-, F2, -, -, F5⟩ := create_loop_frame fuel (l + 1) 1 st1 hl1
    refine ⟨F5 hdone, ?_⟩
    intro k e hk hnull_e hop_e hprio_e
    apply F2 _ _ _ (by simp)
    rw [hhist, hd]
    by_cases hkl : l = k
    · subst hkl
      rw [hg] at hk
      cases hk
      exact set_get_eq _ _ _ _ (reset_get _ _ _ _ _ _ hg)
    · rw [set_get_ne _ _ _ _ hkl]
      simp only [Bool.false_eq_true, if_false]
      rw [reset_get _ _ _ _ _ _ hk, hop, if_pos ⟨hnull_e, hop_e, hprio_e⟩]

/-- The loop of `_rebuild_multi_priority` reports a change as soon as it makes one. -/
theorem rebuild_loop_zero :
    ∀ (hist : List dt_dev_history_item_t) (heap : Heap) (c : Int),
      ((_rebuild_multi_priority_loop hist (heap, c)).2 = 1 ∨
        _rebuild_multi_priority_loop hist (heap, c) = (heap, c)) := by
  intro hist
  induction hist with
  | nil => intro heap c; right; rfl
  | cons hitem history ih =>
    intro heap c
    unfold _rebuild_multi_priority_loop
    cases hm : hitem.module with
    | none => exact ih heap c
    | some m =>
      simp only
      split
      · left
        rcases ih (dt_iop_update_multi_priority heap m hitem.multi_priority) 1 with h | h
        · exact h
        · rw [h]
      · exact ih heap c

theorem rebuild_zero (heap : Heap) (hist : List dt_dev_history_item_t)
    (h : (_rebuild_multi_priority heap hist).2 = 0) : (_rebuild_multi_priority heap hist).1 = heap := by
  unfold _rebuild_multi_priority at h ⊢
  rcases rebuild_loop_zero hist heap 0 with h1 | h1
  · rw [h1] at h; exact absurd h (by decide)
  · rw [h1]

theorem same_record_refl (a : dt_undo_history_t) : same_record a a :=
  ⟨rfl, rfl, rfl, rfl, rfl, rfl⟩

theorem same_record_trans {a b c : dt_undo_history_t} (h1 : same_record a b)
    (h2 : same_record b c) : same_record a c := by
  unfold same_record at *
  refine ⟨?_, ?_, ?_, ?_, ?_, ?_⟩
  · rw [h2.1, h1.1]
  · rw [h2.2.1, h1.2.1]
  · rw [h2.2.2.1, h1.2.2.1]
  · rw [h2.2.2.2.1, h1.2.2.2.1]
  · rw [h2.2.2.2.2.1, h1.2.2.2.2.1]
  · rw [h2.2.2.2.2.2, h1.2.2.2.2.2]

theorem same_stack_refl (u : List dt_undo_history_t) : List.Forall₂ same_record u u := by
  induction u with
  | nil => exact List.Forall₂.nil
  | cons a t ih => exact List.Forall₂.cons (same_record_refl a) ih

theorem same_stack_trans {u v w : List dt_undo_history_t} (h1 : List.Forall₂ same_record u v)
    (h2 : List.Forall₂ same_record v w) : List.Forall₂ same_record u w := by
  induction h1 generalizing w with
  | nil => cases h2; exact List.Forall₂.nil
  | cons hab _ ih =>
    cases h2 with
    | cons hbc h2t => exact List.Forall₂.cons (same_record_trans hab hbc) (ih h2t)

theorem same_stack_iterate (u : List dt_undo_history_t)
    (cb : dt_undo_history_t → dt_undo_history_t) (h : ∀ r, same_record r (cb r)) :
    List.Forall₂ same_record u (dt_undo_iterate_internal u cb) := by
  unfold dt_undo_iterate_internal
  induction u with
  | nil => exact List.Forall₂.nil
  | cons a t ih => exact List.Forall₂.cons (h a) ih

theorem same_record_undo_items_cb (heap : Heap) (udata : _cb_data) (r : dt_undo_history_t) :
    same_record r (_undo_items_cb heap udata r) :=
  ⟨rfl, fields_reset _ _ _ _, rfl, rfl, rfl, rfl⟩

theorem same_record_invalidate_cb (m : ModPtr) (r : dt_undo_history_t) :
    same_record r (_history_invalidate_cb m r) :=
  ⟨rfl, fields_invalidate _ _, rfl, rfl, rfl, rfl⟩

theorem create_loop_same_stack (fuel l : Nat) (c : Int) (st : CreateState)
    (hlen : st.history_list.length ≤ l + fuel) :
    List.Forall₂ same_record st.undo (_create_deleted_modules_loop fuel l c st).undo := by
  refine create_loop_induct (fun _ _ st r => List.Forall₂ same_record st.undo r.undo)
    ?_ ?_ ?_ ?_ fuel l c st hlen
  · intro l c st _; exact same_stack_refl _
  · intro fuel l c st hitem _ _ _ h; exact h
  · intro l c st hitem r _ _ h
    rw [(resurrect_error l hitem st r h).2.2.2.1]
    exact same_stack_refl _
  · intro fuel l c st hitem st1 _ _ h _ ih
    refine same_stack_trans ?_ ih
    rw [(resurrect_ok l hitem st st1 h).2.2.2.2.2.2.2.2.2.2.2.2]
    split
    · exact same_stack_refl _
    · exact same_stack_iterate _ _ (same_record_undo_items_cb _ _)

theorem check_loop_same_stack (heap : Heap) (hist : List dt_dev_history_item_t) :
    ∀ (fuel : Nat) (st : CheckResult),
      List.Forall₂ same_record st.undo (_check_deleted_instances_loop heap hist fuel st).undo := by
  intro fuel
  induction fuel with
  | zero => intro st; exact same_stack_refl _
  | succ n ih =>
    intro st
    unfold _check_deleted_instances_loop
    cases _check_deleted_instances_scan heap hist (g_list_first st.iop_list).chain 0 with
    | none => exact same_stack_refl _
    | some link =>
      simp only
      cases st.iop_list.chain.get? link with
      | none => exact same_stack_refl _
      | some mod =>
        exact same_stack_trans (same_stack_iterate _ _ (same_record_invalidate_cb mod))
          (ih { deleted_module_found := 1
                iop_list := g_list_remove_link st.iop_list link
                alliop := st.alliop ++ [mod]
                gui_module := if st.gui_module = some mod then none else st.gui_module
                undo := dt_undo_iterate_internal st.undo (_history_invalidate_cb mod) })

theorem check_same_stack (heap : Heap) (undo : List dt_undo_history_t) (dev : dt_develop_t)
    (iop_list : GList) (hist : List dt_dev_history_item_t) :
    List.Forall₂ same_record undo (_check_deleted_instances heap undo dev iop_list hist).undo := by
  have h := check_loop_same_stack heap hist iop_list.chain.length (check_init undo dev iop_list)
  rw [check_eq]
  by_cases hf : (_check_deleted_instances_loop heap hist iop_list.chain.length
      (check_init undo dev iop_list)).deleted_module_found ≠ 0
  · simp only [hf, ne_eq, not_false_eq_true, if_true]
    exact h
  · simp only [hf, if_false]
    exact h

theorem reconcile_fields (dt : darktable_t) (history_temp : List dt_dev_history_item_t) :
    (_pop_undo_reconcile dt history_temp).history_temp.map fields = history_temp.map fields := by
  unfold _pop_undo_reconcile
  exact create_fields _ _ _ _

theorem create_same_stack (heap : Heap) (undo : List dt_undo_history_t) (iop_list : GList)
    (history_list : List dt_dev_history_item_t) :
    List.Forall₂ same_record undo (_create_deleted_modules heap undo iop_list history_list).undo := by
  rw [create_eq]
  exact create_loop_same_stack history_list.length 0 0
    { iop_list := iop_list, caller := iop_list, history_list := history_list, heap := heap,
      undo := undo, done := false } (Nat.le_of_eq (Nat.zero_add _).symm)

theorem reconcile_same_stack (dt : darktable_t) (history_temp : List dt_dev_history_item_t) :
    List.Forall₂ same_record dt.undo (_pop_undo_reconcile dt history_temp).check.undo := by
  unfold _pop_undo_reconcile
  exact same_stack_trans (create_same_stack _ _ _ _) (check_same_stack _ _ _ _ _)

theorem pop_undo_eq (dt : darktable_t) (hist : dt_undo_history_t) (action : dt_undo_action_t) :
    _pop_undo dt DT_UNDO_HISTORY hist action =
      { develop :=
          { history := (_pop_undo_reconcile dt (target_snapshot hist action)).history_temp
            history_end := target_end hist action
            iop := (_pop_undo_reconcile dt (target_snapshot hist action)).check.iop_list
            alliop := (_pop_undo_reconcile dt (target_snapshot hist action)).check.alliop
            iop_order_list := target_iop_order_list hist action
            gui_module := (_pop_undo_reconcile dt (target_snapshot hist action)).check.gui_module
            pipe := pipe_refresh (_pop_undo_reconcile dt (target_snapshot hist action)).pipe_remove
                      dt.develop.pipe
            preview_pipe :=
              pipe_refresh (_pop_undo_reconcile dt (target_snapshot hist action)).pipe_remove
                dt.develop.preview_pipe
            preview2_pipe :=
              pipe_refresh (_pop_undo_reconcile dt (target_snapshot hist action)).pipe_remove
                dt.develop.preview2_pipe }
        undo := (_pop_undo_reconcile dt (target_snapshot hist action)).check.undo
        heap := (_pop_undo_reconcile dt (target_snapshot hist action)).heap
        lib := { dt.lib with record_undo := false } } := by
  unfold _pop_undo target_snapshot target_end target_iop_order_list
  cases action <;>
    simp [dt_history_duplicate_eq, dt_ioppr_iop_order_copy_deep_eq]

theorem fields_length {a b : List dt_dev_history_item_t} (h : a.map fields = b.map fields) :
    a.length = b.length := by
  have := congrArg List.length h
  simpa using this

theorem record_ok_same {a b : dt_undo_history_t} (h : same_record a b) (ha : record_ok a) :
    record_ok b := by
  obtain ⟨h1, h2, h3, h4, -, -⟩ := h
  unfold record_ok cursor_ok at *
  rw [h1, h3, h4, fields_length h2]
  exact ha

theorem stack_ok_same {u v : List dt_undo_history_t} (h : List.Forall₂ same_record u v)
    (hu : ∀ r ∈ u, record_ok r) : ∀ r ∈ v, record_ok r := by
  induction h with
  | nil => intro r hr; cases hr
  | cons hab _ ih =>
    intro r hr
    rcases List.mem_cons.1 hr with rfl | hr
    · exact record_ok_same hab (hu _ (List.mem_cons_self _ _))
    · exact ih (fun r hr => hu r (List.mem_cons_of_mem _ hr)) r hr

theorem pop_undo_history_fields (dt : darktable_t) (hist : dt_undo_history_t)
    (action : dt_undo_action_t) :
    (_pop_undo dt DT_UNDO_HISTORY hist action).develop.history.map fields =
      (target_snapshot hist action).map fields := by
  rw [pop_undo_eq]
  exact reconcile_fields _ _

theorem pop_undo_same_stack (dt : darktable_t) (hist : dt_undo_history_t)
    (action : dt_undo_action_t) :
    List.Forall₂ same_record dt.undo (_pop_undo dt DT_UNDO_HISTORY hist action).undo := by
  rw [pop_undo_eq]
  exact reconcile_same_stack _ _

theorem pop_undo_cursor_ok (dt : darktable_t) (hist : dt_undo_history_t)
    (action : dt_undo_action_t) (h : record_ok hist) :
    cursor_ok (_pop_undo dt DT_UNDO_HISTORY hist action).develop.history
      (_pop_undo dt DT_UNDO_HISTORY hist action).develop.history_end := by
  have hlen := fields_length (pop_undo_history_fields dt hist action)
  have hend : (_pop_undo dt DT_UNDO_HISTORY hist action).develop.history_end =
      target_end hist action := by rw [pop_undo_eq]
  unfold cursor_ok
  rw [hlen, hend]
  unfold target_snapshot target_end
  cases action
  · exact h.1
  · exact h.2

theorem step_pop_cursor_ok (dt : darktable_t) (i : Nat) (action : dt_undo_action_t)
    (detached : Bool) (h : ∀ r ∈ dt.undo, record_ok r) (hi : i < dt.undo.length) :
    cursor_ok (step dt (.pop i action detached)).develop.history
      (step dt (.pop i action detached)).develop.history_end := by
  have hg : dt.undo.get? i = some (dt.undo.get ⟨i, hi⟩) := List.get?_eq_get hi
  have hok : record_ok (dt.undo.get ⟨i, hi⟩) := h _ (List.get_mem _ _ _)
  show cursor_ok (match dt.undo.get? i with
      | none => dt
      | some hist =>
        if detached then
          let s := _pop_undo { dt with undo := dt.undo.eraseIdx i } DT_UNDO_HISTORY hist action
          { s with undo := s.undo.take i ++ hist :: s.undo.drop i }
        else _pop_undo dt DT_UNDO_HISTORY hist action).develop.history
      (match dt.undo.get? i with
      | none => dt
      | some hist =>
        if detached then
          let s := _pop_undo { dt with undo := dt.undo.eraseIdx i } DT_UNDO_HISTORY hist action
          { s with undo := s.undo.take i ++ hist :: s.undo.drop i }
        else _pop_undo dt DT_UNDO_HISTORY hist action).develop.history_end
  simp only [hg]
  split
  · exact pop_undo_cursor_ok _ _ _ hok
  · exact pop_undo_cursor_ok _ _ _ hok

theorem step_controller_ok (dt : darktable_t) (ev : Event) (h : controller_ok dt)
    (hadm : admissible dt [ev]) : controller_ok (step dt ev) := by
  obtain ⟨hst, hprev⟩ := h
  cases ev with
  | will_change history history_end iop_order_list =>
    show controller_ok (_lib_history_will_change_callback dt history history_end iop_order_list)
    unfold _lib_history_will_change_callback
    split
    · exact ⟨hst, hadm.1⟩
    · exact ⟨hst, hprev⟩
  | pipeline develop heap => exact ⟨hst, hprev⟩
  | changed =>
    show controller_ok (_lib_history_change_callback dt)
    unfold _lib_history_change_callback
    split
    · refine ⟨?_, hprev⟩
      intro r hr
      unfold dt_undo_record at hr
      rcases List.mem_cons.1 hr with rfl | hr
      · unfold record_ok
        simp only [dt_history_duplicate_eq]
        exact ⟨hprev, hadm.1⟩
      · exact hst r hr
    · exact ⟨hst, hprev⟩
  | module_remove module =>
    show controller_ok (_lib_history_module_remove_callback dt module)
    unfold _lib_history_module_remove_callback
    exact ⟨stack_ok_same (same_stack_iterate _ _ (same_record_invalidate_cb module)) hst, hprev⟩
  | pop i action detached =>
    show controller_ok (match dt.undo.get? i with
      | none => dt
      | some hist =>
        if detached then
          let s := _pop_undo { dt with undo := dt.undo.eraseIdx i } DT_UNDO_HISTORY hist action
          { s with undo := s.undo.take i ++ hist :: s.undo.drop i }
        else _pop_undo dt DT_UNDO_HISTORY hist action)
    cases hg : dt.undo.get? i with
    | none => exact ⟨hst, hprev⟩
    | some hist =>
      simp only
      have hok : record_ok hist := hst hist (by
        rw [List.get?_eq_getElem?] at hg
        obtain ⟨hlt, he⟩ := List.getElem?_eq_some.1 hg
        rw [← he]
        exact List.getElem_mem hlt)
      split
      · refine ⟨?_, ?_⟩
        · intro r hr
          have hsub : ∀ x ∈ (_pop_undo { dt with undo := dt.undo.eraseIdx i } DT_UNDO_HISTORY
              hist action).undo, record_ok x :=
            stack_ok_same (pop_undo_same_stack _ _ _)
              (fun x hx => hst x (List.mem_of_mem_eraseIdx hx))
          simp only [List.mem_append, List.mem_cons] at hr
          rcases hr with hr | rfl | hr
          · exact hsub r (List.mem_of_mem_take hr)
          · exact hok
          · exact hsub r (List.mem_of_mem_drop hr)
        · rw [pop_undo_eq]
          exact hprev
      · refine ⟨stack_ok_same (pop_undo_same_stack _ _ _) hst, ?_⟩
        rw [pop_undo_eq]
        exact hprev

theorem admissible_append (evs post : List Event) :
    ∀ dt, admissible dt (evs ++ post) → admissible dt evs ∧ admissible (run dt evs) post := by
  induction evs with
  | nil => intro dt h; exact ⟨trivial, h⟩
  | cons ev evs ih =>
    intro dt h
    obtain ⟨h1, h2⟩ := h
    obtain ⟨h3, h4⟩ := ih _ h2
    exact ⟨⟨h1, h3⟩, h4⟩

theorem run_controller_ok (evs : List Event) :
    ∀ dt, controller_ok dt → admissible dt evs → controller_ok (run dt evs) := by
  induction evs with
  | nil => intro dt h _; exact h
  | cons ev evs ih =>
    intro dt h hadm
    exact ih _ (step_controller_ok dt ev h ⟨hadm.1, trivial⟩) hadm.2

theorem run_append (dt : darktable_t) (evs post : List Event) :
    run dt (evs ++ post) = run (run dt evs) post := by
  unfold run
  exact List.foldl_append _ _ _ _

theorem reconcile_quiet (dt : darktable_t) (history_temp : List dt_dev_history_item_t)
    (h : (_pop_undo_reconcile dt history_temp).pipe_remove = false) :
    (_pop_undo_reconcile dt history_temp).check.iop_list = g_list_copy dt.develop.iop ∧
    (_pop_undo_reconcile dt history_temp).heap = dt.heap := by
  unfold _pop_undo_reconcile at h ⊢
  simp only [Bool.or_eq_false_iff, decide_eq_false_iff_not, ne_eq, not_not] at h
  obtain ⟨⟨h1, h2⟩, h3⟩ := h
  have hheap := rebuild_zero _ _ h1
  simp only [h1, ne_eq, not_true_eq_false, if_false] at h2 h3 ⊢
  rw [hheap] at h2 h3 ⊢
  have hc : _create_deleted_modules dt.heap dt.undo (g_list_copy dt.develop.iop) history_temp =
      _create_deleted_modules_exit 0
        { iop_list := g_list_copy dt.develop.iop, caller := g_list_copy dt.develop.iop,
          history_list := history_temp, heap := dt.heap, undo := dt.undo, done := false } := by
    rw [create_eq] at h2 ⊢
    rcases (create_loop_frame history_temp.length 0 0
      { iop_list := g_list_copy dt.develop.iop, caller := g_list_copy dt.develop.iop,
        history_list := history_temp, heap := dt.heap, undo := dt.undo, done := false }
      (Nat.le_of_eq (Nat.zero_add _).symm)).1 with hx | hx
    · exact hx
    · rw [hx] at h2; exact absurd h2 (by decide)
  rw [hc] at h3 ⊢
  simp only [_create_deleted_modules_exit] at h3 ⊢
  refine ⟨?_, trivial⟩
  rw [check_found_eq] at h3
  rw [check_eq]
  rcases check_loop_found dt.heap history_temp (g_list_copy dt.develop.iop).chain.length
    (check_init dt.undo dt.develop (g_list_copy dt.develop.iop)) rfl with hx | ⟨hx, -⟩
  · simp only [hx]
    simp [check_init]
  · rw [hx] at h3; exact absurd h3 (by decide)

theorem pop_undo_quiet (dt : darktable_t) (hist : dt_undo_history_t) (action : dt_undo_action_t)
    (h0 : (_pop_undo dt DT_UNDO_HISTORY hist action).develop.pipe.cache_obsolete = 0) :
    dt.develop.pipe.cache_obsolete = 0 ∧
    (_pop_undo dt DT_UNDO_HISTORY hist action).develop.iop = g_list_copy dt.develop.iop ∧
    (_pop_undo dt DT_UNDO_HISTORY hist action).heap = dt.heap := by
  rw [pop_undo_eq] at h0 ⊢
  simp only at h0 ⊢
  cases hp : (_pop_undo_reconcile dt (target_snapshot hist action)).pipe_remove with
  | true =>
    rw [hp] at h0
    simp [pipe_refresh] at h0
  | false =>
    rw [hp] at h0
    simp only [pipe_refresh, Bool.false_eq_true, if_false] at h0
    exact ⟨h0, reconcile_quiet dt _ hp⟩

/-- The pop of the record at the head of the stack, whichever way the stack
handles the record during the call. -/
theorem step_pop_head (dt : darktable_t) (r0 : dt_undo_history_t)
    (rest : List dt_undo_history_t) (hu : dt.undo = r0 :: rest) (action : dt_undo_action_t)
    (detached : Bool) :
    ∃ (dt1 : darktable_t) (r1 : dt_undo_history_t) (rest1 : List dt_undo_history_t),
      dt1.develop = dt.develop ∧ dt1.heap = dt.heap ∧
      step dt (.pop 0 action detached) =
        { _pop_undo dt1 DT_UNDO_HISTORY r0 action with undo := r1 :: rest1 } ∧
      same_record r0 r1 := by
  have hg : dt.undo.get? 0 = some r0 := by rw [hu]; rfl
  cases detached with
  | true =>
    refine ⟨{ dt with undo := dt.undo.eraseIdx 0 }, r0,
      (_pop_undo { dt with undo := dt.undo.eraseIdx 0 } DT_UNDO_HISTORY r0 action).undo,
      rfl, rfl, ?_, same_record_refl _⟩
    show (match dt.undo.get? 0 with
      | none => dt
      | some hist =>
        if true = true then
          let s := _pop_undo { dt with undo := dt.undo.eraseIdx 0 } DT_UNDO_HISTORY hist action
          { s with undo := s.undo.take 0 ++ hist :: s.undo.drop 0 }
        else _pop_undo dt DT_UNDO_HISTORY hist action) = _
    rw [hg]
    simp
  | false =>
    have hs := pop_undo_same_stack dt r0 action
    rw [hu] at hs
    cases hsu : (_pop_undo dt DT_UNDO_HISTORY r0 action).undo with
    | nil => rw [hsu] at hs; cases hs
    | cons r1 rest1 =>
      rw [hsu] at hs
      cases hs with
      | cons h1 _ =>
        refine ⟨dt, r1, rest1, rfl, rfl, ?_, h1⟩
        show (match dt.undo.get? 0 with
          | none => dt
          | some hist =>
            if false = true then
              let s := _pop_undo { dt with undo := dt.undo.eraseIdx 0 } DT_UNDO_HISTORY hist action
              { s with undo := s.undo.take 0 ++ hist :: s.undo.drop 0 }
            else _pop_undo dt DT_UNDO_HISTORY hist action) = _
        rw [hg]
        simp only [Bool.false_eq_true, if_false]
        rw [← hsu]

theorem invalidate_all_nil (list : List dt_dev_history_item_t) : invalidate_all [] list = list := by
  unfold invalidate_all
  simp

theorem invalidate_all_snoc (removed : List ModPtr) (m : ModPtr)
    (list : List dt_dev_history_item_t) :
    dt_dev_invalidate_history_module (invalidate_all removed list) m =
      invalidate_all (removed ++ [m]) list := by
  unfold dt_dev_invalidate_history_module invalidate_all
  rw [List.map_map]
  apply List.map_congr_left
  intro e _
  simp only [Function.comp]
  by_cases h1 : ∃ x ∈ removed, e.module = some x
  · have h2 : ∃ x ∈ removed ++ [m], e.module = some x := by
      obtain ⟨x, hx, he⟩ := h1
      exact ⟨x, List.mem_append_left _ hx, he⟩
    rw [if_pos h1, if_pos h2]
    simp
  · rw [if_neg h1]
    by_cases h3 : e.module = some m
    · have h2 : ∃ x ∈ removed ++ [m], e.module = some x :=
        ⟨m, List.mem_append_right _ (List.mem_singleton_self m), h3⟩
      rw [if_pos h3, if_pos h2]
    · have h2 : ¬ ∃ x ∈ removed ++ [m], e.module = some x := by
        rintro ⟨x, hx, he⟩
        rcases List.mem_append.1 hx with hx | hx
        · exact h1 ⟨x, hx, he⟩
        · rw [List.mem_singleton.1 hx] at he
          exact h3 he
      rw [if_neg h3, if_neg h2]

theorem invalidate_stack_nil (undo : List dt_undo_history_t) : invalidate_stack [] undo = undo := by
  unfold invalidate_stack
  simp [invalidate_all_nil]

theorem invalidate_stack_snoc (removed : List ModPtr) (m : ModPtr)
    (undo : List dt_undo_history_t) :
    dt_undo_iterate_internal (invalidate_stack removed undo) (_history_invalidate_cb m) =
      invalidate_stack (removed ++ [m]) undo := by
  unfold dt_undo_iterate_internal invalidate_stack _history_invalidate_cb
  rw [List.map_map]
  apply List.map_congr_left
  intro r _
  simp only [Function.comp, invalidate_all_snoc]

theorem perm_cons_eraseIdx :
    ∀ (c : List ModPtr) (j : Nat) (d : ModPtr), c.get? j = some d →
      (d :: c.eraseIdx j).Perm c := by
  intro c
  induction c with
  | nil => intro j d h; simp at h
  | cons a t ih =>
    intro j d h
    cases j with
    | zero =>
      simp only [List.get?_cons_zero, Option.some.injEq] at h
      subst h
      exact List.Perm.refl _
    | succ n =>
      simp only [List.get?_cons_succ] at h
      simp only [List.eraseIdx_cons_succ]
      exact (List.Perm.swap a d _).trans ((ih n d h).cons a)

/-- What the loop of `_check_deleted_instances` does with the instances it
removes from a registry held by its head: they leave the registry for the end
of the retained pool, in the order of their removal, each removed instance is
one the target history does not reference, and the undo stack is invalidated
for each of them. -/
theorem check_loop_removed (heap : Heap) (hist : List dt_dev_history_item_t) :
    ∀ (fuel : Nat) (st : CheckResult) (before : List ModPtr), st.iop_list.pos = 0 →
      ∃ removed : List ModPtr,
        (_check_deleted_instances_loop heap hist fuel st).alliop = st.alliop ++ removed ∧
        ((_check_deleted_instances_loop heap hist fuel st).iop_list.chain ++ removed).Perm
          st.iop_list.chain ∧
        (∀ d ∈ removed, ¬ referenced hist d) ∧
        (∀ u, st.undo = invalidate_stack before u →
          (_check_deleted_instances_loop heap hist fuel st).undo =
            invalidate_stack (before ++ removed) u) := by
  intro fuel
  induction fuel with
  | zero =>
    intro st before _
    exact ⟨[], by simp [_check_deleted_instances_loop], by simp [_check_deleted_instances_loop],
      by simp, fun u hu => by simpa [_check_deleted_instances_loop] using hu⟩
  | succ n ih =>
    intro st before h0
    cases hs : _check_deleted_instances_scan heap hist st.iop_list.chain 0 with
    | none =>
      rw [check_loop_stop heap hist _ st hs]
      exact ⟨[], by simp, by simp, by simp, fun u hu => by simpa using hu⟩
    | some link =>
      obtain ⟨mod, hg, heq⟩ := check_loop_succ heap hist n st h0 link hs
      rw [heq]
      obtain ⟨k, d, hj, hk, hnr, -⟩ := scan_some heap hist _ 0 link hs
      have hkl : k = link := by omega
      subst hkl
      rw [hg] at hk
      cases hk
      obtain ⟨removed, h1, h2, h3, h4⟩ := ih
        { deleted_module_found := 1
          iop_list := ⟨st.iop_list.chain.eraseIdx k, 0⟩
          alliop := st.alliop ++ [mod]
          gui_module := if st.gui_module = some mod then none else st.gui_module
          undo := dt_undo_iterate_internal st.undo (_history_invalidate_cb mod) }
        (before ++ [mod]) rfl
      refine ⟨mod :: removed, ?_, ?_, ?_, ?_⟩
      · rw [h1]; simp
      · have hp : (mod :: st.iop_list.chain.eraseIdx k).Perm st.iop_list.chain :=
          perm_cons_eraseIdx _ _ _ hg
        exact (List.perm_middle).trans ((h2.cons mod).trans hp)
      · intro x hx
        rcases List.mem_cons.1 hx with rfl | hx
        · exact hnr
        · exact h3 x hx
      · intro u hu
        have := h4 u (by
          show dt_undo_iterate_internal st.undo (_history_invalidate_cb mod) = _
          rw [hu, invalidate_stack_snoc])
        rw [this]
        simp

theorem check_removed (heap : Heap) (undo : List dt_undo_history_t) (dev : dt_develop_t)
    (l : List ModPtr) (hist : List dt_dev_history_item_t) :
    ∃ removed : List ModPtr,
      (_check_deleted_instances heap undo dev ⟨l, 0⟩ hist).alliop = dev.alliop ++ removed ∧
      ((_check_deleted_instances heap undo dev ⟨l, 0⟩ hist).iop_list.chain ++ removed).Perm l ∧
      (∀ d ∈ removed, ¬ referenced hist d) ∧
      (_check_deleted_instances heap undo dev ⟨l, 0⟩ hist).undo = invalidate_stack removed undo := by
  obtain ⟨removed, h1, h2, h3, h4⟩ :=
    check_loop_removed heap hist l.length (check_init undo dev ⟨l, 0⟩) [] rfl
  have h4b := h4 undo (invalidate_stack_nil undo).symm
  have hperm := check_chain_perm heap undo dev l hist
  refine ⟨removed, ?_, ?_, h3, ?_⟩
  · rw [check_eq]
    by_cases hf : (_check_deleted_instances_loop heap hist l.length
        (check_init undo dev ⟨l, 0⟩)).deleted_module_found ≠ 0
    · simp only [hf, ne_eq, not_false_eq_true, if_true]
      exact h1
    · simp only [hf, if_false]
      exact h1
  · exact (hperm.append_right removed).trans h2
  · rw [check_eq]
    by_cases hf : (_check_deleted_instances_loop heap hist l.length
        (check_init undo dev ⟨l, 0⟩)).deleted_module_found ≠ 0
    · simp only [hf, ne_eq, not_false_eq_true, if_true]
      simpa using h4b
    · simp only [hf, if_false]
      simpa using h4b

/-- The return value of the loop depends only on whether a NULL entry is left
to visit. -/
theorem create_loop_changed (fuel l : Nat) (c : Int) (st : CreateState)
    (hlen : st.history_list.length ≤ l + fuel) :
    ((∃ k e, l ≤ k ∧ st.history_list.get? k = some e ∧ e.module = none) →
      (_create_deleted_modules_loop fuel l c st).changed = 1) ∧
    ((∀ k e, l ≤ k → st.history_list.get? k = some e → e.module ≠ none) →
      (_create_deleted_modules_loop fuel l c st).changed = c) := by
  refine create_loop_induct (fun l c st r =>
    ((∃ k e, l ≤ k ∧ st.history_list.get? k = some e ∧ e.module = none) → r.changed = 1) ∧
    ((∀ k e, l ≤ k → st.history_list.get? k = some e → e.module ≠ none) → r.changed = c))
    ?_ ?_ ?_ ?_ fuel l c st hlen
  · intro l c st hnone
    refine ⟨?_, fun _ => rfl⟩
    rintro ⟨k, e, hlk, hk, -⟩
    exfalso
    have h1 : st.history_list.length ≤ l := List.get?_eq_none.1 hnone
    have h2 : st.history_list.get? k = none := List.get?_eq_none.2 (by omega)
    rw [h2] at hk
    cases hk
  · intro fuel l c st hitem hg hnn _ ih
    refine ⟨?_, fun h => ih.2 (fun k e hk => h k e (by omega))⟩
    rintro ⟨k, e, hlk, hk, hnull⟩
    have hne : l ≠ k := by
      rintro rfl
      rw [hg] at hk
      cases hk
      exact hnn hnull
    exact ih.1 ⟨k, e, by omega, hk, hnull⟩
  · intro l c st hitem r hg hnull herr
    exact ⟨fun _ => (resurrect_error l hitem st r herr).1,
      fun h => absurd hnull (h l hitem (le_refl _) hg)⟩
  · intro fuel l c st hitem st1 hg hnull _ hl1 _
    refine ⟨fun _ => ?_, fun h => absurd hnull (h l hitem (le_refl _) hg)⟩
    rcases (create_loop_frame fuel (l + 1) 1 st1 hl1).1 with h | h
    · rw [h]; rfl
    · exact h

/-- The loop of `_create_deleted_modules` when a NULL entry at index `i` names
an operation that has no instance in the list: nothing is done from that entry
on.  An entry at or after `i` keeps its module reference, unless the first
resurrection of the pass, for an entry `f` before `i`, set its instance in it. -/
theorem create_loop_aborts (i : Nat) (e1 : dt_dev_history_item_t) (fuel l : Nat) (c : Int)
    (st : CreateState) (hlen : st.history_list.length ≤ l + fuel) :
    l ≤ i → st.history_list.get? i = some e1 → e1.module = none →
    (∀ m ∈ st.iop_list.chain, (st.heap.mem m).op ≠ e1.op_name) →
    ∀ k e, i ≤ k → st.history_list.get? k = some e →
      (_create_deleted_modules_loop fuel l c st).history_list.get? k = some e ∨
      (st.done = false ∧ e.module = none ∧
        ∃ f, ((st.history_list.drop l).find? fun x => x.module.isNone) = some f ∧
          (∃ m ∈ st.iop_list.chain, (st.heap.mem m).op = f.op_name) ∧
          e.op_name = f.op_name ∧ e.multi_priority = f.multi_priority ∧
          (_create_deleted_modules_loop fuel l c st).history_list.get? k =
            some { e with module := some st.heap.next }) := by
  refine create_loop_induct (fun l _ st r =>
    l ≤ i → st.history_list.get? i = some e1 → e1.module = none →
    (∀ m ∈ st.iop_list.chain, (st.heap.mem m).op ≠ e1.op_name) →
    ∀ k e, i ≤ k → st.history_list.get? k = some e →
      r.history_list.get? k = some e ∨
      (st.done = false ∧ e.module = none ∧
        ∃ f, ((st.history_list.drop l).find? fun x => x.module.isNone) = some f ∧
          (∃ m ∈ st.iop_list.chain, (st.heap.mem m).op = f.op_name) ∧
          e.op_name = f.op_name ∧ e.multi_priority = f.multi_priority ∧
          r.history_list.get? k = some { e with module := some st.heap.next }))
    ?_ ?_ ?_ ?_ fuel l c st hlen
  · intro l c st hnone hli hi _ _ k e _ hk
    exact Or.inl hk
  · intro fuel l c st hitem hg hnn _ ih hli hi hnull hnb k e hik hk
    have hne : l ≠ i := by
      rintro rfl
      rw [hg] at hi
      cases hi
      exact hnn hnull
    rcases ih (by omega) hi hnull hnb k e hik hk with h | ⟨h1, h2, f, h3, h4⟩
    · exact Or.inl h
    · refine Or.inr ⟨h1, h2, f, ?_, h4⟩
      rw [drop_get_cons hg, List.find?_cons_of_neg]
      · exact h3
      · cases hm : hitem.module with
        | none => exact absurd hm hnn
        | some x => simp
  · intro l c st hitem r hg _ herr _ _ _ _ k e _ hk
    left
    rw [(resurrect_error l hitem st r herr).2.2.1]
    exact hk
  · intro fuel l c st hitem st1 hg hnull0 hok hl1 ih hli hi hnull hnb k e hik hk
    obtain ⟨⟨base, hbm, hbop, -, -⟩, -, hmem, hop, -, -, -, -, hchain, -, hdone, hhist, -⟩ :=
      resurrect_ok l hitem st st1 hok
    have hne : l ≠ i := by
      rintro rfl
      rw [hg] at hi
      cases hi
      exact hnb base hbm hbop
    have hopne : hitem.op_name ≠ e1.op_name := by
      rw [← hbop]
      exact hnb base hbm
    -- the list still has no instance of the operation of `e1`
    have hnb1 : ∀ m ∈ st1.iop_list.chain, (st1.heap.mem m).op ≠ e1.op_name := by
      intro m hm
      by_cases hmn : m = st.heap.next
      · rw [hmn, hop]; exact hopne
      · rw [hmem m hmn]
        rcases (hchain m).1 hm with h | h
        · exact absurd h hmn
        · exact hnb m h
    -- what the round does to an entry other than the one at `l`
    have hentry : ∀ k2 e2, l ≠ k2 → st.history_list.get? k2 = some e2 →
        st1.history_list.get? k2 = some e2 ∨
        (st.done = false ∧ e2.module = none ∧ e2.op_name = hitem.op_name ∧
          e2.multi_priority = hitem.multi_priority ∧
          st1.history_list.get? k2 = some { e2 with module := some st.heap.next }) := by
      intro k2 e2 hlk hk2
      rw [hhist, set_get_ne _ _ _ _ hlk]
      by_cases hd : st.done = true
      · left; rw [if_pos hd]; exact hk2
      · rw [if_neg hd, reset_get _ _ _ _ _ _ hk2, hop]
        by_cases hmatch : e2.module = none ∧ e2.op_name = hitem.op_name ∧
            e2.multi_priority = hitem.multi_priority
        · right
          rw [if_pos hmatch]
          exact ⟨by simpa using hd, hmatch.1, hmatch.2.1, hmatch.2.2, rfl⟩
        · left; rw [if_neg hmatch]
    have hi1 : st1.history_list.get? i = some e1 := by
      rcases hentry i e1 hne hi with h | ⟨-, -, h, -⟩
      · exact h
      · exact absurd h.symm hopne
    have hlk : l ≠ k := by omega
    have hfirst : ((st.history_list.drop l).find? fun x => x.module.isNone) = some hitem := by
      rw [drop_get_cons hg, List.find?_cons_of_pos]
      simp [hnull0]
    rcases hentry k e hlk hk with h | ⟨h1, h2, h3, h4, h5⟩
    · rcases ih (by omega) hi1 hnull hnb1 k e hik h with h6 | ⟨h6, -⟩
      · exact Or.inl h6
      · rw [hdone] at h6; cases h6
    · right
      refine ⟨h1, h2, hitem, hfirst, ⟨base, hbm, hbop⟩, h3, h4, ?_⟩
      rcases ih (by omega) hi1 hnull hnb1 k _ hik h5 with h6 | ⟨h6, -⟩
      · exact h6
      · rw [hdone] at h6; cases h6

theorem rebuild_loop_frame :
    ∀ (hist : List dt_dev_history_item_t) (heap : Heap) (c : Int),
      (_rebuild_multi_priority_loop hist (heap, c)).1.next = heap.next ∧
      ∀ m, ((_rebuild_multi_priority_loop hist (heap, c)).1.mem m).op = (heap.mem m).op ∧
        ((_rebuild_multi_priority_loop hist (heap, c)).1.mem m).load_fails =
          (heap.mem m).load_fails := by
  intro hist
  induction hist with
  | nil => intro heap c; exact ⟨rfl, fun m => ⟨rfl, rfl⟩⟩
  | cons hitem history ih =>
    intro heap c
    unfold _rebuild_multi_priority_loop
    cases hm : hitem.module with
    | none => exact ih heap c
    | some x =>
      simp only
      split
      · obtain ⟨h1, h2⟩ := ih (dt_iop_update_multi_priority heap x hitem.multi_priority) 1
        refine ⟨h1, fun m => ?_⟩
        obtain ⟨h3, h4⟩ := h2 m
        rw [h3, h4]
        unfold dt_iop_update_multi_priority
        by_cases hmx : m = x
        · subst hmx; simp
        · simp [Function.update_noteq hmx]
      · exact ih heap c

theorem rebuild_frame (heap : Heap) (hist : List dt_dev_history_item_t) :
    (_rebuild_multi_priority heap hist).1.next = heap.next ∧
    ∀ m, ((_rebuild_multi_priority heap hist).1.mem m).op = (heap.mem m).op ∧
      ((_rebuild_multi_priority heap hist).1.mem m).load_fails = (heap.mem m).load_fails :=
  rebuild_loop_frame hist heap 0

theorem resurrect_ok_pos (l : Nat) (hitem : dt_dev_history_item_t) (st st1 : CreateState)
    (h : _create_deleted_modules_resurrect l hitem st = .ok st1) :
    st1.iop_list.pos = st.iop_list.pos := by
  unfold _create_deleted_modules_resurrect at h
  split at h
  · cases h
  · rename_i base hfind
    simp only at h
    split at h
    · cases h
    · simp only [Except.ok.injEq] at h
      subst h
      have hmem : base ∈ st.iop_list.chain := List.mem_of_find?_eq_some hfind
      have hne : st.iop_list.chain ≠ [] := List.ne_nil_of_mem hmem
      simp only [g_list_insert_sorted, hne, if_false]

/-- When no resurrection can fail, the loop resolves every entry and hands back
the list pointer at the position it was given. -/
theorem create_loop_succeeds (fuel l : Nat) (c : Int) (st : CreateState)
    (hlen : st.history_list.length ≤ l + fuel) :
    resurrectable st →
      (_create_deleted_modules_loop fuel l c st).iop_list.pos = st.iop_list.pos := by
  refine create_loop_induct (fun _ _ st r => resurrectable st → r.iop_list.pos = st.iop_list.pos)
    ?_ ?_ ?_ ?_ fuel l c st hlen
  · intro l c st _ _; rfl
  · intro fuel l c st hitem _ _ _ ih hgood; exact ih hgood
  · intro l c st hitem r hg hnull herr hgood
    exfalso
    obtain ⟨-, -, hld, hb⟩ := hgood
    obtain ⟨st1, hok⟩ := resurrect_succeeds l hitem st (hb hitem (get?_mem_hist hg) hnull)
      (fun m hm _ => hld m hm)
    rw [hok] at herr
    cases herr
  · intro fuel l c st hitem st1 _ _ hok _ ih hgood
    rw [ih (resurrectable_step l hitem st st1 hgood hok), resurrect_ok_pos l hitem st st1 hok]

/-- A referenced instance survives `_check_deleted_instances`. -/
theorem check_keeps_referenced (heap : Heap) (undo : List dt_undo_history_t)
    (dev : dt_develop_t) (l : List ModPtr) (hist : List dt_dev_history_item_t) (m : ModPtr)
    (hm : m ∈ l) (hr : referenced hist m) :
    m ∈ (_check_deleted_instances heap undo dev ⟨l, 0⟩ hist).iop_list.chain := by
  rw [(check_chain_perm heap undo dev l hist).mem_iff]
  refine (check_loop_induct heap hist (fun c => m ∈ c) ?_
    l.length (check_init undo dev ⟨l, 0⟩) rfl hm).1
  intro c j d hc hs hd
  obtain ⟨k, d2, hj, hk, hnr, -⟩ := scan_some heap hist c 0 j hs
  have hkj : k = j := by omega
  subst hkj
  rw [hd] at hk
  cases hk
  apply mem_eraseIdx_of_ne hd hc
  rintro rfl
  exact hnr hr

/-- When no resurrection can fail and the entries that have a module reference
an instance of the list, `_create_deleted_modules` leaves every entry with a
module that is in the list it hands back, by its head. -/
theorem create_resolves_all (heap : Heap) (undo : List dt_undo_history_t) (l : List ModPtr)
    (history_list : List dt_dev_history_item_t)
    (hlive : ∀ e ∈ history_list, ∀ m, e.module = some m → m ∈ l)
    (hvalid : ∀ m ∈ l, m < heap.next)
    (hload : ∀ m ∈ l, (heap.mem m).load_fails = false)
    (hbase : ∀ e ∈ history_list, e.module = none → ∃ m ∈ l, (heap.mem m).op = e.op_name) :
    (_create_deleted_modules heap undo ⟨l, 0⟩ history_list).iop_list.pos = 0 ∧
    ∀ e ∈ (_create_deleted_modules heap undo ⟨l, 0⟩ history_list).history_list,
      ∃ m, e.module = some m ∧
        m ∈ (_create_deleted_modules heap undo ⟨l, 0⟩ history_list).iop_list.chain := by
  rw [create_eq]
  have hlen : history_list.length ≤ 0 + history_list.length := Nat.le_of_eq (Nat.zero_add _).symm
  have hgood : resurrectable
      { iop_list := ⟨l, 0⟩, caller := ⟨l, 0⟩, history_list := history_list, heap := heap,
        undo := undo, done := false } := ⟨rfl, hvalid, hload, hbase⟩
  obtain ⟨-, F2, -, F4, -⟩ := create_loop_frame history_list.length 0 0
    { iop_list := ⟨l, 0⟩, caller := ⟨l, 0⟩, history_list := history_list, heap := heap,
      undo := undo, done := false } hlen
  have hres := create_loop_resolves history_list.length 0 0
    { iop_list := ⟨l, 0⟩, caller := ⟨l, 0⟩, history_list := history_list, heap := heap,
      undo := undo, done := false } hlen hgood
  have hfl := fields_length (create_loop_fields history_list.length 0 0
    { iop_list := ⟨l, 0⟩, caller := ⟨l, 0⟩, history_list := history_list, heap := heap,
      undo := undo, done := false } hlen)
  refine ⟨create_loop_succeeds _ _ _ _ hlen hgood, ?_⟩
  intro e he
  obtain ⟨k, hk⟩ := List.mem_iff_getElem?.1 he
  have hklt : k < history_list.length := by
    have := (List.getElem?_eq_some.1 hk).1
    have hfl2 : (_create_deleted_modules_loop history_list.length 0 0
      { iop_list := ⟨l, 0⟩, caller := ⟨l, 0⟩, history_list := history_list, heap := heap,
        undo := undo, done := false }).history_list.length = history_list.length := hfl
    omega
  have hk0 : history_list.get? k = some (history_list.get ⟨k, hklt⟩) := List.get?_eq_get hklt
  rw [← List.get?_eq_getElem?] at hk
  cases hm0 : (history_list.get ⟨k, hklt⟩).module with
  | none =>
    obtain ⟨m, h1, h2, -⟩ := hres k _ (Nat.zero_le _) hk0 hm0
    rw [h1] at hk
    cases hk
    exact ⟨m, rfl, h2⟩
  | some m =>
    have h1 := F2 k _ hk0 (by rw [hm0]; simp)
    rw [h1] at hk
    cases hk
    exact ⟨m, hm0, F4 rfl m (hlive _ (List.get_mem _ _ _) m hm0)⟩

theorem reconcile_history_eq (dt : darktable_t) (history_temp : List dt_dev_history_item_t) :
    (_pop_undo_reconcile dt history_temp).history_temp =
      (_create_deleted_modules (_rebuild_multi_priority dt.heap history_temp).1 dt.undo
        (iop_temp_sorted dt history_temp) history_temp).history_list := rfl

theorem reconcile_check_eq (dt : darktable_t) (history_temp : List dt_dev_history_item_t) :
    (_pop_undo_reconcile dt history_temp).check =
      _check_deleted_instances
        (_create_deleted_modules (_rebuild_multi_priority dt.heap history_temp).1 dt.undo
          (iop_temp_sorted dt history_temp) history_temp).heap
        (_create_deleted_modules (_rebuild_multi_priority dt.heap history_temp).1 dt.undo
          (iop_temp_sorted dt history_temp) history_temp).undo
        dt.develop
        (_create_deleted_modules (_rebuild_multi_priority dt.heap history_temp).1 dt.undo
          (iop_temp_sorted dt history_temp) history_temp).iop_list
        (_create_deleted_modules (_rebuild_multi_priority dt.heap history_temp).1 dt.undo
          (iop_temp_sorted dt history_temp) history_temp).history_list := rfl

theorem iop_temp_sorted_head (dt : darktable_t) (history_temp : List dt_dev_history_item_t)
    (hpos : dt.develop.iop.pos = 0) :
    ∃ l : List ModPtr, iop_temp_sorted dt history_temp = ⟨l, 0⟩ ∧
      ∀ m, m ∈ l ↔ m ∈ dt.develop.iop.chain := by
  unfold iop_temp_sorted
  split
  · refine ⟨_, rfl, fun m => ?_⟩
    simp [g_list_copy, hpos, List.mem_insertionSort]
  · refine ⟨_, rfl, fun m => ?_⟩
    simp [g_list_copy, hpos]

/-- The reconciliation when the target snapshot references live instances only
and no resurrection can fail. -/
theorem reconcile_references_registry (dt : darktable_t)
    (history_temp : List dt_dev_history_item_t) (hpos : dt.develop.iop.pos = 0)
    (hlive : ∀ e ∈ history_temp, ∀ m, e.module = some m → m ∈ dt.develop.iop.chain)
    (hvalid : ∀ m ∈ dt.develop.iop.chain, m < dt.heap.next)
    (hload : ∀ m ∈ dt.develop.iop.chain, (dt.heap.mem m).load_fails = false)
    (hbase : ∀ e ∈ history_temp, e.module = none →
      ∃ m ∈ dt.develop.iop.chain, (dt.heap.mem m).op = e.op_name) :
    (∀ e ∈ (_pop_undo_reconcile dt history_temp).history_temp,
      ∃ m, e.module = some m ∧ m ∈ (_pop_undo_reconcile dt history_temp).check.iop_list.chain) ∧
    ∃ removed : List ModPtr,
      (_pop_undo_reconcile dt history_temp).check.alliop = dt.develop.alliop ++ removed ∧
      ∀ d ∈ removed, ¬ referenced (_pop_undo_reconcile dt history_temp).history_temp d := by
  rw [reconcile_history_eq, reconcile_check_eq]
  obtain ⟨l, hl, hmem⟩ := iop_temp_sorted_head dt history_temp hpos
  rw [hl]
  obtain ⟨hnext, hfr⟩ := rebuild_frame dt.heap history_temp
  obtain ⟨hp0, hall⟩ := create_resolves_all (_rebuild_multi_priority dt.heap history_temp).1
    dt.undo l history_temp
    (fun e he m hm => (hmem m).2 (hlive e he m hm))
    (fun m hm => by rw [hnext]; exact hvalid m ((hmem m).1 hm))
    (fun m hm => by rw [(hfr m).2]; exact hload m ((hmem m).1 hm))
    (fun e he hn => by
      obtain ⟨m, hm, hop⟩ := hbase e he hn
      exact ⟨m, (hmem m).2 hm, by rw [(hfr m).1]; exact hop⟩)
  rw [GList.eq_head _ hp0]
  refine ⟨?_, ?_⟩
  · intro e he
    obtain ⟨m, hm, hmc⟩ := hall e he
    exact ⟨m, hm, check_keeps_referenced _ _ _ _ _ m hmc ⟨e, he, hm⟩⟩
  · obtain ⟨removed, h1, -, h3, -⟩ := check_removed
      (_create_deleted_modules (_rebuild_multi_priority dt.heap history_temp).1 dt.undo ⟨l, 0⟩
        history_temp).heap
      (_create_deleted_modules (_rebuild_multi_priority dt.heap history_temp).1 dt.undo ⟨l, 0⟩
        history_temp).undo dt.develop
      (_create_deleted_modules (_rebuild_multi_priority dt.heap history_temp).1 dt.undo ⟨l, 0⟩
        history_temp).iop_list.chain
      (_create_deleted_modules (_rebuild_multi_priority dt.heap history_temp).1 dt.undo ⟨l, 0⟩
        history_temp).history_list
    exact ⟨removed, h1, h3⟩

theorem step_keeps_previous (dt : darktable_t) (ev : Event) (h : is_will_change ev = false) :
    (step dt ev).lib.previous_snapshot = dt.lib.previous_snapshot ∧
    (step dt ev).lib.previous_history_end = dt.lib.previous_history_end ∧
    (step dt ev).lib.previous_iop_order_list = dt.lib.previous_iop_order_list := by
  cases ev with
  | will_change a b c => simp [is_will_change] at h
  | pipeline develop heap => exact ⟨rfl, rfl, rfl⟩
  | changed =>
    show (_lib_history_change_callback dt).lib.previous_snapshot = _ ∧
      (_lib_history_change_callback dt).lib.previous_history_end = _ ∧
      (_lib_history_change_callback dt).lib.previous_iop_order_list = _
    unfold _lib_history_change_callback
    split <;> exact ⟨rfl, rfl, rfl⟩
  | module_remove m => exact ⟨rfl, rfl, rfl⟩
  | pop i action detached =>
    have hstep : step dt (.pop i action detached) =
        match dt.undo.get? i with
        | none => dt
        | some hist =>
          if detached then
            { _pop_undo { dt with undo := dt.undo.eraseIdx i } DT_UNDO_HISTORY hist action with
              undo := (_pop_undo { dt with undo := dt.undo.eraseIdx i } DT_UNDO_HISTORY hist
                action).undo.take i ++ hist ::
                  (_pop_undo { dt with undo := dt.undo.eraseIdx i } DT_UNDO_HISTORY hist
                    action).undo.drop i }
          else _pop_undo dt DT_UNDO_HISTORY hist action := rfl
    rw [hstep]
    split
    · exact ⟨rfl, rfl, rfl⟩
    · cases detached <;> simp [_pop_undo]

theorem run_keeps_previous (evs : List Event) :
    ∀ dt : darktable_t, (∀ ev ∈ evs, is_will_change ev = false) →
      (run dt evs).lib.previous_snapshot = dt.lib.previous_snapshot ∧
      (run dt evs).lib.previous_history_end = dt.lib.previous_history_end ∧
      (run dt evs).lib.previous_iop_order_list = dt.lib.previous_iop_order_list := by
  induction evs with
  | nil => intro dt _; exact ⟨rfl, rfl, rfl⟩
  | cons ev evs ih =>
    intro dt h
    obtain ⟨h1, h2, h3⟩ := step_keeps_previous dt ev (h ev (List.mem_cons_self _ _))
    obtain ⟨k1, k2, k3⟩ := ih (step dt ev) (fun e he => h e (List.mem_cons_of_mem _ he))
    exact ⟨k1.trans h1, k2.trans h2, k3.trans h3⟩

theorem rebuild_loop_keeps_one :
    ∀ (hist : List dt_dev_history_item_t) (heap : Heap),
      (_rebuild_multi_priority_loop hist (heap, 1)).2 = 1 := by
  intro hist heap
  rcases rebuild_loop_zero hist heap 1 with h | h
  · exact h
  · rw [h]

/-- The return value of the loop of `_rebuild_multi_priority`, read off the
heap on entry. -/
theorem rebuild_loop_changed :
    ∀ (hist : List dt_dev_history_item_t) (heap : Heap) (c : Int),
      (_rebuild_multi_priority_loop hist (heap, c)).2 =
        if ∃ e ∈ hist, ∃ m, e.module = some m ∧ (heap.mem m).multi_priority ≠ e.multi_priority
        then 1 else c := by
  intro hist
  induction hist with
  | nil => intro heap c; simp [_rebuild_multi_priority_loop]
  | cons hitem history ih =>
    intro heap c
    unfold _rebuild_multi_priority_loop
    cases hm : hitem.module with
    | none =>
      simp only
      rw [ih heap c]
      have : (∃ e ∈ hitem :: history, ∃ m, e.module = some m ∧
          (heap.mem m).multi_priority ≠ e.multi_priority) ↔
          ∃ e ∈ history, ∃ m, e.module = some m ∧
            (heap.mem m).multi_priority ≠ e.multi_priority := by
        simp [hm]
      simp only [this]
    | some x =>
      simp only
      by_cases hd : (heap.mem x).multi_priority ≠ hitem.multi_priority
      · rw [if_pos hd, rebuild_loop_keeps_one]
        rw [if_pos ⟨hitem, List.mem_cons_self _ _, x, hm, hd⟩]
      · rw [if_neg hd, ih heap c]
        have : (∃ e ∈ hitem :: history, ∃ m, e.module = some m ∧
            (heap.mem m).multi_priority ≠ e.multi_priority) ↔
            ∃ e ∈ history, ∃ m, e.module = some m ∧
              (heap.mem m).multi_priority ≠ e.multi_priority := by
          constructor
          · rintro ⟨e, he, m, hem, hne⟩
            rcases List.mem_cons.1 he with rfl | he
            · rw [hm] at hem
              cases hem
              exact absurd hne hd
            · exact ⟨e, he, m, hem, hne⟩
          · rintro ⟨e, he, m, hem, hne⟩
            exact ⟨e, List.mem_cons_of_mem _ he, m, hem, hne⟩
        simp only [this]

/-- An instance whose priority already is the one recorded by every entry that
references it keeps that priority through the loop. -/
theorem rebuild_loop_stable :
    ∀ (hist : List dt_dev_history_item_t) (heap : Heap) (c : Int) (m : ModPtr),
      (∀ x ∈ hist, x.module = some m → x.multi_priority = (heap.mem m).multi_priority) →
      ((_rebuild_multi_priority_loop hist (heap, c)).1.mem m).multi_priority =
        (heap.mem m).multi_priority := by
  intro hist
  induction hist with
  | nil => intro heap c m _; rfl
  | cons hitem history ih =>
    intro heap c m hall
    unfold _rebuild_multi_priority_loop
    cases hm : hitem.module with
    | none =>
      exact ih heap c m (fun x hx => hall x (List.mem_cons_of_mem _ hx))
    | some x =>
      simp only
      split
      · rename_i hd
        have hxm : m ≠ x := by
          rintro rfl
          exact hd (hall hitem (List.mem_cons_self _ _) hm).symm
        have hsame : ((dt_iop_update_multi_priority heap x hitem.multi_priority).mem m)
            = heap.mem m := by
          unfold dt_iop_update_multi_priority
          simp [Function.update_noteq hxm]
        rw [ih _ 1 m (fun y hy hym => by
          rw [hsame]; exact hall y (List.mem_cons_of_mem _ hy) hym), hsame]
      · exact ih heap c m (fun x hx => hall x (List.mem_cons_of_mem _ hx))

/-- After the loop the live priority of a referenced instance is the priority
recorded by the last entry that references it. -/
theorem rebuild_loop_last :
    ∀ (pre : List dt_dev_history_item_t) (e : dt_dev_history_item_t)
      (post : List dt_dev_history_item_t) (heap : Heap) (c : Int) (m : ModPtr),
      e.module = some m →
      (∀ x ∈ post, x.module = some m → x.multi_priority = e.multi_priority) →
      ((_rebuild_multi_priority_loop (pre ++ e :: post) (heap, c)).1.mem m).multi_priority =
        e.multi_priority := by
  intro pre
  induction pre with
  | nil =>
    intro e post heap c m hem hpost
    simp only [List.nil_append]
    unfold _rebuild_multi_priority_loop
    simp only [hem]
    split
    · rw [rebuild_loop_stable post _ 1 m]
      · unfold dt_iop_update_multi_priority; simp
      · intro x hx hxm
        rw [hpost x hx hxm]
        unfold dt_iop_update_multi_priority; simp
    · rename_i hd
      have heq : (heap.mem m).multi_priority = e.multi_priority := not_not.1 hd
      rw [rebuild_loop_stable post heap c m (fun x hx hxm => by rw [heq]; exact hpost x hx hxm)]
      exact heq
  | cons p pre ih =>
    intro e post heap c m hem hpost
    simp only [List.cons_append]
    unfold _rebuild_multi_priority_loop
    cases hp : p.module with
    | none => exact ih e post heap c m hem hpost
    | some x =>
      simp only
      split
      · exact ih e post _ 1 m hem hpost
      · exact ih e post heap c m hem hpost

/-- The loop writes instance priorities only, and only of referenced instances. -/
theorem rebuild_loop_only_priority :
    ∀ (hist : List dt_dev_history_item_t) (heap : Heap) (c : Int),
      (_rebuild_multi_priority_loop hist (heap, c)).1.next = heap.next ∧
      ∀ m, { (_rebuild_multi_priority_loop hist (heap, c)).1.mem m with
              multi_priority := (heap.mem m).multi_priority } = heap.mem m := by
  intro hist
  induction hist with
  | nil => intro heap c; exact ⟨rfl, fun m => rfl⟩
  | cons hitem history ih =>
    intro heap c
    unfold _rebuild_multi_priority_loop
    cases hm : hitem.module with
    | none => exact ih heap c
    | some x =>
      simp only
      split
      · obtain ⟨h1, h2⟩ := ih (dt_iop_update_multi_priority heap x hitem.multi_priority) 1
        refine ⟨h1, fun m => ?_⟩
        have h3 := h2 m
        by_cases hmx : m = x
        · subst hmx
          have h4 := congrArg
            (fun r : dt_iop_module_t => { r with multi_priority := (heap.mem m).multi_priority }) h3
          simp only [dt_iop_update_multi_priority, Function.update_same] at h4
          exact h4
        · have hsame : (dt_iop_update_multi_priority heap x hitem.multi_priority).mem m
              = heap.mem m := by
            unfold dt_iop_update_multi_priority
            simp [Function.update_noteq hmx]
          rw [hsame] at h3
          exact h3
      · exact ih heap c

theorem check_while_done (heap : Heap) (hist : List dt_dev_history_item_t) (fuel : Nat)
    (st : CheckResult) :
    _check_deleted_instances_while heap hist fuel ⟨st, none⟩ = some st := by
  cases fuel <;> rfl

theorem check_while_mono (heap : Heap) (hist : List dt_dev_history_item_t) :
    ∀ (fuel : Nat) (s : CheckLoop) (r : CheckResult) (d : Nat),
      _check_deleted_instances_while heap hist fuel s = some r →
      _check_deleted_instances_while heap hist (fuel + d) s = some r := by
  intro fuel
  induction fuel with
  | zero =>
    intro s r d h
    cases s with
    | mk vars modules =>
      cases modules with
      | none =>
        rw [check_while_done] at h
        rw [check_while_done]
        exact h
      | some i => simp [_check_deleted_instances_while] at h
  | succ n ih =>
    intro s r d h
    cases s with
    | mk vars modules =>
      cases modules with
      | none =>
        rw [check_while_done] at h
        rw [check_while_done]
        exact h
      | some i =>
        have hfd : n + 1 + d = (n + d) + 1 := by omega
        rw [hfd]
        unfold _check_deleted_instances_while at h ⊢
        simp only at h ⊢
        exact ih _ r d h

theorem g_list_remove_link_length (list : GList) (link : Nat) (h : link < list.chain.length) :
    (g_list_remove_link list link).chain.length < list.chain.length ∧
    ((g_list_remove_link list link).chain ≠ [] →
      (g_list_remove_link list link).chain = list.chain.eraseIdx link ∧
      (g_list_remove_link list link).chain.length + 1 = list.chain.length) := by
  have he : (list.chain.eraseIdx link).length + 1 = list.chain.length := by
    rw [List.length_eraseIdx]
    simp only [h, if_true]
    omega
  unfold g_list_remove_link
  split
  · exact ⟨by simp only; omega, fun _ => ⟨rfl, he⟩⟩
  · split
    · split
      · exact ⟨by simp only; omega, fun _ => ⟨rfl, he⟩⟩
      · exact ⟨by simp only [List.length_nil]; omega, fun hne => absurd rfl hne⟩
    · exact ⟨by simp only; omega, fun _ => ⟨rfl, he⟩⟩

/-- The decision of one round against the forward pass used by
`_check_deleted_instances_loop`. -/
theorem delete_scan (heap : Heap) (hist : List dt_dev_history_item_t) (chain : List ModPtr)
    (i : Nat) (mod : ModPtr) (hg : chain.get? i = some mod) :
    (∀ j, _check_deleted_instances_delete heap hist chain i mod = some j →
      _check_deleted_instances_scan heap hist (chain.drop i) i = some j ∧
        (j = i ∨ j = i + 1) ∧ j < chain.length) ∧
    (_check_deleted_instances_delete heap hist chain i mod = none →
      _check_deleted_instances_scan heap hist (chain.drop i) i =
        _check_deleted_instances_scan heap hist (chain.drop (i + 1)) (i + 1)) := by
  have hi : i < chain.length := by
    rcases Nat.lt_or_ge i chain.length with h | h
    · exact h
    · rw [List.get?_eq_none.2 h] at hg; cases hg
  have hmod : chain[i] = mod := by
    rw [List.get?_eq_getElem?, List.getElem?_eq_getElem hi] at hg
    exact Option.some.inj hg
  have hdrop : chain.drop i = mod :: chain.drop (i + 1) := by
    rw [← hmod]; exact List.drop_eq_getElem_cons hi
  rw [hdrop]
  unfold _check_deleted_instances_delete
  by_cases hp : (heap.mem mod).multi_priority = 0
  · rw [if_pos hp]
    cases hnext : chain.get? (i + 1) with
    | none =>
      have hnil : chain.drop (i + 1) = [] :=
        List.drop_eq_nil_of_le (List.get?_eq_none.1 hnext)
      rw [hnil]
      refine ⟨fun j h => Option.noConfusion h, fun _ => ?_⟩
      simp [_check_deleted_instances_scan, hp]
    | some mod_next =>
      have hi1 : i + 1 < chain.length := by
        rcases Nat.lt_or_ge (i + 1) chain.length with h | h
        · exact h
        · rw [List.get?_eq_none.2 h] at hnext; cases hnext
      have hmn : chain[i + 1] = mod_next := by
        rw [List.get?_eq_getElem?, List.getElem?_eq_getElem hi1] at hnext
        exact Option.some.inj hnext
      have hdrop1 : chain.drop (i + 1) = mod_next :: chain.drop (i + 1 + 1) := by
        rw [← hmn]; exact List.drop_eq_getElem_cons hi1
      rw [hdrop1]
      generalize chain.drop (i + 1 + 1) = tl
      have hscan : _check_deleted_instances_scan heap hist (mod :: mod_next :: tl) i =
          if (heap.mem mod_next).op = (heap.mem mod).op ∧ (heap.mem mod_next).multi_priority = 0
          then
            if (_search_history_by_module hist mod).isSome = true ∧
                ¬ (_search_history_by_module hist mod_next).isSome = true then some (i + 1)
            else if ¬ (_search_history_by_module hist mod).isSome = true ∧
                (_search_history_by_module hist mod_next).isSome = true then some i
            else _check_deleted_instances_scan heap hist (mod_next :: tl) (i + 1)
          else _check_deleted_instances_scan heap hist (mod_next :: tl) (i + 1) := by
        conv_lhs => unfold _check_deleted_instances_scan
        simp only [hp, if_true]
      rw [hscan]
      simp only
      by_cases hsame : (heap.mem mod_next).op = (heap.mem mod).op ∧
          (heap.mem mod_next).multi_priority = 0
      · rw [if_pos hsame, if_pos hsame]
        by_cases h1 : (_search_history_by_module hist mod).isSome = true ∧
            ¬ (_search_history_by_module hist mod_next).isSome = true
        · rw [if_pos h1, if_pos h1]
          refine ⟨fun j h => ?_, fun h => Option.noConfusion h⟩
          cases h
          exact ⟨rfl, Or.inr rfl, hi1⟩
        · rw [if_neg h1, if_neg h1]
          by_cases h2 : ¬ (_search_history_by_module hist mod).isSome = true ∧
              (_search_history_by_module hist mod_next).isSome = true
          · rw [if_pos h2, if_pos h2]
            refine ⟨fun j h => ?_, fun h => Option.noConfusion h⟩
            cases h
            exact ⟨rfl, Or.inl rfl, hi⟩
          · rw [if_neg h2, if_neg h2]
            exact ⟨fun j h => Option.noConfusion h, fun _ => rfl⟩
      · rw [if_neg hsame, if_neg hsame]
        exact ⟨fun j h => Option.noConfusion h, fun _ => rfl⟩
  · rw [if_neg hp]
    generalize chain.drop (i + 1) = tl
    have hscan : _check_deleted_instances_scan heap hist (mod :: tl) i =
        if (_search_history_by_module hist mod).isNone = true then some i
        else _check_deleted_instances_scan heap hist tl (i + 1) := by
      conv_lhs => unfold _check_deleted_instances_scan
      simp only [hp, if_false]
    rw [hscan]
    by_cases hn : (_search_history_by_module hist mod).isNone = true
    · rw [if_pos hn, if_pos hn]
      refine ⟨fun j h => ?_, fun h => Option.noConfusion h⟩
      cases h
      exact ⟨rfl, Or.inl rfl, hi⟩
    · rw [if_neg hn, if_neg hn]
      exact ⟨fun j h => Option.noConfusion h, fun _ => rfl⟩

theorem g_list_nth_lt (chain : List ModPtr) (i : Nat) (h : i < chain.length) :
    g_list_nth chain i = some i := by
  unfold g_list_nth
  rw [if_pos h]

theorem g_list_nth_ge (chain : List ModPtr) (i : Nat) (h : chain.length ≤ i) :
    g_list_nth chain i = none := by
  unfold g_list_nth
  rw [if_neg (by omega)]

/-- A pass that decides nothing takes the loop to its end, one node a round. -/
theorem check_while_walk_none (heap : Heap) (hist : List dt_dev_history_item_t)
    (st : CheckResult) :
    ∀ (k i : Nat), st.iop_list.chain.length = i + k →
      _check_deleted_instances_scan heap hist (st.iop_list.chain.drop i) i = none →
      _check_deleted_instances_while heap hist k ⟨st, g_list_nth st.iop_list.chain i⟩ = some st := by
  intro k
  induction k with
  | zero =>
    intro i hlen _
    rw [g_list_nth_ge _ _ (by omega)]
    exact check_while_done heap hist 0 st
  | succ n ih =>
    intro i hlen hs
    have hi : i < st.iop_list.chain.length := by omega
    rw [g_list_nth_lt _ _ hi]
    have hg : st.iop_list.chain.get? i = some (st.iop_list.chain.get ⟨i, hi⟩) :=
      List.get?_eq_get hi
    obtain ⟨hd1, hd2⟩ := delete_scan heap hist st.iop_list.chain i _ hg
    unfold _check_deleted_instances_while
    simp only
    unfold _check_deleted_instances_body
    simp only [hg]
    cases hdel : _check_deleted_instances_delete heap hist st.iop_list.chain i
        (st.iop_list.chain.get ⟨i, hi⟩) with
    | some j =>
      rw [(hd1 j hdel).1] at hs
      cases hs
    | none =>
      simp only
      exact ih (i + 1) (by omega) (by rw [← hd2 hdel]; exact hs)

/-- A pass that decides to delete the node `j` takes the loop to the state
after that removal. -/
theorem check_while_walk_some (heap : Heap) (hist : List dt_dev_history_item_t)
    (st : CheckResult) (j : Nat) (fuel : Nat) (r : CheckResult)
    (hr : _check_deleted_instances_while heap hist fuel (_check_deleted_instances_remove st j)
      = some r) :
    ∀ (k i : Nat), st.iop_list.chain.length = i + k →
      _check_deleted_instances_scan heap hist (st.iop_list.chain.drop i) i = some j →
      _check_deleted_instances_while heap hist (fuel + k) ⟨st, g_list_nth st.iop_list.chain i⟩
        = some r := by
  intro k
  induction k with
  | zero =>
    intro i hlen hs
    rw [List.drop_eq_nil_of_le (by omega)] at hs
    simp [_check_deleted_instances_scan] at hs
  | succ n ih =>
    intro i hlen hs
    have hi : i < st.iop_list.chain.length := by omega
    rw [g_list_nth_lt _ _ hi]
    have hg : st.iop_list.chain.get? i = some (st.iop_list.chain.get ⟨i, hi⟩) :=
      List.get?_eq_get hi
    obtain ⟨hd1, hd2⟩ := delete_scan heap hist st.iop_list.chain i _ hg
    have hfk : fuel + (n + 1) = (fuel + n) + 1 := by omega
    rw [hfk]
    unfold _check_deleted_instances_while
    simp only
    unfold _check_deleted_instances_body
    simp only [hg]
    cases hdel : _check_deleted_instances_delete heap hist st.iop_list.chain i
        (st.iop_list.chain.get ⟨i, hi⟩) with
    | some j2 =>
      rw [(hd1 j2 hdel).1] at hs
      cases hs
      simp only
      exact check_while_mono heap hist fuel _ r n hr
    | none =>
      simp only
      exact ih (i + 1) (by omega) (by rw [← hd2 hdel]; exact hs)

theorem check_rounds_ge (n : Nat) : ∀ m, m ≤ n → check_rounds m ≤ check_rounds n := by
  induction n with
  | zero => intro m h; rw [Nat.le_zero.1 h]
  | succ n ih =>
    intro m h
    rcases Nat.lt_or_ge m (n + 1) with h1 | h1
    · have := ih m (by omega)
      simp only [check_rounds]
      omega
    · have : m = n + 1 := by omega
      rw [this]

/-- The loop, run round by round, comes to its end within `check_rounds` rounds
and ends in the state computed by `_check_deleted_instances_loop`. -/
theorem check_while_eq_loop (heap : Heap) (hist : List dt_dev_history_item_t) :
    ∀ (m : Nat) (st : CheckResult), st.iop_list.chain.length ≤ m →
      _check_deleted_instances_while heap hist (check_rounds m)
        ⟨st, g_list_nth st.iop_list.chain 0⟩ =
      some (_check_deleted_instances_loop heap hist m st) := by
  intro m
  induction m with
  | zero =>
    intro st hlen
    rw [g_list_nth_ge _ _ (by omega)]
    exact check_while_done heap hist _ st
  | succ n ih =>
    intro st hlen
    cases hs : _check_deleted_instances_scan heap hist st.iop_list.chain 0 with
    | none =>
      rw [check_loop_stop heap hist _ st hs]
      have h1 := check_while_walk_none heap hist st st.iop_list.chain.length 0 (by omega)
        (by rw [List.drop_zero]; exact hs)
      have h2 := check_while_mono heap hist _ _ st
        (check_rounds (n + 1) - st.iop_list.chain.length) h1
      have h3 : st.iop_list.chain.length ≤ check_rounds (n + 1) := by
        simp only [check_rounds]; omega
      rw [Nat.add_sub_cancel' h3] at h2
      exact h2
    | some j =>
      have hlt := scan_some_lt heap hist _ _ hs
      have hg : st.iop_list.chain.get? j = some (st.iop_list.chain.get ⟨j, hlt⟩) :=
        List.get?_eq_get hlt
      have hloop : _check_deleted_instances_loop heap hist (n + 1) st =
          _check_deleted_instances_loop heap hist n (_check_deleted_instances_remove st j).vars := by
        conv_lhs => unfold _check_deleted_instances_loop
        simp only [g_list_first, hs, hg, _check_deleted_instances_remove]
      have hlen2 := (g_list_remove_link_length st.iop_list j hlt).1
      have hvars : (_check_deleted_instances_remove st j) =
          ⟨(_check_deleted_instances_remove st j).vars,
            g_list_nth (_check_deleted_instances_remove st j).vars.iop_list.chain 0⟩ := by
        simp only [_check_deleted_instances_remove, hg]
      have hih := ih (_check_deleted_instances_remove st j).vars (by
        simp only [_check_deleted_instances_remove, hg]
        omega)
      rw [← hvars] at hih
      have h1 := check_while_walk_some heap hist st j _ _ hih st.iop_list.chain.length 0
        (by omega) (by rw [List.drop_zero]; exact hs)
      rw [hloop]
      have h2 := check_while_mono heap hist _ _ _
        (check_rounds (n + 1) - (check_rounds n + st.iop_list.chain.length)) h1
      have h3 : check_rounds n + st.iop_list.chain.length ≤ check_rounds (n + 1) := by
        simp only [check_rounds]; omega
      rw [Nat.add_sub_cancel' h3] at h2
      exact h2

/-- What one round of the loop does: it moves `modules` one node forward and
changes nothing, or it removes one node and resets `modules` to the first node
of what is left. -/
theorem check_body_cases (heap : Heap) (hist : List dt_dev_history_item_t) (st : CheckResult)
    (modules : Nat) (hm : modules < st.iop_list.chain.length) :
    ((_check_deleted_instances_body heap hist st modules).vars = st ∧
      (_check_deleted_instances_body heap hist st modules).modules =
        g_list_nth st.iop_list.chain (modules + 1)) ∨
    (∃ link, link < st.iop_list.chain.length ∧
      (_check_deleted_instances_body heap hist st modules).vars.iop_list =
        g_list_remove_link st.iop_list link ∧
      (_check_deleted_instances_body heap hist st modules).vars.deleted_module_found = 1 ∧
      (_check_deleted_instances_body heap hist st modules).modules =
        g_list_nth (_check_deleted_instances_body heap hist st modules).vars.iop_list.chain 0) := by
  have hg : st.iop_list.chain.get? modules = some (st.iop_list.chain.get ⟨modules, hm⟩) :=
    List.get?_eq_get hm
  obtain ⟨hd1, -⟩ := delete_scan heap hist st.iop_list.chain modules _ hg
  unfold _check_deleted_instances_body
  simp only [hg]
  cases hdel : _check_deleted_instances_delete heap hist st.iop_list.chain modules
      (st.iop_list.chain.get ⟨modules, hm⟩) with
  | none => exact Or.inl ⟨rfl, rfl⟩
  | some link =>
    right
    have hlt := (hd1 link hdel).2.2
    have hgl : st.iop_list.chain.get? link = some (st.iop_list.chain.get ⟨link, hlt⟩) :=
      List.get?_eq_get hlt
    refine ⟨link, hlt, ?_, ?_, ?_⟩ <;> simp only [_check_deleted_instances_remove, hgl]

/-- Claim C2: after `_pop_undo` the live cursor `dev->history_end` is exactly the
cursor stored with the chosen snapshot, `before_end` for an undo and `after_end`
for a redo, whatever the live state and whatever the reconciliation steps did. -/
theorem pop_undo_sets_stored_cursor (dt : darktable_t) (hist : dt_undo_history_t)
    (action : dt_undo_action_t) :
    (_pop_undo dt DT_UNDO_HISTORY hist action).develop.history_end =
      (if action = DT_ACTION_UNDO then hist.before_end else hist.after_end) := by
  rw [pop_undo_eq]
  rfl

/-- Claim C3: after `_pop_undo` the committed live history has the length and
order of the chosen snapshot (`before_snapshot` on undo, `after_snapshot` on
redo) and agrees with it entry by entry on operation name, instance priority,
display name, enabled flag and parameter blob (and on every other field but the
module reference), and the live pipeline order list is the stored one. -/
theorem pop_undo_commits_snapshot (dt : darktable_t) (hist : dt_undo_history_t)
    (action : dt_undo_action_t) :
    (_pop_undo dt DT_UNDO_HISTORY hist action).develop.history.length =
      (if action = DT_ACTION_UNDO then hist.before_snapshot else hist.after_snapshot).length ∧
    List.Forall₂
      (fun live stored : dt_dev_history_item_t =>
        live.op_name = stored.op_name ∧ live.multi_priority = stored.multi_priority ∧
        live.multi_name = stored.multi_name ∧ live.enabled = stored.enabled ∧
        live.params = stored.params ∧ live.iop_order = stored.iop_order)
      (_pop_undo dt DT_UNDO_HISTORY hist action).develop.history
      (if action = DT_ACTION_UNDO then hist.before_snapshot else hist.after_snapshot) ∧
    (_pop_undo dt DT_UNDO_HISTORY hist action).develop.iop_order_list =
      (if action = DT_ACTION_UNDO then hist.before_iop_order_list
       else hist.after_iop_order_list) := by
  have hf := pop_undo_history_fields dt hist action
  refine ⟨fields_length hf, ?_, by rw [pop_undo_eq]; rfl⟩
  have key : ∀ (a b : List dt_dev_history_item_t), a.map fields = b.map fields →
      List.Forall₂
        (fun live stored : dt_dev_history_item_t =>
          live.op_name = stored.op_name ∧ live.multi_priority = stored.multi_priority ∧
          live.multi_name = stored.multi_name ∧ live.enabled = stored.enabled ∧
          live.params = stored.params ∧ live.iop_order = stored.iop_order) a b := by
    intro a
    induction a with
    | nil =>
      intro b h
      cases b with
      | nil => exact List.Forall₂.nil
      | cons y t => simp at h
    | cons x s ih =>
      intro b h
      cases b with
      | nil => simp at h
      | cons y t =>
        simp only [List.map_cons, List.cons.injEq] at h
        obtain ⟨hxy, hst⟩ := h
        refine List.Forall₂.cons ?_ (ih t hst)
        have h1 : (fields x).op_name = (fields y).op_name := by rw [hxy]
        have h2 : (fields x).multi_priority = (fields y).multi_priority := by rw [hxy]
        have h3 : (fields x).multi_name = (fields y).multi_name := by rw [hxy]
        have h4 : (fields x).enabled = (fields y).enabled := by rw [hxy]
        have h5 : (fields x).params = (fields y).params := by rw [hxy]
        have h6 : (fields x).iop_order = (fields y).iop_order := by rw [hxy]
        exact ⟨h1, h2, h3, h4, h5, h6⟩
  exact key _ _ hf

/-- Claim C4: cursor invariant.  From the initial panel state with an empty undo
stack, along every sequence of events in which each will-change signal carries
a cursor within its history and the live pipeline satisfies the same bound at
each changed signal, every record on the undo stack satisfies
`0 ≤ before_end ≤ length before_snapshot` and `0 ≤ after_end ≤ length
after_snapshot`, and after every pop of a stored record
`0 ≤ dev->history_end ≤ length dev->history`. -/
theorem cursor_invariant (dt0 : darktable_t) (evs : List Event) (h0 : dt0.undo = [])
    (hadm : admissible (gui_init dt0) evs) :
    (∀ r ∈ (run (gui_init dt0) evs).undo, record_ok r) ∧
    (∀ pre i action detached, evs = pre ++ [Event.pop i action detached] →
      i < (run (gui_init dt0) pre).undo.length →
      cursor_ok (run (gui_init dt0) evs).develop.history
        (run (gui_init dt0) evs).develop.history_end) := by
  have hinit : controller_ok (gui_init dt0) := by
    refine ⟨?_, ?_⟩
    · intro r hr
      have : (gui_init dt0).undo = [] := h0
      rw [this] at hr
      cases hr
    · exact ⟨le_refl _, le_refl _⟩
  refine ⟨(run_controller_ok evs _ hinit hadm).1, ?_⟩
  intro pre i action detached hev hi
  subst hev
  rw [run_append]
  have hpre := run_controller_ok pre _ hinit (admissible_append pre _ _ hadm).1
  exact step_pop_cursor_ok _ i action detached hpre.1 hi

/-- Witness for claim C4: the example edit followed by an undo is an admissible
sequence from an empty undo stack. -/
theorem cursor_invariant_witness :
    example_state_two.undo = [] ∧
    admissible (gui_init example_state_two)
      (example_edit_two ++ [Event.pop 0 DT_ACTION_UNDO false]) ∧
    ((∀ r ∈ (run (gui_init example_state_two)
        (example_edit_two ++ [Event.pop 0 DT_ACTION_UNDO false])).undo, record_ok r) ∧
    (∀ pre i action detached,
      example_edit_two ++ [Event.pop 0 DT_ACTION_UNDO false] =
        pre ++ [Event.pop i action detached] →
      i < (run (gui_init example_state_two) pre).undo.length →
      cursor_ok (run (gui_init example_state_two)
          (example_edit_two ++ [Event.pop 0 DT_ACTION_UNDO false])).develop.history
        (run (gui_init example_state_two)
          (example_edit_two ++ [Event.pop 0 DT_ACTION_UNDO false])).develop.history_end)) :=
  ⟨rfl, by decide,
    cursor_invariant example_state_two (example_edit_two ++ [Event.pop 0 DT_ACTION_UNDO false])
      rfl (by decide)⟩

/-- Claim C1, counterexample: in the state reached by the example edit (one
will-change/changed pair, recording armed) the registry holds the second
  instance of X, which the live history no longer references; the undo followed
by the redo of the record just pushed leaves a registry without it, whether or
not the stack detaches the record during the pop. -/
theorem undo_redo_drops_instance :
    (run example_state_two example_edit_two).lib.record_undo = true ∧
    registry_keys (run example_state_two example_edit_two) =
      [("X", 1, true, [1]), ("X", 0, true, [1])] ∧
    registry_keys (run example_state_two
        (example_edit_two ++ [.pop 0 DT_ACTION_UNDO false, .pop 0 DT_ACTION_REDO false])) =
      [("X", 0, true, [1])] ∧
    registry_keys (run example_state_two
        (example_edit_two ++ [.pop 0 DT_ACTION_UNDO true, .pop 0 DT_ACTION_REDO true])) =
      [("X", 0, true, [1])] :=
  ⟨by decide, by decide, by decide, by decide⟩

/-- Claim C1, amended: for every state with recording armed, handling the
changed signal and then popping the record just pushed for an undo and again
for a redo yields a live history equal to the pre-undo one entry by entry
(operation name, instance priority, enabled flag, parameter blob and every
other field but the module reference, same order and number), the pre-undo
cursor and the pre-undo order list; the registry and the module heap are the
pre-undo ones when neither pop raises the cache-obsolete flag. -/
theorem undo_redo_restores_history (dt : darktable_t) (detached1 detached2 : Bool)
    (harmed : dt.lib.record_undo = true) :
    history_keys (run dt [.changed, .pop 0 DT_ACTION_UNDO detached1,
        .pop 0 DT_ACTION_REDO detached2]) = history_keys (run dt [.changed]) ∧
    (run dt [.changed, .pop 0 DT_ACTION_UNDO detached1,
        .pop 0 DT_ACTION_REDO detached2]).develop.history.map fields =
      (run dt [.changed]).develop.history.map fields ∧
    (run dt [.changed, .pop 0 DT_ACTION_UNDO detached1,
        .pop 0 DT_ACTION_REDO detached2]).develop.history_end =
      (run dt [.changed]).develop.history_end ∧
    (run dt [.changed, .pop 0 DT_ACTION_UNDO detached1,
        .pop 0 DT_ACTION_REDO detached2]).develop.iop_order_list =
      (run dt [.changed]).develop.iop_order_list ∧
    (dt.develop.iop.pos = 0 → dt.develop.pipe.cache_obsolete = 0 →
      (run dt [.changed, .pop 0 DT_ACTION_UNDO detached1,
        .pop 0 DT_ACTION_REDO detached2]).develop.pipe.cache_obsolete = 0 →
      (run dt [.changed, .pop 0 DT_ACTION_UNDO detached1,
          .pop 0 DT_ACTION_REDO detached2]).develop.iop = (run dt [.changed]).develop.iop ∧
      (run dt [.changed, .pop 0 DT_ACTION_UNDO detached1,
          .pop 0 DT_ACTION_REDO detached2]).heap = (run dt [.changed]).heap ∧
      registry_keys (run dt [.changed, .pop 0 DT_ACTION_UNDO detached1,
          .pop 0 DT_ACTION_REDO detached2]) = registry_keys (run dt [.changed])) := by
  -- the state after the changed signal and the record it pushes
  have hs1 : run dt [.changed] =
      { dt with undo :=
          { before_snapshot := dt.lib.previous_snapshot
            before_end := dt.lib.previous_history_end
            before_iop_order_list := dt.lib.previous_iop_order_list
            after_snapshot := dt.develop.history
            after_end := dt.develop.history_end
            after_iop_order_list := dt.develop.iop_order_list } :: dt.undo } := by
    show _lib_history_change_callback dt = _
    unfold _lib_history_change_callback
    simp [harmed, dt_undo_record, dt_history_duplicate_eq, dt_ioppr_iop_order_copy_deep_eq]
  have hrun : run dt [.changed, .pop 0 DT_ACTION_UNDO detached1,
      .pop 0 DT_ACTION_REDO detached2] =
      step (step (run dt [.changed]) (.pop 0 DT_ACTION_UNDO detached1))
        (.pop 0 DT_ACTION_REDO detached2) := rfl
  rw [hrun]
  generalize hrec : ({ before_snapshot := dt.lib.previous_snapshot
                       before_end := dt.lib.previous_history_end
                       before_iop_order_list := dt.lib.previous_iop_order_list
                       after_snapshot := dt.develop.history
                       after_end := dt.develop.history_end
                       after_iop_order_list := dt.develop.iop_order_list } :
                      dt_undo_history_t) = r0 at hs1
  obtain ⟨dt1, r1, rest1, hd1, hh1, hstep1, hsame1⟩ :=
    step_pop_head (run dt [.changed]) r0 dt.undo (by rw [hs1]) DT_ACTION_UNDO detached1
  obtain ⟨dt2, r2, rest2, hd2, hh2, hstep2, hsame2⟩ :=
    step_pop_head (step (run dt [.changed]) (.pop 0 DT_ACTION_UNDO detached1)) r1 rest1
      (by rw [hstep1]) DT_ACTION_REDO detached2
  rw [hstep2]
  have hfields : (_pop_undo dt2 DT_UNDO_HISTORY r1 DT_ACTION_REDO).develop.history.map fields =
      (run dt [.changed]).develop.history.map fields := by
    rw [pop_undo_history_fields, hs1]
    show r1.after_snapshot.map fields = dt.develop.history.map fields
    rw [hsame1.2.1, ← hrec]
  have hkeys : ∀ a b : List dt_dev_history_item_t, a.map fields = b.map fields →
      a.map history_key = b.map history_key := by
    intro a b h
    have hk : history_key = history_key ∘ fields := by funext e; rfl
    rw [hk, ← List.map_map, ← List.map_map, h]
  refine ⟨hkeys _ _ hfields, hfields, ?_, ?_, ?_⟩
  · rw [pop_undo_eq, hs1]
    show r1.after_end = dt.develop.history_end
    rw [hsame1.2.2.2.1, ← hrec]
  · rw [pop_undo_eq, hs1]
    show r1.after_iop_order_list = dt.develop.iop_order_list
    rw [hsame1.2.2.2.2.2, ← hrec]
  · intro hpos hc0 hc2
    have hc2b : (_pop_undo dt2 DT_UNDO_HISTORY r1 DT_ACTION_REDO).develop.pipe.cache_obsolete = 0 :=
      hc2
    obtain ⟨hq1, hq2, hq3⟩ := pop_undo_quiet dt2 r1 DT_ACTION_REDO hc2b
    rw [hd2, hstep1] at hq1
    have hq1b : (_pop_undo dt1 DT_UNDO_HISTORY r0 DT_ACTION_UNDO).develop.pipe.cache_obsolete = 0 :=
      hq1
    obtain ⟨-, hp2, hp3⟩ := pop_undo_quiet dt1 r0 DT_ACTION_UNDO hq1b
    have hiop : (_pop_undo dt2 DT_UNDO_HISTORY r1 DT_ACTION_REDO).develop.iop =
        (run dt [.changed]).develop.iop := by
      rw [hq2, hd2, hstep1]
      show g_list_copy (_pop_undo dt1 DT_UNDO_HISTORY r0 DT_ACTION_UNDO).develop.iop = _
      rw [hp2, hd1, hs1]
      show g_list_copy (g_list_copy dt.develop.iop) = dt.develop.iop
      rw [GList.eq_head dt.develop.iop hpos]
      simp [g_list_copy]
    have hheap : (_pop_undo dt2 DT_UNDO_HISTORY r1 DT_ACTION_REDO).heap =
        (run dt [.changed]).heap := by
      rw [hq3, hh2, hstep1]
      show (_pop_undo dt1 DT_UNDO_HISTORY r0 DT_ACTION_UNDO).heap = _
      rw [hp3, hh1]
    refine ⟨hiop, hheap, ?_⟩
    unfold registry_keys
    show List.map _ (_pop_undo dt2 DT_UNDO_HISTORY r1 DT_ACTION_REDO).develop.iop.chain = _
    rw [hiop]
    have hheap2 : (_pop_undo dt2 DT_UNDO_HISTORY r1 DT_ACTION_REDO).heap =
        (run dt [.changed]).heap := hheap
    show List.map (fun m =>
        (((_pop_undo dt2 DT_UNDO_HISTORY r1 DT_ACTION_REDO).heap.mem m).op,
          ((_pop_undo dt2 DT_UNDO_HISTORY r1 DT_ACTION_REDO).heap.mem m).multi_priority,
          ((_pop_undo dt2 DT_UNDO_HISTORY r1 DT_ACTION_REDO).heap.mem m).enabled,
          ((_pop_undo dt2 DT_UNDO_HISTORY r1 DT_ACTION_REDO).heap.mem m).params)) _ = _
    rw [hheap2]

/-- Witness for claim C1: the example state has recording armed. -/
theorem undo_redo_restores_history_witness :
    example_state_two.lib.record_undo = true ∧
    history_keys (run example_state_two [.changed, .pop 0 DT_ACTION_UNDO false,
        .pop 0 DT_ACTION_REDO false]) = history_keys (run example_state_two [.changed]) :=
  ⟨rfl, (undo_redo_restores_history example_state_two false false rfl).1⟩

/-- Claim C5, counterexample: two NULL entries (C, 5) with the display names
"first" and "second" and a registry with the base instance of C.  The second
entry ends up referencing the one new instance, which carries the display name
of the first entry; no instance of the registry carries its own. -/
theorem resurrected_name_counterexample :
    (_create_deleted_modules example_heap_base [] ⟨[0], 0⟩
        [example_item none "C" 5 "first" 9, example_item none "C" 5 "second" 9]).history_list.get? 1
      = some (example_item (some 1) "C" 5 "second" 9) ∧
    ((_create_deleted_modules example_heap_base [] ⟨[0], 0⟩
        [example_item none "C" 5 "first" 9, example_item none "C" 5 "second" 9]).heap.mem
      1).multi_name = "first" ∧
    ∀ m ∈ (_create_deleted_modules example_heap_base [] ⟨[0], 0⟩
        [example_item none "C" 5 "first" 9, example_item none "C" 5 "second" 9]).iop_list.chain,
      ((_create_deleted_modules example_heap_base [] ⟨[0], 0⟩
        [example_item none "C" 5 "first" 9, example_item none "C" 5 "second" 9]).heap.mem
      m).multi_name ≠ "second" :=
  ⟨by decide, by decide, by decide⟩

/-- Claim C5, amended: when every NULL entry of the target history names an
operation that has an instance in the registry and no instance of the registry
fails to load, then for every entry `e` with a NULL module
`_create_deleted_modules` reports changed, the resulting registry contains every
previously present instance, unchanged, plus a new instance with the operation
name and instance priority of `e`, and the module reference of `e` is that new
  instance.  The new instance carries the display name of the first NULL entry of
the history when that entry has the operation and priority of `e`, and the
display name of `e` otherwise. -/
theorem create_deleted_modules_resurrects (heap : Heap) (undo : List dt_undo_history_t)
    (iop_list : GList) (history_list : List dt_dev_history_item_t) (k : Nat)
    (e : dt_dev_history_item_t) (hk : history_list.get? k = some e) (hnull : e.module = none)
    (hvalid : ∀ m ∈ iop_list.chain, m < heap.next)
    (hload : ∀ m ∈ iop_list.chain, (heap.mem m).load_fails = false)
    (hbase : ∀ x ∈ history_list, x.module = none →
      ∃ m ∈ iop_list.chain, (heap.mem m).op = x.op_name) :
    (_create_deleted_modules heap undo iop_list history_list).changed = 1 ∧
    (∀ m ∈ iop_list.chain,
      m ∈ (_create_deleted_modules heap undo iop_list history_list).iop_list.chain ∧
      (_create_deleted_modules heap undo iop_list history_list).heap.mem m = heap.mem m) ∧
    ∃ m : Nat,
      (_create_deleted_modules heap undo iop_list history_list).history_list.get? k =
        some { e with module := some m } ∧
      m ∈ (_create_deleted_modules heap undo iop_list history_list).iop_list.chain ∧
      m ∉ iop_list.chain ∧
      ((_create_deleted_modules heap undo iop_list history_list).heap.mem m).op = e.op_name ∧
      ((_create_deleted_modules heap undo iop_list history_list).heap.mem m).multi_priority =
        e.multi_priority ∧
      ((_create_deleted_modules heap undo iop_list history_list).heap.mem m).multi_name =
        expected_name false (history_list.find? fun x => x.module.isNone) e := by
  rw [create_eq]
  have hlen : history_list.length ≤ 0 + history_list.length := Nat.le_of_eq (Nat.zero_add _).symm
  obtain ⟨F1, -, ⟨-, F3⟩, F4, -⟩ := create_loop_frame history_list.length 0 0
    { iop_list := iop_list, caller := iop_list, history_list := history_list, heap := heap,
      undo := undo, done := false } hlen
  obtain ⟨m, h1, h2, h3, -, h5, h6, h7⟩ := create_loop_resolves history_list.length 0 0
    { iop_list := iop_list, caller := iop_list, history_list := history_list, heap := heap,
      undo := undo, done := false } hlen ⟨rfl, hvalid, hload, hbase⟩ k e (Nat.zero_le _) hk hnull
  refine ⟨?_, ?_, m, h1, h2, ?_, h5, h6, ?_⟩
  · rcases F1 with hx | hx
    · exfalso
      rw [hx] at h1
      have h1b : history_list.get? k = some { e with module := some m } := h1
      rw [hk] at h1b
      have := congrArg dt_dev_history_item_t.module (Option.some.inj h1b)
      rw [hnull] at this
      cases this
    · exact hx
  · intro x hx
    exact ⟨F4 rfl x hx, F3 x (hvalid x hx)⟩
  · intro hm
    have h3b : heap.next ≤ m := h3
    have h4b : m < heap.next := hvalid m hm
    exact absurd h4b (Nat.not_lt.2 h3b)
  · rw [h7]
    rfl

/-- Witness for claim C5: the scenario of the spec, the entry (op C, priority 5,
NULL module) with the base instance of C in the registry. -/
theorem create_deleted_modules_resurrects_witness :
    ([example_item none "C" 5 "" 9].get? 0 = some (example_item none "C" 5 "" 9) ∧
      (example_item none "C" 5 "" 9).module = none ∧
      (∀ m ∈ [0], m < example_heap_base.next) ∧
      (∀ m ∈ [0], (example_heap_base.mem m).load_fails = false) ∧
      (∀ x ∈ [example_item none "C" 5 "" 9], x.module = none →
        ∃ m ∈ [0], (example_heap_base.mem m).op = x.op_name)) ∧
    ((_create_deleted_modules example_heap_base [] ⟨[0], 0⟩
        [example_item none "C" 5 "" 9]).changed = 1 ∧
    (∀ m ∈ [0],
      m ∈ (_create_deleted_modules example_heap_base [] ⟨[0], 0⟩
        [example_item none "C" 5 "" 9]).iop_list.chain ∧
      (_create_deleted_modules example_heap_base [] ⟨[0], 0⟩
        [example_item none "C" 5 "" 9]).heap.mem m = example_heap_base.mem m) ∧
    ∃ m : Nat,
      (_create_deleted_modules example_heap_base [] ⟨[0], 0⟩
          [example_item none "C" 5 "" 9]).history_list.get? 0 =
        some { example_item none "C" 5 "" 9 with module := some m } ∧
      m ∈ (_create_deleted_modules example_heap_base [] ⟨[0], 0⟩
          [example_item none "C" 5 "" 9]).iop_list.chain ∧
      m ∉ [0] ∧
      ((_create_deleted_modules example_heap_base [] ⟨[0], 0⟩
          [example_item none "C" 5 "" 9]).heap.mem m).op = (example_item none "C" 5 "" 9).op_name ∧
      ((_create_deleted_modules example_heap_base [] ⟨[0], 0⟩
          [example_item none "C" 5 "" 9]).heap.mem m).multi_priority =
        (example_item none "C" 5 "" 9).multi_priority ∧
      ((_create_deleted_modules example_heap_base [] ⟨[0], 0⟩
          [example_item none "C" 5 "" 9]).heap.mem m).multi_name =
        expected_name false ([example_item none "C" 5 "" 9].find? fun x => x.module.isNone)
          (example_item none "C" 5 "" 9)) :=
  ⟨⟨rfl, rfl, by decide, by decide, by decide⟩,
    create_deleted_modules_resurrects example_heap_base [] ⟨[0], 0⟩
      [example_item none "C" 5 "" 9] 0 (example_item none "C" 5 "" 9) rfl rfl
      (by decide) (by decide) (by decide)⟩

/-- Claim C6, counterexample: a stored record holds the NULL entry (C, 5) in its
before snapshot and in its after snapshot.  After the resurrection of (C, 5)
the entry of the after snapshot references the new instance and the entry of
the before snapshot is still NULL. -/
theorem propagation_skips_before_snapshot :
    (_create_deleted_modules example_heap_base [example_record_null] ⟨[0], 0⟩
        [example_item none "C" 5 "" 9]).history_list = [example_item (some 1) "C" 5 "" 9] ∧
    (_create_deleted_modules example_heap_base [example_record_null] ⟨[0], 0⟩
        [example_item none "C" 5 "" 9]).undo =
      [{ example_record_null with after_snapshot := [example_item (some 1) "C" 5 "" 9] }] ∧
    ((_create_deleted_modules example_heap_base [example_record_null] ⟨[0], 0⟩
        [example_item none "C" 5 "" 9]).undo.map fun r => r.before_snapshot.map fun e => e.module)
      = [[none]] :=
  ⟨by decide, by decide, by decide⟩

/-- Claim C6, amended: when the first NULL entry `f` of the target history can be
resurrected (its operation has an instance in the registry and loading
succeeds), `_create_deleted_modules` creates the instance at the next free
address, and afterwards every entry of the target history that had a NULL
module and the operation and priority of `f` references it, every entry of the
target history that had a module keeps it, and in every record of the undo
stack the entries of the after snapshot that had a NULL module and the
operation and priority of `f` reference it, while every other entry of the
after snapshot and the whole before snapshot are unchanged. -/
theorem create_deleted_modules_propagates (heap : Heap) (undo : List dt_undo_history_t)
    (iop_list : GList) (history_list : List dt_dev_history_item_t) (i : Nat)
    (f : dt_dev_history_item_t) (hi : history_list.get? i = some f) (hnull : f.module = none)
    (hfirst : ∀ j x, j < i → history_list.get? j = some x → x.module ≠ none)
    (hbase : ∃ m ∈ iop_list.chain, (heap.mem m).op = f.op_name)
    (hload : ∀ m ∈ iop_list.chain, (heap.mem m).op = f.op_name →
      (heap.mem m).load_fails = false) :
    (∀ k e, history_list.get? k = some e → e.module = none → e.op_name = f.op_name →
      e.multi_priority = f.multi_priority →
      (_create_deleted_modules heap undo iop_list history_list).history_list.get? k =
        some { e with module := some heap.next }) ∧
    (∀ k e, history_list.get? k = some e → e.module ≠ none →
      (_create_deleted_modules heap undo iop_list history_list).history_list.get? k = some e) ∧
    (_create_deleted_modules heap undo iop_list history_list).undo =
      undo.map (fun r =>
        { r with
          after_snapshot := r.after_snapshot.map fun e =>
            if e.module = none ∧ e.op_name = f.op_name ∧ e.multi_priority = f.multi_priority
            then { e with module := some heap.next } else e }) ∧
    heap.next ∈ (_create_deleted_modules heap undo iop_list history_list).iop_list.chain := by
  rw [create_eq]
  have hlen : history_list.length ≤ 0 + history_list.length := Nat.le_of_eq (Nat.zero_add _).symm
  obtain ⟨st1, hok⟩ := resurrect_succeeds i f
    { iop_list := iop_list, caller := iop_list, history_list := history_list, heap := heap,
      undo := undo, done := false } hbase hload
  obtain ⟨-, F2, -, F4, -⟩ := create_loop_frame history_list.length 0 0
    { iop_list := iop_list, caller := iop_list, history_list := history_list, heap := heap,
      undo := undo, done := false } hlen
  obtain ⟨hu, hh⟩ := create_loop_propagates history_list.length 0 0
    { iop_list := iop_list, caller := iop_list, history_list := history_list, heap := heap,
      undo := undo, done := false } hlen rfl i f (Nat.zero_le _) hi hnull
    (fun j x _ hj hx => hfirst j x hj hx) st1 hok
  obtain ⟨-, -, -, hop, -, -, -, -, hchain, hcaller, -, -, hundo⟩ := resurrect_ok i f _ st1 hok
  refine ⟨hh, F2, ?_, ?_⟩
  · rw [hu, hundo]
    simp only [Bool.false_eq_true, if_false]
    unfold dt_undo_iterate_internal _undo_items_cb _reset_module_instance
    simp only
    rw [hop]
  · have hx := create_loop_induct (fun l _ st r =>
        st.caller.chain = st.iop_list.chain → ∀ i f st1, l ≤ i →
          (∀ j x, l ≤ j → j < i → st.history_list.get? j = some x → x.module ≠ none) →
          st.history_list.get? i = some f → f.module = none →
          _create_deleted_modules_resurrect i f st = .ok st1 →
          st.heap.next ∈ r.iop_list.chain) ?_ ?_ ?_ ?_ history_list.length 0 0
        { iop_list := iop_list, caller := iop_list, history_list := history_list, heap := heap,
          undo := undo, done := false } hlen rfl i f st1 (Nat.zero_le _)
        (fun j x _ hj hx => hfirst j x hj hx) hi hnull hok
    · exact hx
    · intro l c st hnone _ i f st1 hli _ hi _ _
      exfalso
      have h1 : st.history_list.length ≤ l := List.get?_eq_none.1 hnone
      have h2 : st.history_list.get? i = none := List.get?_eq_none.2 (by omega)
      rw [h2] at hi
      cases hi
    · intro fuel l c st hitem hg hnn _ ih hc i f st1 hli hfst hi hnl hok
      have hne : l ≠ i := by
        rintro rfl
        rw [hg] at hi
        cases hi
        exact hnn hnl
      exact ih hc i f st1 (by omega) (fun j x hj1 hj2 => hfst j x (by omega) hj2) hi hnl hok
    · intro l c st hitem r hg hnl0 herr hc i f st1 hli hfst hi hnl hok
      exfalso
      by_cases hil : l = i
      · subst hil
        rw [hg] at hi
        cases hi
        rw [hok] at herr
        cases herr
      · exact hfst l hitem (le_refl _) (by omega) hg hnl0
    · intro fuel l c st hitem st2 hg hnl0 hok2 hl1 _ hc i f st1 hli hfst hi hnl hok
      have hil : l = i := by
        by_contra hne
        exact hfst l hitem (le_refl _) (by omega) hg hnl0
      subst hil
      rw [hg] at hi
      cases hi
      rw [hok] at hok2
      cases hok2
      obtain ⟨-, -, -, -, -, -, -, -, hch, hcl, -, -, -⟩ := resurrect_ok l hitem st st2 hok
      exact (create_loop_frame fuel (l + 1) 1 st2 hl1).2.2.2.1 hcl _ ((hch _).2 (Or.inl rfl))

/-- Witness for claim C6: the NULL entry (C, 5) with the base instance of C in
the registry and a stored record on the stack. -/
theorem create_deleted_modules_propagates_witness :
    ([example_item none "C" 5 "" 9].get? 0 = some (example_item none "C" 5 "" 9) ∧
      (example_item none "C" 5 "" 9).module = none ∧
      (∀ j x, j < 0 → [example_item none "C" 5 "" 9].get? j = some x → x.module ≠ none) ∧
      (∃ m ∈ [0], (example_heap_base.mem m).op = (example_item none "C" 5 "" 9).op_name) ∧
      (∀ m ∈ [0], (example_heap_base.mem m).op = (example_item none "C" 5 "" 9).op_name →
        (example_heap_base.mem m).load_fails = false)) ∧
    (_create_deleted_modules example_heap_base [example_record_null] ⟨[0], 0⟩
        [example_item none "C" 5 "" 9]).undo =
      [example_record_null].map (fun r =>
        { r with
          after_snapshot := r.after_snapshot.map fun e =>
            if e.module = none ∧ e.op_name = (example_item none "C" 5 "" 9).op_name ∧
              e.multi_priority = (example_item none "C" 5 "" 9).multi_priority
            then { e with module := some example_heap_base.next } else e }) :=
  ⟨⟨rfl, rfl, fun j _ hj => absurd hj (Nat.not_lt_zero j), by decide, by decide⟩,
    (create_deleted_modules_propagates example_heap_base [example_record_null] ⟨[0], 0⟩
      [example_item none "C" 5 "" 9] 0 (example_item none "C" 5 "" 9) rfl rfl
      (fun j _ hj => absurd hj (Nat.not_lt_zero j)) (by decide) (by decide)).2.2.1⟩

/-- Claim C7, the violation: the target history holds the NULL entries (X, 1),
(Y, 1), (Y, 1) and the registry the base instances of X and Y.  One run of
`_create_deleted_modules` creates three instances, two of them with operation Y
and priority 1: the propagation is done for the first resurrection only. -/
theorem create_deleted_modules_duplicates :
    ((_create_deleted_modules example_heap_xy [] ⟨[0, 1], 0⟩
        [example_item none "X" 1 "" 9, example_item none "Y" 1 "" 19,
          example_item none "Y" 1 "" 19]).history_list.map fun e => e.module) =
      [some 2, some 3, some 4] ∧
    ((_create_deleted_modules example_heap_xy [] ⟨[0, 1], 0⟩
        [example_item none "X" 1 "" 9, example_item none "Y" 1 "" 19,
          example_item none "Y" 1 "" 19]).iop_list.chain.map fun m =>
      (m, ((_create_deleted_modules example_heap_xy [] ⟨[0, 1], 0⟩
        [example_item none "X" 1 "" 9, example_item none "Y" 1 "" 19,
          example_item none "Y" 1 "" 19]).heap.mem m).op,
        ((_create_deleted_modules example_heap_xy [] ⟨[0, 1], 0⟩
        [example_item none "X" 1 "" 9, example_item none "Y" 1 "" 19,
          example_item none "Y" 1 "" 19]).heap.mem m).multi_priority)) =
      [(2, "X", 1), (0, "X", 0), (4, "Y", 1), (3, "Y", 1), (1, "Y", 0)] :=
  ⟨by decide, by decide⟩

/-- Claim C12, the violation: the stored record references the instance at
address 1 in its before snapshot and in its after snapshot.  After the
module-removed signal for that instance the after snapshot holds NULL
references and the before snapshot still references the instance; the same
holds when `_check_deleted_instances` removes the instance because the target
history does not reference it. -/
theorem before_snapshot_keeps_removed_module :
    ((_lib_history_module_remove_callback example_state_live 1).undo.map fun r =>
        (r.before_snapshot.map fun e => e.module, r.after_snapshot.map fun e => e.module)) =
      [([some 1], [none, none])] ∧
    (_check_deleted_instances example_heap_two [example_record_live]
        (example_develop [] 0 [1, 0]) ⟨[1, 0], 0⟩
        [example_item (some 0) "X" 0 "" 10]).alliop = [1] ∧
    ((_check_deleted_instances example_heap_two [example_record_live]
        (example_develop [] 0 [1, 0]) ⟨[1, 0], 0⟩
        [example_item (some 0) "X" 0 "" 10]).undo.map fun r =>
        (r.before_snapshot.map fun e => e.module, r.after_snapshot.map fun e => e.module)) =
      [([some 1], [none, none])] :=
  ⟨by decide, by decide, by decide⟩

/-- Claim C14, counterexample: the first NULL entry names operation Z, which has
no instance in the registry, the second NULL entry is (C, 5) and the registry
holds the base instance of C.  `_create_deleted_modules` returns at the first
entry: the history list is as it was, the second entry is still NULL, and no
  instance has been created. -/
theorem failure_aborts_the_pass :
    (_create_deleted_modules example_heap_base [] ⟨[0], 0⟩
        [example_item none "Z" 1 "" 5, example_item none "C" 5 "" 9]).history_list =
      [example_item none "Z" 1 "" 5, example_item none "C" 5 "" 9] ∧
    (_create_deleted_modules example_heap_base [] ⟨[0], 0⟩
        [example_item none "Z" 1 "" 5, example_item none "C" 5 "" 9]).iop_list = ⟨[0], 0⟩ ∧
    (_create_deleted_modules example_heap_base [] ⟨[0], 0⟩
        [example_item none "Z" 1 "" 5, example_item none "C" 5 "" 9]).heap.next =
      example_heap_base.next :=
  ⟨by decide, by decide, by decide⟩

/-- Claim C14, amended: a resurrection failure aborts the whole pass.  When a
NULL-module entry `e1` of the target history names an operation with no
  instance in the registry, `_create_deleted_modules` reports changed, `e1` stays
NULL, and a later NULL-module entry `e2` stays NULL as well, whether or not its
operation has an instance, unless it has the operation and priority of the
first NULL entry of the history, in which case it may reference the instance
created for that entry (the propagation of the first resurrection). -/
theorem create_deleted_modules_aborts (heap : Heap) (undo : List dt_undo_history_t)
    (iop_list : GList) (history_list : List dt_dev_history_item_t) (i : Nat)
    (e1 : dt_dev_history_item_t) (hi : history_list.get? i = some e1)
    (hnull : e1.module = none)
    (hnb : ∀ m ∈ iop_list.chain, (heap.mem m).op ≠ e1.op_name) :
    (_create_deleted_modules heap undo iop_list history_list).changed = 1 ∧
    (_create_deleted_modules heap undo iop_list history_list).history_list.get? i = some e1 ∧
    ∀ k e2, i < k → history_list.get? k = some e2 → e2.module = none →
      (_create_deleted_modules heap undo iop_list history_list).history_list.get? k = some e2 ∨
      ∃ f, (history_list.find? fun x => x.module.isNone) = some f ∧
        e2.op_name = f.op_name ∧ e2.multi_priority = f.multi_priority ∧
        (_create_deleted_modules heap undo iop_list history_list).history_list.get? k =
          some { e2 with module := some heap.next } := by
  rw [create_eq]
  have hlen : history_list.length ≤ 0 + history_list.length := Nat.le_of_eq (Nat.zero_add _).symm
  have key := create_loop_aborts i e1 history_list.length 0 0
    { iop_list := iop_list, caller := iop_list, history_list := history_list, heap := heap,
      undo := undo, done := false } hlen (Nat.zero_le _) hi hnull hnb
  refine ⟨?_, ?_, ?_⟩
  · exact (create_loop_changed history_list.length 0 0
      { iop_list := iop_list, caller := iop_list, history_list := history_list, heap := heap,
        undo := undo, done := false } hlen).1 ⟨i, e1, Nat.zero_le _, hi, hnull⟩
  · rcases key i e1 (le_refl _) hi with h | ⟨-, -, f, -, ⟨m, hm, hmop⟩, hop, -, -⟩
    · exact h
    · exact absurd (hmop.trans hop.symm) (hnb m hm)
  · intro k e2 hik hk _
    rcases key k e2 (Nat.le_of_lt hik) hk with h | ⟨-, -, f, hf, -, hop, hprio, h⟩
    · exact Or.inl h
    · exact Or.inr ⟨f, hf, hop, hprio, h⟩

/-- Witness for claim C14: the NULL entry of operation Z followed by the NULL
entry (C, 5), with the base instance of C in the registry. -/
theorem create_deleted_modules_aborts_witness :
    ([example_item none "Z" 1 "" 5, example_item none "C" 5 "" 9].get? 0 =
        some (example_item none "Z" 1 "" 5) ∧
      (example_item none "Z" 1 "" 5).module = none ∧
      (∀ m ∈ [0], (example_heap_base.mem m).op ≠ (example_item none "Z" 1 "" 5).op_name)) ∧
    (_create_deleted_modules example_heap_base [] ⟨[0], 0⟩
        [example_item none "Z" 1 "" 5, example_item none "C" 5 "" 9]).changed = 1 :=
  ⟨⟨rfl, rfl, by decide⟩,
    (create_deleted_modules_aborts example_heap_base [] ⟨[0], 0⟩
      [example_item none "Z" 1 "" 5, example_item none "C" 5 "" 9] 0
      (example_item none "Z" 1 "" 5) rfl rfl (by decide)).1⟩

/-- Claim C15, counterexample: a run in which the only NULL entry names an
operation without an instance in the registry, and a run in which the only
NULL entry is resurrected, both return 1. -/
theorem failure_returns_like_success :
    (_create_deleted_modules example_heap_base [] ⟨[0], 0⟩
        [example_item none "Z" 1 "" 5]).changed = 1 ∧
    ((_create_deleted_modules example_heap_base [] ⟨[0], 0⟩
        [example_item none "Z" 1 "" 5]).history_list.map fun e => e.module) = [none] ∧
    (_create_deleted_modules example_heap_base [] ⟨[0], 0⟩
        [example_item none "C" 5 "" 9]).changed = 1 ∧
    ((_create_deleted_modules example_heap_base [] ⟨[0], 0⟩
        [example_item none "C" 5 "" 9]).history_list.map fun e => e.module) = [some 1] :=
  ⟨by decide, by decide, by decide, by decide⟩

/-- Claim C15, amended: a resurrection failure is not surfaced through the
return value.  `_create_deleted_modules` returns 1 exactly when the target
history holds an entry with a NULL module and 0 exactly when it holds none,
whether every such entry is resurrected or the pass stops at one that has no
base instance; the failure is only written to the log. -/
theorem create_deleted_modules_return_value (heap : Heap) (undo : List dt_undo_history_t)
    (iop_list : GList) (history_list : List dt_dev_history_item_t) :
    ((_create_deleted_modules heap undo iop_list history_list).changed = 1 ↔
      ∃ e ∈ history_list, e.module = none) ∧
    ((_create_deleted_modules heap undo iop_list history_list).changed = 0 ↔
      ∀ e ∈ history_list, e.module ≠ none) := by
  rw [create_eq]
  have hlen : history_list.length ≤ 0 + history_list.length := Nat.le_of_eq (Nat.zero_add _).symm
  obtain ⟨h1, h2⟩ := create_loop_changed history_list.length 0 0
    { iop_list := iop_list, caller := iop_list, history_list := history_list, heap := heap,
      undo := undo, done := false } hlen
  have hex : (∃ e ∈ history_list, e.module = none) →
      ∃ k e, 0 ≤ k ∧ history_list.get? k = some e ∧ e.module = none := by
    rintro ⟨e, he, hn⟩
    obtain ⟨k, hk⟩ := List.mem_iff_getElem?.1 he
    exact ⟨k, e, Nat.zero_le _, by rw [List.get?_eq_getElem?]; exact hk, hn⟩
  have hall : (∀ e ∈ history_list, e.module ≠ none) →
      ∀ k e, 0 ≤ k → history_list.get? k = some e → e.module ≠ none :=
    fun h k e _ hk => h e (get?_mem_hist hk)
  by_cases hn : ∃ e ∈ history_list, e.module = none
  · have hc := h1 (hex hn)
    refine ⟨⟨fun _ => hn, fun _ => hc⟩, ⟨fun h0 => ?_, fun hall2 => ?_⟩⟩
    · rw [hc] at h0; exact absurd h0 (by decide)
    · obtain ⟨e, he, hne⟩ := hn
      exact absurd hne (hall2 e he)
  · have hall2 : ∀ e ∈ history_list, e.module ≠ none := fun e he h => hn ⟨e, he, h⟩
    have hc := h2 (hall hall2)
    refine ⟨⟨fun h1c => ?_, fun h => absurd h hn⟩, ⟨fun _ => hall2, fun _ => hc⟩⟩
    rw [hc] at h1c
    exact absurd h1c (by decide)

/-- Claim C16, the failing input: a resurrection that fails part-way.  The
registry holds the base instances of X (address 0, order 10) and Y (address 1,
order 20); the snapshot undone has a NULL entry for X with priority 1 and order
5, then a NULL entry for an operation Z that has no instance.  The first entry
is resolved: `_create_deleted_modules` creates the instance at address 2 and
links it in before the instance 0.  The second entry makes it return early,
without `*_iop_list = iop_list`: the caller keeps its pointer to the node of the
  instance 0, and that is the registry `_pop_undo` commits.  Read from
`dev->iop` the committed registry is `[0, 1]`; the committed history references
the instance 2, which is not in it. -/
theorem partial_failure_loses_created_instance :
    (_create_deleted_modules example_heap_xy [] ⟨[0, 1], 0⟩
      (dt_history_duplicate (target_snapshot example_record_partial DT_ACTION_UNDO))).iop_list
      = ⟨[2, 0, 1], 1⟩ ∧
    (_pop_undo example_state_partial DT_UNDO_HISTORY example_record_partial
      DT_ACTION_UNDO).develop.iop = ⟨[2, 0, 1], 1⟩ ∧
    ((_pop_undo example_state_partial DT_UNDO_HISTORY example_record_partial
      DT_ACTION_UNDO).develop.iop.chain.drop
        (_pop_undo example_state_partial DT_UNDO_HISTORY example_record_partial
          DT_ACTION_UNDO).develop.iop.pos) = [0, 1] ∧
    ((_pop_undo example_state_partial DT_UNDO_HISTORY example_record_partial
      DT_ACTION_UNDO).develop.history.map fun e => e.module) = [some 2, none] ∧
    (2 : ModPtr) ∉ (_pop_undo example_state_partial DT_UNDO_HISTORY example_record_partial
      DT_ACTION_UNDO).develop.iop.chain.drop
        (_pop_undo example_state_partial DT_UNDO_HISTORY example_record_partial
          DT_ACTION_UNDO).develop.iop.pos ∧
    (_pop_undo example_state_partial DT_UNDO_HISTORY example_record_partial
      DT_ACTION_UNDO).develop.alliop = [] ∧
    (((_pop_undo example_state_partial DT_UNDO_HISTORY example_record_partial
      DT_ACTION_UNDO).heap.mem 2).op,
     ((_pop_undo example_state_partial DT_UNDO_HISTORY example_record_partial
      DT_ACTION_UNDO).heap.mem 2).multi_priority) = ("X", 1) :=
  ⟨by decide, by decide, by decide, by decide, by decide, by decide, by decide⟩

/-- A second failing input for claim C16, which comes from the defect of claim
C12: the undo of the deletion of an instance.  The
before snapshot of the record references the deleted instance (address 1),
which is in the retained pool and not in the registry; after the pop the
committed history references it and the committed registry holds the base
  instance only, whether or not the stack detaches the record during the pop. -/
theorem undo_of_deletion_leaves_dangling_reference :
    ((run example_state_two (example_delete_two ++ [.pop 0 DT_ACTION_UNDO false])).develop.history.map
      fun e => e.module) = [some 0, some 1] ∧
    (run example_state_two (example_delete_two ++ [.pop 0 DT_ACTION_UNDO false])).develop.iop =
      ⟨[0], 0⟩ ∧
    ((run example_state_two (example_delete_two ++ [.pop 0 DT_ACTION_UNDO true])).develop.history.map
      fun e => e.module) = [some 0, some 1] ∧
    (run example_state_two (example_delete_two ++ [.pop 0 DT_ACTION_UNDO true])).develop.iop =
      ⟨[0], 0⟩ :=
  ⟨by decide, by decide, by decide, by decide⟩

/-- The structural validity that does hold after the three steps: when the
target snapshot of an undo record references
instances of the live registry only (apart from NULL references), every NULL
entry names an operation that has an instance in the registry and no instance
fails to load, then after the three reconciliation steps of `_pop_undo` every
entry of the committed history has a module reference, that module is a member
of the committed registry, and no entry of the committed history references an
  instance that step 3 moved to the retained pool. -/
theorem pop_undo_references_registry (dt : darktable_t) (hist : dt_undo_history_t)
    (action : dt_undo_action_t) (hpos : dt.develop.iop.pos = 0)
    (hlive : ∀ e ∈ target_snapshot hist action, ∀ m, e.module = some m →
      m ∈ dt.develop.iop.chain)
    (hvalid : ∀ m ∈ dt.develop.iop.chain, m < dt.heap.next)
    (hload : ∀ m ∈ dt.develop.iop.chain, (dt.heap.mem m).load_fails = false)
    (hbase : ∀ e ∈ target_snapshot hist action, e.module = none →
      ∃ m ∈ dt.develop.iop.chain, (dt.heap.mem m).op = e.op_name) :
    (∀ e ∈ (_pop_undo dt DT_UNDO_HISTORY hist action).develop.history,
      ∃ m, e.module = some m ∧
        m ∈ (_pop_undo dt DT_UNDO_HISTORY hist action).develop.iop.chain) ∧
    ∃ removed : List ModPtr,
      (_pop_undo dt DT_UNDO_HISTORY hist action).develop.alliop =
        dt.develop.alliop ++ removed ∧
      ∀ d ∈ removed,
        ¬ referenced (_pop_undo dt DT_UNDO_HISTORY hist action).develop.history d := by
  rw [pop_undo_eq]
  exact reconcile_references_registry dt (target_snapshot hist action) hpos hlive hvalid hload
    hbase

/-- An instance of the preceding theorem: the redo of the resurrection scenario, the target
snapshot holding the NULL entry (C, 5) and the registry the base instance of C. -/
theorem pop_undo_references_registry_witness :
    ((example_develop [] 0 [0]).iop.pos = 0 ∧
      (∀ e ∈ target_snapshot example_record_null DT_ACTION_REDO, ∀ m, e.module = some m →
        m ∈ (example_develop [] 0 [0]).iop.chain) ∧
      (∀ m ∈ (example_develop [] 0 [0]).iop.chain, m < example_heap_base.next) ∧
      (∀ m ∈ (example_develop [] 0 [0]).iop.chain,
        (example_heap_base.mem m).load_fails = false) ∧
      (∀ e ∈ target_snapshot example_record_null DT_ACTION_REDO, e.module = none →
        ∃ m ∈ (example_develop [] 0 [0]).iop.chain,
          (example_heap_base.mem m).op = e.op_name)) ∧
    ∀ e ∈ (_pop_undo
        { develop := example_develop [] 0 [0], undo := [], heap := example_heap_base,
          lib := default } DT_UNDO_HISTORY example_record_null DT_ACTION_REDO).develop.history,
      ∃ m, e.module = some m ∧
        m ∈ (_pop_undo
          { develop := example_develop [] 0 [0], undo := [], heap := example_heap_base,
            lib := default } DT_UNDO_HISTORY example_record_null
          DT_ACTION_REDO).develop.iop.chain :=
  ⟨⟨rfl, by decide, by decide, by decide, by decide⟩,
    (pop_undo_references_registry
      { develop := example_develop [] 0 [0], undo := [], heap := example_heap_base,
        lib := default } example_record_null DT_ACTION_REDO rfl (by decide) (by decide)
      (by decide) (by decide)).1⟩

/-- Claim C17: with recording armed, handling the changed signal pushes exactly
one record on the undo stack; its before snapshot, before cursor and before
order list are the stored previous snapshot, `previous_history_end` and
previous order list, its after snapshot, after cursor and after order list are
the live history, `history_end` and `iop_order_list`; the panel data, with
recording armed, and the live pipeline are left as they were. -/
theorem change_callback_records (dt : darktable_t) (harmed : dt.lib.record_undo = true) :
    (_lib_history_change_callback dt).undo =
      { before_snapshot := dt.lib.previous_snapshot
        before_end := dt.lib.previous_history_end
        before_iop_order_list := dt.lib.previous_iop_order_list
        after_snapshot := dt.develop.history
        after_end := dt.develop.history_end
        after_iop_order_list := dt.develop.iop_order_list } :: dt.undo ∧
    (_lib_history_change_callback dt).lib.record_undo = true ∧
    (_lib_history_change_callback dt).lib = dt.lib ∧
    (_lib_history_change_callback dt).develop = dt.develop := by
  unfold _lib_history_change_callback
  simp [harmed, dt_undo_record, dt_history_duplicate_eq, dt_ioppr_iop_order_copy_deep_eq]

/-- Witness for claim C17: the example state has recording armed. -/
theorem change_callback_records_witness :
    example_state_two.lib.record_undo = true ∧
    (_lib_history_change_callback example_state_two).undo =
      { before_snapshot := example_state_two.lib.previous_snapshot
        before_end := example_state_two.lib.previous_history_end
        before_iop_order_list := example_state_two.lib.previous_iop_order_list
        after_snapshot := example_state_two.develop.history
        after_end := example_state_two.develop.history_end
        after_iop_order_list := example_state_two.develop.iop_order_list } ::
        example_state_two.undo :=
  ⟨rfl, (change_callback_records example_state_two rfl).1⟩

/-- Claim C18: `_pop_undo` leaves recording disarmed, and the changed signal
that follows it pushes no record and re-arms recording; more generally the
changed signal handled with recording disarmed leaves the undo stack as it is
and sets `record_undo` to TRUE. -/
theorem pop_undo_is_not_recorded (dt : darktable_t) (hist : dt_undo_history_t)
    (action : dt_undo_action_t) :
    (_pop_undo dt DT_UNDO_HISTORY hist action).lib.record_undo = false ∧
    (_lib_history_change_callback (_pop_undo dt DT_UNDO_HISTORY hist action)).undo =
      (_pop_undo dt DT_UNDO_HISTORY hist action).undo ∧
    (_lib_history_change_callback
      (_pop_undo dt DT_UNDO_HISTORY hist action)).lib.record_undo = true ∧
    (∀ s : darktable_t, s.lib.record_undo = false →
      (_lib_history_change_callback s).undo = s.undo ∧
      (_lib_history_change_callback s).lib.record_undo = true) := by
  have gen : ∀ s : darktable_t, s.lib.record_undo = false →
      (_lib_history_change_callback s).undo = s.undo ∧
      (_lib_history_change_callback s).lib.record_undo = true := by
    intro s hs
    unfold _lib_history_change_callback
    simp [hs]
  have hoff : (_pop_undo dt DT_UNDO_HISTORY hist action).lib.record_undo = false := by
    rw [pop_undo_eq]
  exact ⟨hoff, (gen _ hoff).1, (gen _ hoff).2, gen⟩

/-- Claim C19: handling the will-change signal with recording armed sets the
stored previous snapshot, previous cursor and previous order list to the values
the signal carries, and with recording disarmed leaves the whole state, these
three included, as it is; in both cases the recording flag, the undo stack and
the live pipeline are untouched. -/
theorem will_change_callback_stores (dt : darktable_t)
    (history : List dt_dev_history_item_t) (history_end : Int)
    (iop_order_list : List dt_iop_order_entry_t) :
    (dt.lib.record_undo = true →
      (_lib_history_will_change_callback dt history history_end iop_order_list).lib =
        { record_undo := true, previous_snapshot := history,
          previous_history_end := history_end, previous_iop_order_list := iop_order_list }) ∧
    (dt.lib.record_undo = false →
      (_lib_history_will_change_callback dt history history_end iop_order_list).lib = dt.lib) ∧
    (_lib_history_will_change_callback dt history history_end iop_order_list).undo = dt.undo ∧
    (_lib_history_will_change_callback dt history history_end iop_order_list).develop =
      dt.develop ∧
    (_lib_history_will_change_callback dt history history_end iop_order_list).lib.record_undo =
      dt.lib.record_undo := by
  unfold _lib_history_will_change_callback
  cases h : dt.lib.record_undo <;> simp [h]

/-- Claim C20, counterexample: two will-change signals reach the panel before
the changed signal, the first with the one-entry history of operation A, the
second with the one-entry history of operation B; recording is still armed
after the first, and the record pushed has the second history as before side. -/
theorem second_will_change_replaces :
    (run example_state_two [.will_change [example_item none "A" 0 "" 1] 1 []]).lib.record_undo
      = true ∧
    ((run example_state_two
        [.will_change [example_item none "A" 0 "" 1] 1 [],
          .will_change [example_item none "B" 0 "" 1] 1 [],
          .changed]).undo.map fun r => r.before_snapshot) =
      [[example_item none "B" 0 "" 1]] :=
  ⟨by decide, by decide⟩

/-- Claim C20, amended: handling the will-change signal does not disarm
recording.  With recording armed, a second will-change signal that arrives
before the changed signal replaces the stored previous snapshot, cursor and
order list, and the record pushed at the changed signal has as its before side
what the last will-change signal carried. -/
theorem last_will_change_is_recorded (dt : darktable_t) (harmed : dt.lib.record_undo = true)
    (history1 history2 : List dt_dev_history_item_t) (end1 end2 : Int)
    (order1 order2 : List dt_iop_order_entry_t) :
    (run dt [.will_change history1 end1 order1]).lib.record_undo = true ∧
    (run dt [.will_change history1 end1 order1, .will_change history2 end2 order2,
        .changed]).undo =
      { before_snapshot := history2
        before_end := end2
        before_iop_order_list := order2
        after_snapshot := dt.develop.history
        after_end := dt.develop.history_end
        after_iop_order_list := dt.develop.iop_order_list } :: dt.undo := by
  have h1 : run dt [.will_change history1 end1 order1] =
      { dt with lib := { dt.lib with previous_snapshot := history1
                                     previous_history_end := end1
                                     previous_iop_order_list := order1 } } := by
    show _lib_history_will_change_callback dt history1 end1 order1 = _
    unfold _lib_history_will_change_callback
    simp [harmed]
  have h2 : run dt [.will_change history1 end1 order1, .will_change history2 end2 order2] =
      { dt with lib := { dt.lib with previous_snapshot := history2
                                     previous_history_end := end2
                                     previous_iop_order_list := order2 } } := by
    show _lib_history_will_change_callback (run dt [.will_change history1 end1 order1])
      history2 end2 order2 = _
    rw [h1]
    unfold _lib_history_will_change_callback
    simp [harmed]
  refine ⟨by rw [h1]; exact harmed, ?_⟩
  show (_lib_history_change_callback
    (run dt [.will_change history1 end1 order1, .will_change history2 end2 order2])).undo = _
  rw [h2]
  unfold _lib_history_change_callback
  simp [harmed, dt_undo_record, dt_history_duplicate_eq, dt_ioppr_iop_order_copy_deep_eq]

/-- Witness for claim C20: the example state has recording armed. -/
theorem last_will_change_is_recorded_witness :
    example_state_two.lib.record_undo = true ∧
    (run example_state_two [.will_change [] 0 []]).lib.record_undo = true :=
  ⟨rfl, (last_will_change_is_recorded example_state_two rfl [] [] 0 0 [] []).1⟩

/-- Claim C26: `_search_history_by_module` returns the first entry of the list,
in list order, whose module reference is the given instance, and NULL exactly
when no entry references the instance.  (The function only reads the list: the
embedding has no list to hand back.) -/
theorem search_history_by_module_first (history_list : List dt_dev_history_item_t)
    (module : ModPtr) :
    (match _search_history_by_module history_list module with
      | some hist_ret =>
        ∃ pre post, history_list = pre ++ hist_ret :: post ∧ hist_ret.module = some module ∧
          ∀ x ∈ pre, x.module ≠ some module
      | none => ∀ x ∈ history_list, x.module ≠ some module) ∧
    (_search_history_by_module history_list module = none ↔
      ¬ ∃ x ∈ history_list, x.module = some module) := by
  induction history_list with
  | nil => simp [_search_history_by_module]
  | cons hist_item history ih =>
    unfold _search_history_by_module
    by_cases hh : hist_item.module = some module
    · rw [if_pos hh]
      refine ⟨⟨[], history, rfl, hh, by simp⟩, ?_⟩
      simp only [reduceCtorEq, false_iff, not_not]
      exact ⟨hist_item, List.mem_cons_self _ _, hh⟩
    · rw [if_neg hh]
      obtain ⟨ih1, ih2⟩ := ih
      refine ⟨?_, ?_⟩
      · cases hs : _search_history_by_module history module with
        | none =>
          rw [hs] at ih1
          intro x hx
          rcases List.mem_cons.1 hx with rfl | hx
          · exact hh
          · exact ih1 x hx
        | some r =>
          rw [hs] at ih1
          obtain ⟨pre, post, h1, h2, h3⟩ := ih1
          refine ⟨hist_item :: pre, post, by rw [h1]; rfl, h2, ?_⟩
          intro x hx
          rcases List.mem_cons.1 hx with rfl | hx
          · exact hh
          · exact h3 x hx
      · rw [ih2]
        simp [hh]

/-- Claim C21, counterexample: after gui_init one WillChange/Changed cycle
stores the one-entry history with cursor 1.  A second Changed then arrives
with recording armed and no WillChange in between: the record it pushes has
that stored history as its before snapshot and 1 as its before cursor. -/
theorem changed_without_will_change_repeats_previous :
    (run example_state_two [.will_change example_history_one 1 [], .changed]).lib.record_undo
      = true ∧
    (run example_state_two [.will_change example_history_one 1 [], .changed, .changed]).undo.length
      = (run example_state_two [.will_change example_history_one 1 [], .changed]).undo.length + 1 ∧
    (run example_state_two [.will_change example_history_one 1 [], .changed, .changed]).undo.map
        (fun r => (r.before_snapshot, r.before_end))
      = [(example_history_one, 1), (example_history_one, 1)] ∧
    example_history_one ≠ [] :=
  ⟨by decide, by decide, by decide, by decide⟩

/-- Claim C21, amended: a Changed that arrives with recording armed after
events among which there is no WillChange pushes a record whose before side is
what the panel data held before those events: the snapshot, cursor and order
list of the last WillChange handled with recording armed, and the empty
snapshot with cursor 0 only when the events follow gui_init directly. -/
theorem changed_without_will_change (dt : darktable_t) (evs : List Event)
    (hno : ∀ ev ∈ evs, is_will_change ev = false)
    (harmed : (run dt evs).lib.record_undo = true) :
    ∃ r : dt_undo_history_t,
      (run dt (evs ++ [.changed])).undo = r :: (run dt evs).undo ∧
      r.before_snapshot = dt.lib.previous_snapshot ∧
      r.before_end = dt.lib.previous_history_end ∧
      r.before_iop_order_list = dt.lib.previous_iop_order_list ∧
      (∀ dt0, dt = gui_init dt0 →
        r.before_snapshot = [] ∧ r.before_end = 0 ∧ r.before_iop_order_list = []) ∧
      (∀ dt1 history history_end iop_order_list, dt1.lib.record_undo = true →
        dt = step dt1 (.will_change history history_end iop_order_list) →
        r.before_snapshot = history ∧ r.before_end = history_end ∧
          r.before_iop_order_list = iop_order_list) := by
  obtain ⟨k1, k2, k3⟩ := run_keeps_previous evs dt hno
  rw [run_append]
  refine ⟨⟨dt_history_duplicate (run dt evs).lib.previous_snapshot,
      dt_history_duplicate (run dt evs).develop.history,
      (run dt evs).lib.previous_history_end, (run dt evs).develop.history_end,
      dt_ioppr_iop_order_copy_deep (run dt evs).lib.previous_iop_order_list,
      dt_ioppr_iop_order_copy_deep (run dt evs).develop.iop_order_list⟩,
    ?_, ?_, ?_, ?_, ?_, ?_⟩
  · show (_lib_history_change_callback (run dt evs)).undo = _
    unfold _lib_history_change_callback
    simp only [harmed, if_true, dt_undo_record]
  · simp only [dt_history_duplicate_eq]; exact k1
  · exact k2
  · simp only [dt_ioppr_iop_order_copy_deep_eq]; exact k3
  · rintro dt0 rfl
    simp only [dt_history_duplicate_eq, dt_ioppr_iop_order_copy_deep_eq]
    exact ⟨k1, k2, k3⟩
  · rintro dt1 history history_end iop_order_list h1 rfl
    simp only [dt_history_duplicate_eq, dt_ioppr_iop_order_copy_deep_eq]
    rw [k1, k2, k3]
    have hstep : step dt1 (.will_change history history_end iop_order_list) =
        _lib_history_will_change_callback dt1 history history_end iop_order_list := rfl
    rw [hstep]
    unfold _lib_history_will_change_callback
    simp [h1]

/-- Witness for claim C21: the first Changed after gui_init, with an edit of
the pipeline before it. -/
theorem changed_without_will_change_witness :
    (∀ ev ∈ [Event.pipeline (example_develop example_history_one 1 [1, 0]) example_heap_two],
      is_will_change ev = false) ∧
    (run example_state_two
      [Event.pipeline (example_develop example_history_one 1 [1, 0]) example_heap_two]
      ).lib.record_undo = true ∧
    ∃ r : dt_undo_history_t,
      (run example_state_two
        ([Event.pipeline (example_develop example_history_one 1 [1, 0]) example_heap_two]
          ++ [.changed])).undo = r :: (run example_state_two
        [Event.pipeline (example_develop example_history_one 1 [1, 0]) example_heap_two]).undo ∧
      r.before_snapshot = example_state_two.lib.previous_snapshot ∧
      r.before_end = example_state_two.lib.previous_history_end ∧
      r.before_iop_order_list = example_state_two.lib.previous_iop_order_list ∧
      (∀ dt0, example_state_two = gui_init dt0 →
        r.before_snapshot = [] ∧ r.before_end = 0 ∧ r.before_iop_order_list = []) ∧
      (∀ dt1 history history_end iop_order_list, dt1.lib.record_undo = true →
        example_state_two = step dt1 (.will_change history history_end iop_order_list) →
        r.before_snapshot = history ∧ r.before_end = history_end ∧
          r.before_iop_order_list = iop_order_list) :=
  ⟨by simp [is_will_change], rfl,
    changed_without_will_change example_state_two
      [Event.pipeline (example_develop example_history_one 1 [1, 0]) example_heap_two]
      (by simp [is_will_change]) rfl⟩

/-- Claim C24, counterexample: two entries reference the instance at address 0
and record the priorities 1 and 2.  After `_rebuild_multi_priority` the
  instance has priority 2, which is not the priority recorded by the first entry. -/
theorem rebuild_multi_priority_conflict :
    (example_history_conflict.map fun e => (e.module, e.multi_priority)) =
      [(some 0, 1), (some 0, 2)] ∧
    (((_rebuild_multi_priority example_heap_base example_history_conflict).1.mem 0).multi_priority
      = 2) ∧
    (_rebuild_multi_priority example_heap_base example_history_conflict).2 = 1 :=
  ⟨by decide, by decide, by decide⟩

/-- Claim C24, amended: after `_rebuild_multi_priority` the live priority of a
referenced instance is the priority recorded by the last entry that references
it, hence the recorded priority of every entry whose later entries for the same
  instance record the same priority.  The function returns 1 exactly when some
entry has a module whose live priority, on entry, differs from the recorded
one, and 0 otherwise; when it returns 0 the heap is unchanged.  It only writes
  instance priorities. -/
theorem rebuild_multi_priority_history_wins (heap : Heap)
    (history_list : List dt_dev_history_item_t) :
    (∀ pre e post m, history_list = pre ++ e :: post → e.module = some m →
      (∀ x ∈ post, x.module = some m → x.multi_priority = e.multi_priority) →
      ((_rebuild_multi_priority heap history_list).1.mem m).multi_priority = e.multi_priority) ∧
    ((_rebuild_multi_priority heap history_list).2 = 1 ↔
      ∃ e ∈ history_list, ∃ m, e.module = some m ∧
        (heap.mem m).multi_priority ≠ e.multi_priority) ∧
    ((_rebuild_multi_priority heap history_list).2 = 0 ∨
      (_rebuild_multi_priority heap history_list).2 = 1) ∧
    ((_rebuild_multi_priority heap history_list).2 = 0 →
      (_rebuild_multi_priority heap history_list).1 = heap) ∧
    (∀ m, { (_rebuild_multi_priority heap history_list).1.mem m with
            multi_priority := (heap.mem m).multi_priority } = heap.mem m) := by
  refine ⟨?_, ?_, ?_, ?_, ?_⟩
  · rintro pre e post m rfl hem hpost
    exact rebuild_loop_last pre e post heap 0 m hem hpost
  · unfold _rebuild_multi_priority
    rw [rebuild_loop_changed]
    split
    · rename_i h; simp only [true_iff]; exact h
    · rename_i h; simp only [zero_ne_one, false_iff]; exact h
  · unfold _rebuild_multi_priority
    rw [rebuild_loop_changed]
    split
    · exact Or.inr rfl
    · exact Or.inl rfl
  · exact rebuild_zero heap history_list
  · exact (rebuild_loop_only_priority history_list heap 0).2

/-- Claim C23: in `_pop_undo` the topology flag is the disjunction of the
results of `_rebuild_multi_priority`, `_create_deleted_modules` and
`_check_deleted_instances`, run in that order, each on the heap, registry,
history and undo stack left by the step before it, and what the last step
leaves is what is committed.  When the flag is set each of the three pipes has
`cache_obsolete = 1` and the bit `DT_DEV_PIPE_REMOVE` set in `changed`, its
other bits unchanged; when it is not set the three pipes are unchanged. -/
theorem pop_undo_topology_flag (dt : darktable_t) (hist : dt_undo_history_t)
    (action : dt_undo_action_t) :
    ((_pop_undo_reconcile dt (dt_history_duplicate (target_snapshot hist action))).pipe_remove
        = true ↔
      (reconcile_rebuilt dt (dt_history_duplicate (target_snapshot hist action))).2 ≠ 0 ∨
      (reconcile_created dt (dt_history_duplicate (target_snapshot hist action))).changed ≠ 0 ∨
      (reconcile_checked dt
        (dt_history_duplicate (target_snapshot hist action))).deleted_module_found ≠ 0) ∧
    (_pop_undo dt DT_UNDO_HISTORY hist action).develop.iop =
      (reconcile_checked dt (dt_history_duplicate (target_snapshot hist action))).iop_list ∧
    (_pop_undo dt DT_UNDO_HISTORY hist action).develop.history =
      (reconcile_created dt (dt_history_duplicate (target_snapshot hist action))).history_list ∧
    (_pop_undo dt DT_UNDO_HISTORY hist action).heap =
      (reconcile_created dt (dt_history_duplicate (target_snapshot hist action))).heap ∧
    (∀ pipe ∈ [((_pop_undo dt DT_UNDO_HISTORY hist action).develop.pipe, dt.develop.pipe),
        ((_pop_undo dt DT_UNDO_HISTORY hist action).develop.preview_pipe, dt.develop.preview_pipe),
        ((_pop_undo dt DT_UNDO_HISTORY hist action).develop.preview2_pipe,
          dt.develop.preview2_pipe)],
      if (_pop_undo_reconcile dt
          (dt_history_duplicate (target_snapshot hist action))).pipe_remove = true
      then pipe.1.cache_obsolete = 1 ∧ pipe.1.changed = pipe.2.changed ||| DT_DEV_PIPE_REMOVE ∧
        pipe.1.changed.testBit 1 = true ∧
        ∀ i, i ≠ 1 → pipe.1.changed.testBit i = pipe.2.changed.testBit i
      else pipe.1 = pipe.2) := by
  have hbit : ∀ x : Nat, (x ||| DT_DEV_PIPE_REMOVE).testBit 1 = true ∧
      ∀ i, i ≠ 1 → (x ||| DT_DEV_PIPE_REMOVE).testBit i = x.testBit i := by
    intro x
    have h2 : DT_DEV_PIPE_REMOVE = 2 ^ 1 := rfl
    refine ⟨?_, fun i hi => ?_⟩
    · rw [Nat.testBit_or, h2, Nat.testBit_two_pow_self, Bool.or_true]
    · rw [Nat.testBit_or, h2, Nat.testBit_two_pow_of_ne (Ne.symm hi), Bool.or_false]
  rw [dt_history_duplicate_eq, pop_undo_eq]
  refine ⟨?_, rfl, rfl, rfl, ?_⟩
  · unfold _pop_undo_reconcile reconcile_checked reconcile_created reconcile_rebuilt
      iop_temp_sorted
    simp only [Bool.or_eq_true, decide_eq_true_eq, or_assoc]
  · intro pipe hp
    simp only [List.mem_cons, List.mem_singleton, List.not_mem_nil, or_false] at hp
    rcases hp with rfl | rfl | rfl <;>
    · simp only [pipe_refresh]
      split
      · exact ⟨rfl, rfl, hbit _⟩
      · rfl

/-- Claim C27: `_check_deleted_instances` terminates.  Its `while(modules)`
loop, run round by round on any registry and history list, comes to its end
within `n + (n - 1) + ... + 1` rounds for a registry of `n` instances, in the
state computed by `_check_deleted_instances_loop` (on which the function is
defined).  A round either leaves everything as it is and moves `modules` to the
next node, or removes one node and resets `modules` to the first node: the list
is then shorter, and by exactly one node whenever a node is left at which the
pass starts over. -/
theorem check_deleted_instances_terminates (heap : Heap) (undo : List dt_undo_history_t)
    (dev : dt_develop_t) (iop_list : GList) (history_list : List dt_dev_history_item_t) :
    _check_deleted_instances_while heap history_list (check_rounds iop_list.chain.length)
        ⟨check_init undo dev iop_list, g_list_nth iop_list.chain 0⟩ =
      some (_check_deleted_instances_loop heap history_list iop_list.chain.length
        (check_init undo dev iop_list)) ∧
    ∀ (st : CheckResult) (modules : Nat), modules < st.iop_list.chain.length →
      ((_check_deleted_instances_body heap history_list st modules).vars = st ∧
        (_check_deleted_instances_body heap history_list st modules).modules =
          g_list_nth st.iop_list.chain (modules + 1)) ∨
      (∃ link, link < st.iop_list.chain.length ∧
        (_check_deleted_instances_body heap history_list st modules).vars.iop_list =
          g_list_remove_link st.iop_list link ∧
        (_check_deleted_instances_body heap history_list st modules).vars.deleted_module_found
          = 1 ∧
        (_check_deleted_instances_body heap history_list st modules).modules =
          g_list_nth
            (_check_deleted_instances_body heap history_list st modules).vars.iop_list.chain 0 ∧
        (_check_deleted_instances_body heap history_list st modules).vars.iop_list.chain.length
          < st.iop_list.chain.length ∧
        ((_check_deleted_instances_body heap history_list st modules).modules ≠ none →
          (_check_deleted_instances_body heap history_list st modules).vars.iop_list.chain
            = st.iop_list.chain.eraseIdx link ∧
          (_check_deleted_instances_body heap history_list st modules).vars.iop_list.chain.length
            + 1 = st.iop_list.chain.length)) := by
  refine ⟨check_while_eq_loop heap history_list iop_list.chain.length
    (check_init undo dev iop_list) (le_refl _), ?_⟩
  intro st modules hm
  rcases check_body_cases heap history_list st modules hm with h | ⟨link, hlt, h1, h2, h3⟩
  · exact Or.inl h
  · right
    obtain ⟨hlen, hne⟩ := g_list_remove_link_length st.iop_list link hlt
    refine ⟨link, hlt, h1, h2, h3, by rw [h1]; exact hlen, ?_⟩
    intro hnn
    rw [h1]
    apply hne
    intro hnil
    apply hnn
    rw [h3, h1, hnil]
    rfl

end History

namespace GradientSlider

/-! ## Lemmas on the gradient slider -/

theorem example_position : _get_position_from_screen example_slider 70 = 1 / 2 := by
  have h1 : gint_of_gdouble 70 = 70 := by
    unfold gint_of_gdouble
    norm_num
  have h2 : _screen_to_scale example_slider 70 = 1 / 2 := by
    unfold _screen_to_scale example_slider
    norm_num
  have h3 : roundf 2 = 2 := by
    unfold roundf
    have : Int.floor ((2 : ℚ) + 1 / 2) = 2 := by
      rw [Int.floor_eq_iff]
      norm_num
    rw [if_pos (by norm_num), this]
    norm_num
  unfold _get_position_from_screen
  rw [h1, h2]
  have h4 : (1 / 2 : ℚ) / example_slider.increment = 2 := by
    unfold example_slider
    norm_num
  rw [h4, h3]
  unfold CLAMP example_slider
  norm_num

theorem example_internal :
    _get_active_marker_internal example_h example_slider 70 false = some 1 := by
  unfold _get_active_marker_internal
  rw [example_position]
  have hp : example_slider.positions = 3 := rfl
  rw [hp]
  norm_num [_get_active_marker_internal_loop, example_slider, example_h,
    _test_if_marker_is_upper_or_down, abs_of_pos, abs_of_nonneg]

theorem test_either (h : gradientslider_h) (hd : h.distinct) (marker : Int) :
    _test_if_marker_is_upper_or_down h marker true = true ∨
    _test_if_marker_is_upper_or_down h marker false = true := by
  by_cases hl : marker = h.GRADIENT_SLIDER_MARKER_LOWER_OPEN ∨
      marker = h.GRADIENT_SLIDER_MARKER_LOWER_FILLED ∨
      marker = h.GRADIENT_SLIDER_MARKER_LOWER_OPEN_BIG ∨
      marker = h.GRADIENT_SLIDER_MARKER_LOWER_FILLED_BIG
  · right
    have hu : ¬ (marker = h.GRADIENT_SLIDER_MARKER_UPPER_OPEN ∨
        marker = h.GRADIENT_SLIDER_MARKER_UPPER_FILLED ∨
        marker = h.GRADIENT_SLIDER_MARKER_UPPER_OPEN_BIG ∨
        marker = h.GRADIENT_SLIDER_MARKER_UPPER_FILLED_BIG) := by
      intro hu
      have hml : marker ∈ [h.GRADIENT_SLIDER_MARKER_LOWER_OPEN,
          h.GRADIENT_SLIDER_MARKER_LOWER_FILLED, h.GRADIENT_SLIDER_MARKER_LOWER_OPEN_BIG,
          h.GRADIENT_SLIDER_MARKER_LOWER_FILLED_BIG] := by
        simpa using hl
      have hmu : marker ∈ [h.GRADIENT_SLIDER_MARKER_UPPER_OPEN,
          h.GRADIENT_SLIDER_MARKER_UPPER_FILLED, h.GRADIENT_SLIDER_MARKER_UPPER_OPEN_BIG,
          h.GRADIENT_SLIDER_MARKER_UPPER_FILLED_BIG] := by
        simpa using hu
      exact hd marker hml marker hmu rfl
    unfold _test_if_marker_is_upper_or_down
    simp [hu]
  · left
    unfold _test_if_marker_is_upper_or_down
    simp [hl]

/-- What the loop of `_get_active_marker_internal` returns: `-1` when it began
with `-1` and no marker from `k` on is accepted, an accepted marker otherwise. -/
theorem active_marker_loop_spec (h : gradientslider_h) (g : GtkDarktableGradientSlider)
    (np : ℚ) (up : Bool) :
    ∀ (fuel : Nat) (k lselected : Int), 0 ≤ k → g.positions ≤ k + fuel →
      (lselected = -1 ∨ accepted h g up lselected) →
      ((_get_active_marker_internal_loop h g np up fuel k lselected = -1 ∧ lselected = -1 ∧
          ∀ j, k ≤ j → ¬ accepted h g up j) ∨
        accepted h g up (_get_active_marker_internal_loop h g np up fuel k lselected)) := by
  have hend : ∀ (k lselected : Int), g.positions ≤ k →
      (lselected = -1 ∨ accepted h g up lselected) →
      ((lselected = -1 ∧ lselected = -1 ∧ ∀ j, k ≤ j → ¬ accepted h g up j) ∨
        accepted h g up lselected) := by
    intro k lselected hk hl
    rcases hl with hl | hl
    · left
      refine ⟨hl, hl, fun j hj ha => ?_⟩
      have := ha.2.1
      omega
    · exact Or.inr hl
  intro fuel
  induction fuel with
  | zero =>
    intro k lselected _ hf hl
    unfold _get_active_marker_internal_loop
    exact hend k lselected (by simpa using hf) hl
  | succ n ih =>
    intro k lselected h0 hf hl
    unfold _get_active_marker_internal_loop
    by_cases hk : k < g.positions
    · rw [if_pos hk]
      have hf1 : g.positions ≤ k + 1 + (n : Int) := by push_cast at hf; omega
      by_cases ht : _test_if_marker_is_upper_or_down h (g.marker k) up = true
      · rw [if_pos ht]
        have hacc : accepted h g up (if lselected < 0 then k else lselected) := by
          split
          · exact ⟨h0, hk, ht⟩
          · rename_i hneg
            rcases hl with hl | hl
            · omega
            · exact hl
        generalize (if lselected < 0 then k else lselected) = l1 at hacc ⊢
        by_cases hc : abs (np - g.position k) < abs (np - g.position l1)
        · rw [if_pos hc]
          exact Or.inr ⟨h0, hk, ht⟩
        · rw [if_neg hc]
          rcases ih (k + 1) l1 (by omega) hf1 (Or.inr hacc) with ⟨-, hm, -⟩ | hr
          · have := hacc.1
            omega
          · exact Or.inr hr
      · rw [if_neg ht]
        rcases ih (k + 1) lselected (by omega) hf1 hl with ⟨h1, h2, h3⟩ | hr
        · left
          refine ⟨h1, h2, fun j hj ha => ?_⟩
          rcases eq_or_lt_of_le hj with rfl | hlt
          · exact ht ha.2.2
          · exact h3 j (by omega) ha
        · exact Or.inr hr
    · rw [if_neg hk]
      exact hend k lselected (by omega) hl

/-- `_get_active_marker_internal` returns `-1` exactly when no marker is
accepted on the side asked for, and an accepted marker otherwise. -/
theorem active_marker_internal_spec (h : gradientslider_h) (widget : GtkDarktableGradientSlider)
    (hpos : 0 < widget.positions) (x : ℚ) (up : Bool) :
    ∃ i, _get_active_marker_internal h widget x up = some i ∧
      ((i = -1 ∧ ∀ j, ¬ accepted h widget up j) ∨ accepted h widget up i) := by
  unfold _get_active_marker_internal
  rw [if_pos hpos]
  refine ⟨_, rfl, ?_⟩
  rcases active_marker_loop_spec h widget (_get_position_from_screen widget x) up
      widget.positions.toNat 0 (-1) (le_refl _) (by omega) (Or.inl rfl) with ⟨h1, -, h3⟩ | hr
  · exact Or.inl ⟨h1, fun j ha => h3 j ha.1 ha⟩
  · exact Or.inr hr

theorem distinct_example : example_h.distinct := by
  unfold gradientslider_h.distinct example_h
  simp

/-- A move to the right with enough fuel: marker `k` and the markers after it
that lie below `value` end at `value`, nothing else changes. -/
theorem slider_move_right (h : gradientslider_h) (hdir : h.MOVE_LEFT ≠ h.MOVE_RIGHT)
    (g : GtkDarktableGradientSlider) (value : ℚ) (hv : value ≤ 1) :
    ∀ (fuel : Nat) (k : Int), 0 ≤ k → k < g.positions → g.positions ≤ k + fuel →
      (∀ i j : Int, k < i → i ≤ j → j < g.positions → g.position i ≤ g.position j) →
      ∃ p : Int → ℚ,
        _slider_move h fuel g k value h.MOVE_RIGHT = some ({ g with position := p }, value) ∧
        ∀ j, p j = if j = k then value
          else if k < j ∧ j < g.positions ∧ g.position j < value then value
          else g.position j := by
  intro fuel
  induction fuel with
  | zero =>
    intro k _ hk hf
    simp only [Nat.cast_zero, add_zero] at hf
    omega
  | succ n ih =>
    intro k h0 hk hf hs
    have hf1 : g.positions ≤ k + 1 + (n : Int) := by push_cast at hf; omega
    unfold _slider_move
    simp only [Ne.symm hdir, if_false, if_true]
    by_cases hlast : k = g.positions - 1
    · have hnot : ¬ value > 1 := not_lt.2 hv
      rw [if_pos hlast, if_neg hnot]
      refine ⟨Function.update g.position k value, rfl, fun j => ?_⟩
      rw [Function.update_apply]
      by_cases hjk : j = k
      · rw [if_pos hjk, if_pos hjk]
      · rw [if_neg hjk, if_neg hjk, if_neg]
        rintro ⟨h1, h2, -⟩
        omega
    · rw [if_neg hlast]
      by_cases hgt : value > g.position (k + 1)
      · rw [if_pos hgt, if_neg hlast]
        obtain ⟨p, hp, hform⟩ := ih (k + 1) (by omega) (by omega) hf1
          (fun i j hi hij hj => hs i j (by omega) hij hj)
        rw [hp]
        refine ⟨Function.update p k value, rfl, fun j => ?_⟩
        rw [Function.update_apply]
        by_cases hjk : j = k
        · rw [if_pos hjk, if_pos hjk]
        · rw [if_neg hjk, if_neg hjk, hform j]
          by_cases hj1 : j = k + 1
          · rw [if_pos hj1, if_pos]
            subst hj1
            exact ⟨by omega, by omega, hgt⟩
          · rw [if_neg hj1]
            have hiff : (k + 1 < j ∧ j < g.positions ∧ g.position j < value) ↔
                (k < j ∧ j < g.positions ∧ g.position j < value) := by
              constructor
              · rintro ⟨a, b, c⟩; exact ⟨by omega, b, c⟩
              · rintro ⟨a, b, c⟩; exact ⟨by omega, b, c⟩
            simp only [hiff]
      · rw [if_neg hgt]
        refine ⟨Function.update g.position k value, rfl, fun j => ?_⟩
        rw [Function.update_apply]
        by_cases hjk : j = k
        · rw [if_pos hjk, if_pos hjk]
        · rw [if_neg hjk, if_neg hjk, if_neg]
          rintro ⟨h1, h2, h3⟩
          have := hs (k + 1) j (by omega) (by omega) h2
          exact hgt (lt_of_le_of_lt this h3)

/-- A move to the left with enough fuel: marker `k` and the markers before it
that lie above `value` end at `value`, nothing else changes. -/
theorem slider_move_left (h : gradientslider_h)
    (g : GtkDarktableGradientSlider) (value : ℚ) (hv : 0 ≤ value) :
    ∀ (fuel : Nat) (k : Int), 0 ≤ k → k < g.positions → k + 1 ≤ fuel →
      (∀ i j : Int, 0 ≤ i → i ≤ j → j < k → g.position i ≤ g.position j) →
      ∃ p : Int → ℚ,
        _slider_move h fuel g k value h.MOVE_LEFT = some ({ g with position := p }, value) ∧
        ∀ j, p j = if j = k then value
          else if 0 ≤ j ∧ j < k ∧ value < g.position j then value
          else g.position j := by
  intro fuel
  induction fuel with
  | zero =>
    intro k h0 _ hf
    simp only [Nat.cast_zero] at hf
    omega
  | succ n ih =>
    intro k h0 hk hf hs
    have hf1 : k - 1 + 1 ≤ (n : Int) := by push_cast at hf; omega
    unfold _slider_move
    simp only [if_true]
    by_cases hfirst : k = 0
    · have hnot : ¬ value < 0 := not_lt.2 hv
      rw [if_pos hfirst, if_neg hnot]
      refine ⟨Function.update g.position k value, rfl, fun j => ?_⟩
      rw [Function.update_apply]
      by_cases hjk : j = k
      · rw [if_pos hjk, if_pos hjk]
      · rw [if_neg hjk, if_neg hjk, if_neg]
        rintro ⟨h1, h2, -⟩
        omega
    · rw [if_neg hfirst]
      by_cases hlt : value < g.position (k - 1)
      · rw [if_pos hlt, if_neg hfirst]
        obtain ⟨p, hp, hform⟩ := ih (k - 1) (by omega) (by omega) hf1
          (fun i j hi hij hj => hs i j hi hij (by omega))
        rw [hp]
        refine ⟨Function.update p k value, rfl, fun j => ?_⟩
        rw [Function.update_apply]
        by_cases hjk : j = k
        · rw [if_pos hjk, if_pos hjk]
        · rw [if_neg hjk, if_neg hjk, hform j]
          by_cases hj1 : j = k - 1
          · rw [if_pos hj1, if_pos]
            subst hj1
            exact ⟨by omega, by omega, hlt⟩
          · rw [if_neg hj1]
            have hiff : (0 ≤ j ∧ j < k - 1 ∧ value < g.position j) ↔
                (0 ≤ j ∧ j < k ∧ value < g.position j) := by
              constructor
              · rintro ⟨a, b, c⟩; exact ⟨a, by omega, c⟩
              · rintro ⟨a, b, c⟩; exact ⟨a, by omega, c⟩
            simp only [hiff]
      · rw [if_neg hlt]
        refine ⟨Function.update g.position k value, rfl, fun j => ?_⟩
        rw [Function.update_apply]
        by_cases hjk : j = k
        · rw [if_pos hjk, if_pos hjk]
        · rw [if_neg hjk, if_neg hjk, if_neg]
          rintro ⟨h1, h2, h3⟩
          have := hs j (k - 1) h1 (by omega) (by omega)
          exact hlt (lt_of_lt_of_le h3 this)

theorem toNat_fuel (n k : Int) (h0 : 0 ≤ k) (hk : k < n) : n ≤ k + (n.toNat : Int) := by
  rw [Int.toNat_of_nonneg (by omega)]
  omega

theorem ordered_example : ordered example_slider := by
  intro i j hi hij hj
  have hj3 : j < 3 := hj
  have hcases : (i = 0 ∨ i = 1 ∨ i = 2) ∧ (j = 0 ∨ j = 1 ∨ j = 2) := by omega
  rcases hcases with ⟨rfl | rfl | rfl, rfl | rfl | rfl⟩ <;>
    first
    | omega
    | (simp only [example_slider]; norm_num)

theorem within_unit_example : within_unit example_slider := by
  intro j hj0 hj
  have hj3 : j < 3 := hj
  have hcases : j = 0 ∨ j = 1 ∨ j = 2 := by omega
  rcases hcases with rfl | rfl | rfl <;> (simp only [example_slider]; norm_num)

/-! ## The claims on the gradient slider -/

/-- Claim C28: the marker ordering invariant.  For a slider whose marker
positions are non-decreasing and lie in `[0, 1]`, a marker `k` and a value in
`[0, 1]`, `_slider_move` called with the direction its callers pass returns
(within a recursion depth of `positions`), returns `value`, sets `position[k]`
to `value`, sets to `value` exactly the markers that `value` has passed, leaves
every other marker and every other field unchanged, and the positions are again
non-decreasing and within `[0, 1]`.  The two direction constants are those of
the header, of which only this is used: they differ. -/
theorem slider_move_keeps_order (h : gradientslider_h) (hdir : h.MOVE_LEFT ≠ h.MOVE_RIGHT)
    (gslider : GtkDarktableGradientSlider) (k : Int) (value : ℚ)
    (hord : ordered gslider) (hunit : within_unit gslider)
    (hk0 : 0 ≤ k) (hk : k < gslider.positions) (hv0 : 0 ≤ value) (hv1 : value ≤ 1) :
    ∃ p : Int → ℚ,
      _slider_move h gslider.positions.toNat gslider k value (move_direction h gslider k value)
        = some ({ gslider with position := p }, value) ∧
      p k = value ∧
      (∀ j, p j = if j = k then value else if passed gslider k value j then value
        else gslider.position j) ∧
      ordered { gslider with position := p } ∧ within_unit { gslider with position := p } := by
  by_cases hle : gslider.position k ≤ value
  · obtain ⟨p, hp, hform⟩ := slider_move_right h hdir gslider value hv1 gslider.positions.toNat k
      hk0 hk (toNat_fuel _ _ hk0 hk) (fun i j hi hij hj => hord i j (by omega) hij hj)
    have key : ∀ j, 0 ≤ j → j < gslider.positions →
        p j = if j < k then gslider.position j else max (gslider.position j) value := by
      intro j hj0 hj
      rw [hform j]
      by_cases hjk : j = k
      · subst hjk
        rw [if_pos rfl, if_neg (lt_irrefl _), max_eq_right hle]
      · rw [if_neg hjk]
        by_cases hlt : j < k
        · rw [if_pos hlt, if_neg]
          rintro ⟨h1, -, -⟩
          omega
        · rw [if_neg hlt]
          by_cases hc : gslider.position j < value
          · rw [if_pos ⟨by omega, hj, hc⟩, max_eq_right (le_of_lt hc)]
          · rw [if_neg (fun hh => hc hh.2.2), max_eq_left (not_lt.1 hc)]
    refine ⟨p, ?_, ?_, ?_, ?_, ?_⟩
    · unfold move_direction
      rw [if_pos hle]
      exact hp
    · rw [hform k, if_pos rfl]
    · intro j
      rw [hform j]
      by_cases hjk : j = k
      · rw [if_pos hjk, if_pos hjk]
      · rw [if_neg hjk, if_neg hjk]
        have hiff : (k < j ∧ j < gslider.positions ∧ gslider.position j < value) ↔
            passed gslider k value j := by
          unfold passed
          constructor
          · rintro ⟨a, b, c⟩
            exact ⟨by omega, b, Or.inl ⟨a, c⟩⟩
          · rintro ⟨a, b, ⟨c, d⟩ | ⟨c, d⟩⟩
            · exact ⟨c, b, d⟩
            · exact absurd (lt_of_lt_of_le d (le_trans (hord j k a (le_of_lt c) hk) hle))
                (lt_irrefl _)
        simp only [hiff]
    · intro i j hi hij hj2
      have hj : j < gslider.positions := hj2
      show p i ≤ p j
      rw [key i hi (by omega), key j (by omega) hj]
      by_cases hik : i < k
      · rw [if_pos hik]
        by_cases hjk : j < k
        · rw [if_pos hjk]
          exact hord i j hi hij hj
        · rw [if_neg hjk]
          exact le_trans (le_trans (hord i k hi (le_of_lt hik) hk) hle) (le_max_right _ _)
      · rw [if_neg hik, if_neg (by omega)]
        exact max_le_max (hord i j hi hij hj) (le_refl _)
    · intro j hj0 hj2
      have hj : j < gslider.positions := hj2
      show 0 ≤ p j ∧ p j ≤ 1
      rw [key j hj0 hj]
      obtain ⟨h1, h2⟩ := hunit j hj0 hj
      split
      · exact ⟨h1, h2⟩
      · exact ⟨le_trans h1 (le_max_left _ _), max_le h2 hv1⟩
  · have hgt : value < gslider.position k := not_le.1 hle
    obtain ⟨p, hp, hform⟩ := slider_move_left h gslider value hv0 gslider.positions.toNat k
      hk0 hk (by have := toNat_fuel _ _ hk0 hk; omega)
      (fun i j hi hij hj => hord i j hi hij (by omega))
    have key : ∀ j, 0 ≤ j → j < gslider.positions →
        p j = if k < j then gslider.position j else min (gslider.position j) value := by
      intro j hj0 hj
      rw [hform j]
      by_cases hjk : j = k
      · subst hjk
        rw [if_pos rfl, if_neg (lt_irrefl _), min_eq_right (le_of_lt hgt)]
      · rw [if_neg hjk]
        by_cases hlt : k < j
        · rw [if_pos hlt, if_neg]
          rintro ⟨-, h1, -⟩
          omega
        · rw [if_neg hlt]
          by_cases hc : value < gslider.position j
          · rw [if_pos ⟨hj0, by omega, hc⟩, min_eq_right (le_of_lt hc)]
          · rw [if_neg (fun hh => hc hh.2.2), min_eq_left (not_lt.1 hc)]
    refine ⟨p, ?_, ?_, ?_, ?_, ?_⟩
    · unfold move_direction
      rw [if_neg hle]
      exact hp
    · rw [hform k, if_pos rfl]
    · intro j
      rw [hform j]
      by_cases hjk : j = k
      · rw [if_pos hjk, if_pos hjk]
      · rw [if_neg hjk, if_neg hjk]
        have hiff : (0 ≤ j ∧ j < k ∧ value < gslider.position j) ↔
            passed gslider k value j := by
          unfold passed
          constructor
          · rintro ⟨a, b, c⟩
            exact ⟨a, by omega, Or.inr ⟨b, c⟩⟩
          · rintro ⟨a, b, ⟨c, d⟩ | ⟨c, d⟩⟩
            · exact absurd (lt_of_lt_of_le (lt_of_le_of_lt (hord k j hk0 (le_of_lt c) b) d)
                (le_of_lt hgt)) (lt_irrefl _)
            · exact ⟨a, c, d⟩
        simp only [hiff]
    · intro i j hi hij hj2
      have hj : j < gslider.positions := hj2
      show p i ≤ p j
      rw [key i hi (by omega), key j (by omega) hj]
      by_cases hjk : k < j
      · rw [if_pos hjk]
        by_cases hik : k < i
        · rw [if_pos hik]
          exact hord i j hi hij hj
        · rw [if_neg hik]
          exact le_trans (min_le_right _ _)
            (le_trans (le_of_lt hgt) (hord k j hk0 (le_of_lt hjk) hj))
      · rw [if_neg hjk, if_neg (by omega)]
        exact min_le_min (hord i j hi hij hj) (le_refl _)
    · intro j hj0 hj2
      have hj : j < gslider.positions := hj2
      show 0 ≤ p j ∧ p j ≤ 1
      rw [key j hj0 hj]
      obtain ⟨h1, h2⟩ := hunit j hj0 hj
      split
      · exact ⟨h1, h2⟩
      · exact ⟨le_min h1 hv0, le_trans (min_le_left _ _) h2⟩

/-- Witness for claim C28: in the example slider the marker 0 moves from `0` to
`3/8`, past the marker 1 at `1/4`. -/
theorem slider_move_keeps_order_witness :
    example_h.MOVE_LEFT ≠ example_h.MOVE_RIGHT ∧ ordered example_slider ∧
    within_unit example_slider ∧ (0 : Int) ≤ 0 ∧ (0 : Int) < example_slider.positions ∧
    (0 : ℚ) ≤ 3 / 8 ∧ (3 / 8 : ℚ) ≤ 1 ∧
    ∃ p : Int → ℚ,
      _slider_move example_h example_slider.positions.toNat example_slider 0 (3 / 8)
          (move_direction example_h example_slider 0 (3 / 8))
        = some ({ example_slider with position := p }, 3 / 8) ∧
      p 0 = 3 / 8 ∧
      (∀ j, p j = if j = 0 then 3 / 8 else if passed example_slider 0 (3 / 8) j then 3 / 8
        else example_slider.position j) ∧
      ordered { example_slider with position := p } ∧
      within_unit { example_slider with position := p } :=
  ⟨by decide, ordered_example, within_unit_example, by decide, by decide, by norm_num,
    by norm_num,
    slider_move_keeps_order example_h (by decide) example_slider 0 (3 / 8) ordered_example
      within_unit_example (by decide) (by decide) (by norm_num) (by norm_num)⟩

/-- Claim C29: for every slider with at least one marker and every pointer
position, `_get_active_marker_from_screen` passes its assertions and returns an
  index `i` with `0 ≤ i ≤ positions - 1`, so the assertions of its caller hold.
Every marker type is accepted by `_test_if_marker_is_upper_or_down` for
`up = TRUE` or for `up = FALSE`, so when the search on one side returns `-1` the
search on the other side returns a marker.  The marker constants are those of
the header, of which only this is used: no constant of the lower side is one of
the upper side. -/
theorem active_marker_from_screen_in_range (h : gradientslider_h) (hd : h.distinct)
    (widget : GtkDarktableGradientSlider) (hpos : 0 < widget.positions) (x y : ℚ) :
    (∀ marker, _test_if_marker_is_upper_or_down h marker true = true ∨
      _test_if_marker_is_upper_or_down h marker false = true) ∧
    (∀ up, _get_active_marker_internal h widget x up = some (-1) →
      ∃ i, _get_active_marker_internal h widget x (!up) = some i ∧ 0 ≤ i ∧
        i ≤ widget.positions - 1) ∧
    ∃ i, _get_active_marker_from_screen h widget x y = some i ∧ 0 ≤ i ∧
      i ≤ widget.positions - 1 := by
  have hfall : ∀ up, _get_active_marker_internal h widget x up = some (-1) →
      ∃ i, _get_active_marker_internal h widget x (!up) = some i ∧ 0 ≤ i ∧
        i ≤ widget.positions - 1 := by
    intro up hfirst
    obtain ⟨i, hi, hor⟩ := active_marker_internal_spec h widget hpos x up
    rw [hfirst] at hi
    cases hi
    have hnone : ∀ j, ¬ accepted h widget up j := by
      rcases hor with ⟨-, hn⟩ | ha
      · exact hn
      · have := ha.1
        omega
    obtain ⟨i2, hi2, hor2⟩ := active_marker_internal_spec h widget hpos x (!up)
    refine ⟨i2, hi2, ?_⟩
    rcases hor2 with ⟨-, hn2⟩ | ha2
    · exfalso
      rcases test_either h hd (widget.marker 0) with ht | ht
      · cases up
        · exact hn2 0 ⟨le_refl _, hpos, ht⟩
        · exact hnone 0 ⟨le_refl _, hpos, ht⟩
      · cases up
        · exact hnone 0 ⟨le_refl _, hpos, ht⟩
        · exact hn2 0 ⟨le_refl _, hpos, ht⟩
    · have h1 := ha2.1
      have h2 := ha2.2.1
      exact ⟨h1, by omega⟩
  refine ⟨test_either h hd, hfall, ?_⟩
  unfold _get_active_marker_from_screen
  simp only
  generalize decide (y ≤ (widget.allocation.height : ℚ) / 2) = up
  obtain ⟨i, hi, hor⟩ := active_marker_internal_spec h widget hpos x up
  rw [hi]
  simp only
  rcases hor with ⟨hm, -⟩ | ha
  · subst hm
    obtain ⟨i2, hi2, h1, h2⟩ := hfall up hi
    rw [if_pos (by decide), hi2]
    simp only [ge_iff_le, h1, if_true]
    exact ⟨i2, rfl, h1, h2⟩
  · have h1 := ha.1
    have h2 := ha.2.1
    rw [if_neg (by omega)]
    simp only [ge_iff_le, h1, if_true]
    exact ⟨i, rfl, h1, by omega⟩

/-- Witness for claim C29: the example slider, with the pointer on its upper
half, where it has no marker. -/
theorem active_marker_from_screen_in_range_witness :
    example_h.distinct ∧ 0 < example_slider.positions ∧
    (∀ marker, _test_if_marker_is_upper_or_down example_h marker true = true ∨
      _test_if_marker_is_upper_or_down example_h marker false = true) ∧
    (∀ up, _get_active_marker_internal example_h example_slider 70 up = some (-1) →
      ∃ i, _get_active_marker_internal example_h example_slider 70 (!up) = some i ∧ 0 ≤ i ∧
        i ≤ example_slider.positions - 1) ∧
    ∃ i, _get_active_marker_from_screen example_h example_slider 70 5 = some i ∧ 0 ≤ i ∧
      i ≤ example_slider.positions - 1 :=
  ⟨distinct_example, by decide,
    active_marker_from_screen_in_range example_h distinct_example example_slider (by decide) 70 5⟩

/-- Claim C30, the failing input: the example slider has three markers of the
lower side at `0`, `1/4` and `1/2`, and the pointer is at abscissa 70, which is
the position `1/2`.  The search on the lower side returns marker 1, at distance
`1/4`, although marker 2 is accepted too and lies at distance 0: the loop
leaves at the first marker that is closer than the first accepted one. -/
theorem active_marker_internal_not_nearest :
    _get_position_from_screen example_slider 70 = 1 / 2 ∧
    _get_active_marker_internal example_h example_slider 70 false = some 1 ∧
    accepted example_h example_slider false 2 ∧
    abs (_get_position_from_screen example_slider 70 - example_slider.position 2) <
      abs (_get_position_from_screen example_slider 70 - example_slider.position 1) := by
  refine ⟨example_position, example_internal, ⟨by decide, by decide, by decide⟩, ?_⟩
  rw [example_position]
  norm_num [example_slider, abs_of_pos]

end GradientSlider
